import Mathlib

/-!
Verification of the StarPU arbiter protocol (data_arbiter_concurrency.c).

We give a shallow embedding of the arbiter code paths (the non
LOCK_OR_DELEGATE build): the submission-time try-acquire pass with its
abort/rollback/record logic (`_starpu_submit_job_enforce_arbitered_deps`),
the notification scan (`_starpu_notify_arbitered_dependencies`), and
`starpu_data_assign_arbiter`.  The global state maps handle identifiers to
the fields the code manipulates (`refcnt`, `busy_count`, `current_mode`,
`arbiter`, `arbitered_req_list`).  Each operation additionally returns the
sequence of lock/unlock/push events it performs, so that lock-ordering
properties can be stated.
-/

namespace StarPU

/-- Access modes (`enum starpu_data_access_mode`); only equality matters to
the arbiter code, which copies modes around. -/
inductive AccessMode
  | NONE
  | R
  | W
  | RW
  | SCRATCH
  | REDUX
deriving DecidableEq, Repr

/-- A job: identifier plus its ordered buffer list (handle id, access mode),
as read through `_STARPU_JOB_GET_ORDERED_BUFFER_HANDLE` /
`_STARPU_JOB_GET_ORDERED_BUFFER_MODE`. -/
structure Job where
  id : Nat
  buffers : List (Nat × AccessMode)
deriving DecidableEq, Repr

/-- A node of `struct _starpu_data_requester` as built at lines 313-319:
mode, the job, and the buffer index (the callback fields are always NULL
there and `is_requested_by_codelet` is always 1). -/
structure Requester where
  mode : AccessMode
  j : Job
  buffer_index : Nat
deriving DecidableEq, Repr

/-- The fields of `struct _starpu_data_state` (a data handle) that the
arbiter code reads or writes. `arbiter` is the optional arbiter pointer,
`arbitered_req_list` is NULL (`none`) or an allocated list whose head is
the list's front. -/
structure HandleState where
  arbiter : Option Nat
  refcnt : Nat
  busy_count : Nat
  current_mode : AccessMode
  arbitered_req_list : Option (List Requester)
deriving DecidableEq, Repr

/-- Global state: every handle id has a handle state. -/
def State := Nat → HandleState

/-- Update one handle's state. -/
def upd (σ : State) (h : Nat) (f : HandleState → HandleState) : State :=
  fun x => if x = h then f (σ x) else σ x

/-- Lock/unlock/push events, to state lock-ordering properties.
`recurse` stands for the tail call `_starpu_submit_job_enforce_arbitered_deps(j, idx, nbuffers)`
into the next arbiter group. -/
inductive Event
  | lockArb
  | unlockArb
  | lockH (h : Nat)
  | unlockH (h : Nat)
  | pushTask (jobId : Nat)
  | recurse (jobId : Nat) (buf : Nat)
deriving DecidableEq, Repr

def Job.nbuffers (j : Job) : Nat := j.buffers.length

def Job.handleOf (j : Job) (i : Nat) : Nat := (j.buffers.getD i (0, AccessMode.NONE)).1

def Job.modeOf (j : Job) (i : Nat) : AccessMode := (j.buffers.getD i (0, AccessMode.NONE)).2

/-- The duplicate-skip test `idx_buf && (HANDLE(j, idx_buf-1) == HANDLE(j, idx_buf))`
used at lines 255, 396, 414, 445 and 493. -/
def Job.dupSkip (j : Job) (i : Nat) : Prop :=
  i ≠ 0 ∧ j.handleOf (i-1) = j.handleOf i

instance (j : Job) (i : Nat) : Decidable (j.dupSkip i) :=
  inferInstanceAs (Decidable (i ≠ 0 ∧ j.handleOf (i-1) = j.handleOf i))

/-- The successful fast take of the submission pass (lines 269-273):
`refcnt += 1; busy_count += 1; current_mode = mode`. -/
def fastTakeSubmit (σ : State) (h : Nat) (m : AccessMode) : State :=
  upd σ h fun s =>
    { s with refcnt := s.refcnt + 1, busy_count := s.busy_count + 1, current_mode := m }

/-- The submission try-acquire loop, lines 250-283.  Iterates `rem` more
buffer indices starting at `idx`; skips adjacent duplicates, breaks when the
handle belongs to another arbiter, fast-takes a handle whose `refcnt` is 0
and stops with failure at the first handle whose `refcnt` is non-zero.
Returns the final state, the exit value of `idx_buf_arbiter`, the flag
`all_arbiter_available` and the event trace. -/
def acquireLoop (j : Job) (arb : Option Nat) :
    Nat → Nat → State → State × Nat × Bool × List Event
  | 0, idx, σ => (σ, idx, true, [])
  | rem+1, idx, σ =>
    if j.dupSkip idx then acquireLoop j arb rem (idx+1) σ
    else if (σ (j.handleOf idx)).arbiter ≠ arb then (σ, idx, true, [])
    else if (σ (j.handleOf idx)).refcnt = 0 then
      let res := acquireLoop j arb rem (idx+1)
          (fastTakeSubmit σ (j.handleOf idx) (j.modeOf idx))
      (res.1, res.2.1, res.2.2.1,
        Event.lockH (j.handleOf idx) :: Event.unlockH (j.handleOf idx) :: res.2.2.2)
    else (σ, idx, false, [Event.lockH (j.handleOf idx), Event.unlockH (j.handleOf idx)])

/-- The rollback loop, lines 288-303 (also lines 490-501 of the notify
path, which are identical): for `rem` indices from `idx` (up to the failed
`idx_buf_arbiter`), skip adjacent duplicates, break on another arbiter, and
undo the take with `refcnt -= 1`. -/
def cancelLoop (j : Job) (arb : Option Nat) :
    Nat → Nat → State → State × List Event
  | 0, _, σ => (σ, [])
  | rem+1, idx, σ =>
    if j.dupSkip idx then cancelLoop j arb rem (idx+1) σ
    else if (σ (j.handleOf idx)).arbiter ≠ arb then (σ, [])
    else
      let res := cancelLoop j arb rem (idx+1)
          (upd σ (j.handleOf idx) fun s => { s with refcnt := s.refcnt - 1 })
      (res.1, Event.lockH (j.handleOf idx) :: Event.unlockH (j.handleOf idx) :: res.2)

/-- The requester-recording loop, lines 305-331: for every buffer index
from `idx` on (note: this loop has no adjacent-duplicate skip), break on
another arbiter, build a requester, allocate the handle's list if NULL,
push the requester at the FRONT of the list
(`_starpu_data_requester_list_push_front`), and increment `busy_count`
unless the first loop already did (`idx_buf_arbiter <= idx_buf_cancel`). -/
def recordLoop (j : Job) (arb : Option Nat) (idxA : Nat) :
    Nat → Nat → State → State × List Event
  | 0, _, σ => (σ, [])
  | rem+1, idx, σ =>
    if (σ (j.handleOf idx)).arbiter ≠ arb then (σ, [])
    else
      let r : Requester := { mode := j.modeOf idx, j := j, buffer_index := idx }
      let res := recordLoop j arb idxA rem (idx+1)
        (upd σ (j.handleOf idx) fun s =>
          { s with
            arbitered_req_list := some (r :: s.arbitered_req_list.getD []),
            busy_count := if idxA ≤ idx then s.busy_count + 1 else s.busy_count })
      (res.1, Event.lockH (j.handleOf idx) :: Event.unlockH (j.handleOf idx) :: res.2)

/-- Outcome of one call of `_starpu_submit_job_enforce_arbitered_deps`. -/
inductive SubmitOutcome
  | parked
  | continued (buf : Nat)
  | pushed
deriving DecidableEq, Repr

/-- One call of `_starpu_submit_job_enforce_arbitered_deps(j, buf, nbuffers)`
(lines 238-351, non LOCK_OR_DELEGATE build): run the try-acquire pass; on
failure roll back the takes, record a requester on each handle of the group
and return with the task parked; on success either tail-call into the next
arbiter group (`continued`) or push the task (`pushed`). -/
def submit_job_enforce_arbitered_deps (j : Job) (buf : Nat) (σ : State) :
    State × SubmitOutcome × List Event :=
  let arb := (σ (j.handleOf buf)).arbiter
  let acq := acquireLoop j arb (j.nbuffers - buf) buf σ
  let σ₁ := acq.1
  let idxA := acq.2.1
  if acq.2.2.1 then
    if idxA < j.nbuffers then
      (σ₁, SubmitOutcome.continued idxA,
        Event.lockArb :: acq.2.2.2 ++ [Event.unlockArb, Event.recurse j.id idxA])
    else
      (σ₁, SubmitOutcome.pushed,
        Event.lockArb :: acq.2.2.2 ++ [Event.unlockArb, Event.pushTask j.id])
  else
    let can := cancelLoop j arb (idxA - buf) buf σ₁
    let rec' := recordLoop j arb idxA (j.nbuffers - buf) buf can.1
    (rec'.1, SubmitOutcome.parked,
      Event.lockArb :: (acq.2.2.2 ++ can.2 ++ rec'.2) ++ [Event.unlockArb])

/-- The search for `nb_non_arbitered_buff`, lines 393-406: first buffer
index (skipping adjacent duplicates) whose handle belongs to this arbiter;
`nbuffers` if none. -/
def findFirstGroupIdx (j : Job) (arb : Option Nat) (σ : State) :
    Nat → Nat → Nat
  | 0, i => i
  | rem+1, i =>
    if j.dupSkip i then findFirstGroupIdx j arb σ rem (i+1)
    else if (σ (j.handleOf i)).arbiter = arb then i
    else findFirstGroupIdx j arb σ rem (i+1)

/-- The notify fast take, lines 434-436: `refcnt += 1; current_mode = mode`
(no `busy_count` change: the parked requester already holds its busy
reference). -/
def fastTakeNotify (σ : State) (h : Nat) (m : AccessMode) : State :=
  upd σ h fun s => { s with refcnt := s.refcnt + 1, current_mode := m }

/-- The notify try-acquire loop, lines 411-438: same skip/break structure
as the submission pass, but the take does not touch `busy_count`. -/
def notifyAcquireLoop (j : Job) (arb : Option Nat) :
    Nat → Nat → State → State × Nat × Bool × List Event
  | 0, idx, σ => (σ, idx, true, [])
  | rem+1, idx, σ =>
    if j.dupSkip idx then notifyAcquireLoop j arb rem (idx+1) σ
    else if (σ (j.handleOf idx)).arbiter ≠ arb then (σ, idx, true, [])
    else if (σ (j.handleOf idx)).refcnt ≠ 0 then
      (σ, idx, false, [Event.lockH (j.handleOf idx), Event.unlockH (j.handleOf idx)])
    else
      let res := notifyAcquireLoop j arb rem (idx+1)
          (fastTakeNotify σ (j.handleOf idx) (j.modeOf idx))
      (res.1, res.2.1, res.2.2.1,
        Event.lockH (j.handleOf idx) :: Event.unlockH (j.handleOf idx) :: res.2.2.2)

/-- Lines 185-198: remove from the list the first requester whose job is
`j` (the list is scanned from the head). -/
def remove_job_from_requester_list (l : List Requester) (j : Job) : List Requester :=
  match l with
  | [] => []
  | r :: rs => if r.j = j then rs else r :: remove_job_from_requester_list rs j

/-- The removal loop of a successful notify promotion, lines 442-465: for
each buffer of the group (skipping adjacent duplicates, breaking on another
arbiter), erase the job's requester from the handle's list and free the
list when it becomes empty.  Returns the exit value of `idx_buf_arbiter`,
used by line 474. -/
def removalLoop (j : Job) (arb : Option Nat) :
    Nat → Nat → State → State × Nat × List Event
  | 0, idx, σ => (σ, idx, [])
  | rem+1, idx, σ =>
    if j.dupSkip idx then removalLoop j arb rem (idx+1) σ
    else if (σ (j.handleOf idx)).arbiter ≠ arb then (σ, idx, [])
    else
      let res := removalLoop j arb rem (idx+1)
        (upd σ (j.handleOf idx) fun s =>
          let q := remove_job_from_requester_list (s.arbitered_req_list.getD []) j
          { s with arbitered_req_list := if q = [] then none else some q })
      (res.1, res.2.1, Event.lockH (j.handleOf idx) :: Event.unlockH (j.handleOf idx) :: res.2.2)

/-- Outcome of one call of `_starpu_notify_arbitered_dependencies`:
either nothing was promoted (returned 1), or the job was promoted and then
either handed to the next arbiter group (`some buf`) or pushed (`none`). -/
inductive NotifyOutcome
  | idle
  | promoted (jobId : Nat) (next : Option Nat)
deriving DecidableEq, Repr

/-- The scan over the notified handle's requester list, lines 386-505:
for each requester in list order, locate its arbiter group, run the notify
try-acquire loop; on full success erase its requesters from the sibling
queues, release the arbiter mutex, and hand the job on (at most one
promotion, the scan returns); on failure roll the takes back and continue
with the next requester. -/
def notifyScan (arb : Option Nat) :
    List Requester → State → State × NotifyOutcome × List Event
  | [], σ => (σ, NotifyOutcome.idle, [])
  | r :: rs, σ =>
    let j := r.j
    let nb := findFirstGroupIdx j arb σ j.nbuffers 0
    let acq := notifyAcquireLoop j arb (j.nbuffers - nb) nb σ
    let σ₁ := acq.1
    let idxA := acq.2.1
    if acq.2.2.1 then
      let rem' := removalLoop j arb (j.nbuffers - nb) nb σ₁
      if rem'.2.1 < j.nbuffers then
        (rem'.1, NotifyOutcome.promoted j.id (some rem'.2.1),
          acq.2.2.2 ++ rem'.2.2 ++ [Event.unlockArb, Event.recurse j.id rem'.2.1])
      else
        (rem'.1, NotifyOutcome.promoted j.id none,
          acq.2.2.2 ++ rem'.2.2 ++ [Event.unlockArb, Event.pushTask j.id])
    else
      let can := cancelLoop j arb (idxA - nb) nb σ₁
      let res := notifyScan arb rs can.1
      (res.1, res.2.1, acq.2.2.2 ++ can.2 ++ res.2.2)

/-- One call of `_starpu_notify_arbitered_dependencies(handle)`
(lines 367-511, non LOCK_OR_DELEGATE build): early return when the
handle's requester list pointer is NULL, otherwise scan it. -/
def notify_arbitered_dependencies (h : Nat) (σ : State) :
    State × NotifyOutcome × List Event :=
  let arb := (σ h).arbiter
  match (σ h).arbitered_req_list with
  | none => (σ, NotifyOutcome.idle, [Event.lockArb, Event.unlockArb])
  | some q =>
    let res := notifyScan arb q σ
    match res.2.1 with
    | NotifyOutcome.idle => (res.1, NotifyOutcome.idle, Event.lockArb :: res.2.2 ++ [Event.unlockArb])
    | o => (res.1, o, Event.lockArb :: res.2.2)

/-- Lines 528-534, `starpu_data_assign_arbiter`: three fatal assertions
(`!handle->arbiter`, `!handle->refcnt`, `!handle->busy_count`), then the
assignment.  `none` models the fatal abort. -/
def starpu_data_assign_arbiter (σ : State) (h : Nat) (arb : Nat) : Option State :=
  if (σ h).arbiter = none ∧ (σ h).refcnt = 0 ∧ (σ h).busy_count = 0 then
    some (upd σ h fun s => { s with arbiter := some arb })
  else
    none

/-! ### Basic lemmas about the state and the loops -/

theorem upd_same (σ : State) (h : Nat) (f : HandleState → HandleState) :
    upd σ h f h = f (σ h) := by
  simp [upd]

theorem upd_other (σ : State) (h x : Nat) (f : HandleState → HandleState)
    (hx : x ≠ h) : upd σ h f x = σ x := by
  simp [upd, hx]

theorem not_dupSkip_zero (j : Job) : ¬ j.dupSkip 0 := by
  simp [Job.dupSkip]

/-- The exit index of the submission try-acquire loop lies in
`[idx, idx+rem]`, strictly below `idx+rem` on failure. -/
theorem acquireLoop_exit_bounds (j : Job) (arb : Option Nat) :
    ∀ (rem idx : Nat) (σ : State),
      idx ≤ (acquireLoop j arb rem idx σ).2.1 ∧
      (acquireLoop j arb rem idx σ).2.1 ≤ idx + rem ∧
      ((acquireLoop j arb rem idx σ).2.2.1 = false →
        (acquireLoop j arb rem idx σ).2.1 < idx + rem) := by
  intro rem
  induction rem with
  | zero => intro idx σ; simp [acquireLoop]
  | succ rem ih =>
    intro idx σ
    by_cases hskip : j.dupSkip idx
    · obtain ⟨h1, h2, h3⟩ := ih (idx+1) σ
      simp only [acquireLoop, if_pos hskip]
      exact ⟨by omega, by omega, fun hf => by have := h3 hf; omega⟩
    · by_cases harb : (σ (j.handleOf idx)).arbiter ≠ arb
      · simp only [acquireLoop, if_neg hskip, if_pos harb]
        exact ⟨le_refl idx, by omega, fun hf => by simp at hf⟩
      · by_cases hr : (σ (j.handleOf idx)).refcnt = 0
        · obtain ⟨h1, h2, h3⟩ := ih (idx+1) (fastTakeSubmit σ (j.handleOf idx) (j.modeOf idx))
          simp only [acquireLoop, if_neg hskip, if_neg harb, if_pos hr]
          exact ⟨by omega, by omega, fun hf => by have := h3 hf; omega⟩
        · simp only [acquireLoop, if_neg hskip, if_neg harb, if_neg hr]
          exact ⟨le_refl idx, by omega, fun _ => by omega⟩

/-- Handles not attempted by the submission try-acquire loop are untouched. -/
theorem acquireLoop_frame (j : Job) (arb : Option Nat) :
    ∀ (rem idx : Nat) (σ : State) (h : Nat),
      (∀ k, idx ≤ k → k < (acquireLoop j arb rem idx σ).2.1 → j.handleOf k ≠ h) →
      (acquireLoop j arb rem idx σ).1 h = σ h := by
  intro rem
  induction rem with
  | zero => intro idx σ h _; simp [acquireLoop]
  | succ rem ih =>
    intro idx σ h hout
    by_cases hskip : j.dupSkip idx
    · simp only [acquireLoop, if_pos hskip] at hout ⊢
      exact ih (idx+1) σ h fun k hk1 hk2 => hout k (by omega) hk2
    · by_cases harb : (σ (j.handleOf idx)).arbiter ≠ arb
      · simp only [acquireLoop, if_neg hskip, if_pos harb]
      · by_cases hr : (σ (j.handleOf idx)).refcnt = 0
        · simp only [acquireLoop, if_neg hskip, if_neg harb, if_pos hr] at hout ⊢
          have hb := acquireLoop_exit_bounds j arb rem (idx+1)
            (fastTakeSubmit σ (j.handleOf idx) (j.modeOf idx))
          have hne : j.handleOf idx ≠ h := hout idx (le_refl idx) (by omega)
          have hrec := ih (idx+1) (fastTakeSubmit σ (j.handleOf idx) (j.modeOf idx)) h
            (fun k hk1 hk2 => hout k (by omega) hk2)
          rw [hrec]
          simp only [fastTakeSubmit]
          exact upd_other σ (j.handleOf idx) h _ (Ne.symm hne)
        · simp only [acquireLoop, if_neg hskip, if_neg harb, if_neg hr]

/-- Every index the submission try-acquire loop passes (up to its exit
index) pointed to a handle of this arbiter whose `refcnt` was 0, and that
handle was fast-taken: in the loop's final state it has `refcnt = 1`, its
`busy_count` incremented once and `current_mode` set to the requested mode.
Requires the visited range to be free of duplicate handles. -/
theorem acquireLoop_taken (j : Job) (arb : Option Nat) :
    ∀ (rem idx : Nat) (σ : State),
      (∀ k, idx ≤ k → k < idx + rem → ¬ j.dupSkip k) →
      (∀ k1 k2, idx ≤ k1 → k1 < k2 → k2 < idx + rem → j.handleOf k1 ≠ j.handleOf k2) →
      ∀ k, idx ≤ k → k < (acquireLoop j arb rem idx σ).2.1 →
        (σ (j.handleOf k)).arbiter = arb ∧ (σ (j.handleOf k)).refcnt = 0 ∧
        (acquireLoop j arb rem idx σ).1 (j.handleOf k) =
          { σ (j.handleOf k) with
              refcnt := 1
              busy_count := (σ (j.handleOf k)).busy_count + 1
              current_mode := j.modeOf k } := by
  intro rem
  induction rem with
  | zero =>
    intro idx σ _ _ k hk1 hk2
    simp only [acquireLoop] at hk2
    omega
  | succ rem ih =>
    intro idx σ Hd Hdist k hk1 hk2
    have hskip : ¬ j.dupSkip idx := Hd idx (le_refl idx) (by omega)
    by_cases harb : (σ (j.handleOf idx)).arbiter ≠ arb
    · simp only [acquireLoop, if_neg hskip, if_pos harb] at hk2
      omega
    · by_cases hr : (σ (j.handleOf idx)).refcnt = 0
      · simp only [acquireLoop, if_neg hskip, if_neg harb, if_pos hr] at hk2 ⊢
        have hb := acquireLoop_exit_bounds j arb rem (idx+1)
          (fastTakeSubmit σ (j.handleOf idx) (j.modeOf idx))
        rcases Nat.eq_or_lt_of_le hk1 with heq | hlt
        · subst heq
          refine ⟨not_not.mp harb, hr, ?_⟩
          have hframe := acquireLoop_frame j arb rem (idx+1)
            (fastTakeSubmit σ (j.handleOf idx) (j.modeOf idx)) (j.handleOf idx)
            (fun k2 hk21 hk22 => Ne.symm (Hdist idx k2 (le_refl idx) (by omega) (by omega)))
          rw [hframe]
          simp only [fastTakeSubmit, upd_same, hr]
        · have hne : j.handleOf k ≠ j.handleOf idx :=
            Ne.symm (Hdist idx k (le_refl idx) hlt (by omega))
          have hσ : fastTakeSubmit σ (j.handleOf idx) (j.modeOf idx) (j.handleOf k) =
              σ (j.handleOf k) := upd_other σ (j.handleOf idx) (j.handleOf k) _ hne
          have hrec := ih (idx+1) (fastTakeSubmit σ (j.handleOf idx) (j.modeOf idx))
            (fun k2 hk21 hk22 => Hd k2 (by omega) (by omega))
            (fun k1 k2 hk11 hk12 hk13 => Hdist k1 k2 (by omega) hk12 (by omega))
            k hlt hk2
          rw [hσ] at hrec
          exact hrec
      · simp only [acquireLoop, if_neg hskip, if_neg harb, if_neg hr] at hk2
        omega

/-- When the submission try-acquire loop fails, its exit index points at a
handle of this arbiter whose `refcnt` was non-zero in the initial state:
the pass stops at the first handle it cannot take. -/
theorem acquireLoop_fail (j : Job) (arb : Option Nat) :
    ∀ (rem idx : Nat) (σ : State),
      (∀ k, idx ≤ k → k < idx + rem → ¬ j.dupSkip k) →
      (∀ k1 k2, idx ≤ k1 → k1 < k2 → k2 < idx + rem → j.handleOf k1 ≠ j.handleOf k2) →
      (acquireLoop j arb rem idx σ).2.2.1 = false →
      (σ (j.handleOf (acquireLoop j arb rem idx σ).2.1)).arbiter = arb ∧
      (σ (j.handleOf (acquireLoop j arb rem idx σ).2.1)).refcnt ≠ 0 := by
  intro rem
  induction rem with
  | zero => intro idx σ _ _ hf; simp [acquireLoop] at hf
  | succ rem ih =>
    intro idx σ Hd Hdist hf
    have hskip : ¬ j.dupSkip idx := Hd idx (le_refl idx) (by omega)
    by_cases harb : (σ (j.handleOf idx)).arbiter ≠ arb
    · simp only [acquireLoop, if_neg hskip, if_pos harb] at hf
      exact Bool.noConfusion hf
    · by_cases hr : (σ (j.handleOf idx)).refcnt = 0
      · simp only [acquireLoop, if_neg hskip, if_neg harb, if_pos hr] at hf ⊢
        set σt := fastTakeSubmit σ (j.handleOf idx) (j.modeOf idx) with hσt
        set E := (acquireLoop j arb rem (idx+1) σt).2.1 with hE
        have hb := acquireLoop_exit_bounds j arb rem (idx+1) σt
        have hrec := ih (idx+1) σt
          (fun k2 hk21 hk22 => Hd k2 (by omega) (by omega))
          (fun k1 k2 hk11 hk12 hk13 => Hdist k1 k2 (by omega) hk12 (by omega))
          hf
        have hlt : idx < E := by omega
        have hub : E < idx + (rem + 1) := by
          have := hb.2.2 hf
          omega
        have hne : j.handleOf E ≠ j.handleOf idx :=
          Ne.symm (Hdist idx E (le_refl idx) hlt hub)
        have hfold : σt (j.handleOf E) = σ (j.handleOf E) :=
          upd_other σ (j.handleOf idx) (j.handleOf E) _ hne
        rwa [hfold] at hrec
      · simp only [acquireLoop, if_neg hskip, if_neg harb, if_neg hr]
        exact ⟨not_not.mp harb, hr⟩

/-- A field left alone by the update function is left alone by `upd`. -/
theorem upd_preserve {α : Type} (σ : State) (h : Nat) (f : HandleState → HandleState)
    (g : HandleState → α) (hg : ∀ s, g (f s) = g s) (x : Nat) :
    g (upd σ h f x) = g (σ x) := by
  unfold upd
  by_cases hx : x = h <;> simp [hx, hg]

/-- The submission try-acquire loop only changes `refcnt`, `busy_count` and
`current_mode`: any field-reading function insensitive to the fast take is
preserved pointwise. -/
theorem acquireLoop_preserve {α : Type} (j : Job) (arb : Option Nat)
    (g : HandleState → α)
    (hg : ∀ (s : HandleState) (m : AccessMode),
      g { s with refcnt := s.refcnt + 1, busy_count := s.busy_count + 1, current_mode := m } = g s) :
    ∀ (rem idx : Nat) (σ : State) (x : Nat),
      g ((acquireLoop j arb rem idx σ).1 x) = g (σ x) := by
  intro rem
  induction rem with
  | zero => intro idx σ x; simp [acquireLoop]
  | succ rem ih =>
    intro idx σ x
    by_cases hskip : j.dupSkip idx
    · simp only [acquireLoop, if_pos hskip]
      exact ih (idx+1) σ x
    · by_cases harb : (σ (j.handleOf idx)).arbiter ≠ arb
      · simp only [acquireLoop, if_neg hskip, if_pos harb]
      · by_cases hr : (σ (j.handleOf idx)).refcnt = 0
        · simp only [acquireLoop, if_neg hskip, if_neg harb, if_pos hr]
          rw [ih (idx+1) _ x]
          exact upd_preserve σ (j.handleOf idx) _ g (fun s => hg s (j.modeOf idx)) x
        · simp only [acquireLoop, if_neg hskip, if_neg harb, if_neg hr]

/-- The rollback loop only decrements `refcnt`. -/
theorem cancelLoop_preserve {α : Type} (j : Job) (arb : Option Nat)
    (g : HandleState → α)
    (hg : ∀ s : HandleState, g { s with refcnt := s.refcnt - 1 } = g s) :
    ∀ (rem idx : Nat) (σ : State) (x : Nat),
      g ((cancelLoop j arb rem idx σ).1 x) = g (σ x) := by
  intro rem
  induction rem with
  | zero => intro idx σ x; simp [cancelLoop]
  | succ rem ih =>
    intro idx σ x
    by_cases hskip : j.dupSkip idx
    · simp only [cancelLoop, if_pos hskip]
      exact ih (idx+1) σ x
    · by_cases harb : (σ (j.handleOf idx)).arbiter ≠ arb
      · simp only [cancelLoop, if_neg hskip, if_pos harb]
      · simp only [cancelLoop, if_neg hskip, if_neg harb]
        rw [ih (idx+1) _ x]
        exact upd_preserve σ (j.handleOf idx) _ g hg x

/-- The requester-recording loop only touches `arbitered_req_list` and
`busy_count`. -/
theorem recordLoop_preserve {α : Type} (j : Job) (arb : Option Nat) (idxA : Nat)
    (g : HandleState → α)
    (hg : ∀ (s : HandleState) (r : Requester) (c : Nat),
      g { s with arbitered_req_list := some (r :: s.arbitered_req_list.getD []), busy_count := c } = g s) :
    ∀ (rem idx : Nat) (σ : State) (x : Nat),
      g ((recordLoop j arb idxA rem idx σ).1 x) = g (σ x) := by
  intro rem
  induction rem with
  | zero => intro idx σ x; simp [recordLoop]
  | succ rem ih =>
    intro idx σ x
    by_cases harb : (σ (j.handleOf idx)).arbiter ≠ arb
    · simp only [recordLoop, if_pos harb]
    · simp only [recordLoop, if_neg harb]
      rw [ih (idx+1) _ x]
      refine upd_preserve σ (j.handleOf idx) _ g (fun s => ?_) x
      exact hg s _ _

/-- The notify try-acquire loop only touches `refcnt` and `current_mode`. -/
theorem notifyAcquireLoop_preserve {α : Type} (j : Job) (arb : Option Nat)
    (g : HandleState → α)
    (hg : ∀ (s : HandleState) (m : AccessMode),
      g { s with refcnt := s.refcnt + 1, current_mode := m } = g s) :
    ∀ (rem idx : Nat) (σ : State) (x : Nat),
      g ((notifyAcquireLoop j arb rem idx σ).1 x) = g (σ x) := by
  intro rem
  induction rem with
  | zero => intro idx σ x; simp [notifyAcquireLoop]
  | succ rem ih =>
    intro idx σ x
    by_cases hskip : j.dupSkip idx
    · simp only [notifyAcquireLoop, if_pos hskip]
      exact ih (idx+1) σ x
    · by_cases harb : (σ (j.handleOf idx)).arbiter ≠ arb
      · simp only [notifyAcquireLoop, if_neg hskip, if_pos harb]
      · by_cases hr : (σ (j.handleOf idx)).refcnt ≠ 0
        · simp only [notifyAcquireLoop, if_neg hskip, if_neg harb, if_pos hr]
        · simp only [notifyAcquireLoop, if_neg hskip, if_neg harb, if_neg hr]
          rw [ih (idx+1) _ x]
          exact upd_preserve σ (j.handleOf idx) _ g (fun s => hg s (j.modeOf idx)) x

/-- The promotion removal loop only touches `arbitered_req_list`. -/
theorem removalLoop_preserve {α : Type} (j : Job) (arb : Option Nat)
    (g : HandleState → α)
    (hg : ∀ (s : HandleState) (q : Option (List Requester)),
      g { s with arbitered_req_list := q } = g s) :
    ∀ (rem idx : Nat) (σ : State) (x : Nat),
      g ((removalLoop j arb rem idx σ).1 x) = g (σ x) := by
  intro rem
  induction rem with
  | zero => intro idx σ x; simp [removalLoop]
  | succ rem ih =>
    intro idx σ x
    by_cases hskip : j.dupSkip idx
    · simp only [removalLoop, if_pos hskip]
      exact ih (idx+1) σ x
    · by_cases harb : (σ (j.handleOf idx)).arbiter ≠ arb
      · simp only [removalLoop, if_neg hskip, if_pos harb]
      · simp only [removalLoop, if_neg hskip, if_neg harb]
        rw [ih (idx+1) _ x]
        exact upd_preserve σ (j.handleOf idx) _ g (fun s => hg s _) x

/-- Handles outside the visited range are untouched by the rollback loop. -/
theorem cancelLoop_frame (j : Job) (arb : Option Nat) :
    ∀ (rem idx : Nat) (σ : State) (h : Nat),
      (∀ k, idx ≤ k → k < idx + rem → j.handleOf k ≠ h) →
      (cancelLoop j arb rem idx σ).1 h = σ h := by
  intro rem
  induction rem with
  | zero => intro idx σ h _; simp [cancelLoop]
  | succ rem ih =>
    intro idx σ h hout
    by_cases hskip : j.dupSkip idx
    · simp only [cancelLoop, if_pos hskip]
      exact ih (idx+1) σ h fun k hk1 hk2 => hout k (by omega) (by omega)
    · by_cases harb : (σ (j.handleOf idx)).arbiter ≠ arb
      · simp only [cancelLoop, if_neg hskip, if_pos harb]
      · simp only [cancelLoop, if_neg hskip, if_neg harb]
        rw [ih (idx+1) _ h fun k hk1 hk2 => hout k (by omega) (by omega)]
        exact upd_other σ (j.handleOf idx) h _ (Ne.symm (hout idx (le_refl idx) (by omega)))

/-- Over a duplicate-free range of handles that all belong to this arbiter,
the rollback loop decrements exactly the `refcnt` of each visited handle. -/
theorem cancelLoop_effect (j : Job) (arb : Option Nat) :
    ∀ (rem idx : Nat) (σ : State),
      (∀ k, idx ≤ k → k < idx + rem → ¬ j.dupSkip k) →
      (∀ k1 k2, idx ≤ k1 → k1 < k2 → k2 < idx + rem → j.handleOf k1 ≠ j.handleOf k2) →
      (∀ k, idx ≤ k → k < idx + rem → (σ (j.handleOf k)).arbiter = arb) →
      ∀ k, idx ≤ k → k < idx + rem →
        (cancelLoop j arb rem idx σ).1 (j.handleOf k) =
          { σ (j.handleOf k) with refcnt := (σ (j.handleOf k)).refcnt - 1 } := by
  intro rem
  induction rem with
  | zero => intro idx σ _ _ _ k hk1 hk2; omega
  | succ rem ih =>
    intro idx σ Hd Hdist Harb k hk1 hk2
    have hskip : ¬ j.dupSkip idx := Hd idx (le_refl idx) (by omega)
    have harb : ¬ (σ (j.handleOf idx)).arbiter ≠ arb :=
      not_not.mpr (Harb idx (le_refl idx) (by omega))
    simp only [cancelLoop, if_neg hskip, if_neg harb]
    set σc := upd σ (j.handleOf idx) (fun s => { s with refcnt := s.refcnt - 1 }) with hσc
    rcases Nat.eq_or_lt_of_le hk1 with heq | hlt
    · subst heq
      rw [cancelLoop_frame j arb rem (idx+1) σc (j.handleOf idx)
        (fun k2 hk21 hk22 => Ne.symm (Hdist idx k2 (le_refl idx) (by omega) (by omega)))]
      exact upd_same σ (j.handleOf idx) _
    · have hne : j.handleOf k ≠ j.handleOf idx :=
        Ne.symm (Hdist idx k (le_refl idx) hlt (by omega))
      have hσk : σc (j.handleOf k) = σ (j.handleOf k) :=
        upd_other σ (j.handleOf idx) (j.handleOf k) _ hne
      have harbc : ∀ x, (σc x).arbiter = (σ x).arbiter := fun x =>
        upd_preserve σ (j.handleOf idx)
          (fun s => { s with refcnt := s.refcnt - 1 }) (fun s => s.arbiter) (fun s => rfl) x
      have hrec := ih (idx+1) σc
        (fun k2 hk21 hk22 => Hd k2 (by omega) (by omega))
        (fun k1 k2 hk11 hk12 hk13 => Hdist k1 k2 (by omega) hk12 (by omega))
        (fun k2 hk21 hk22 => by
          rw [harbc (j.handleOf k2)]
          exact Harb k2 (by omega) (by omega))
        k hlt (by omega)
      rw [hrec, hσk]

/-- The exit handle of a failed submission try-acquire pass is untouched by
the pass. -/
theorem acquireLoop_fail_untouched (j : Job) (arb : Option Nat)
    (rem idx : Nat) (σ : State)
    (Hdist : ∀ k1 k2, idx ≤ k1 → k1 < k2 → k2 < idx + rem → j.handleOf k1 ≠ j.handleOf k2)
    (hf : (acquireLoop j arb rem idx σ).2.2.1 = false) :
    (acquireLoop j arb rem idx σ).1 (j.handleOf (acquireLoop j arb rem idx σ).2.1) =
      σ (j.handleOf (acquireLoop j arb rem idx σ).2.1) := by
  have hb := acquireLoop_exit_bounds j arb rem idx σ
  exact acquireLoop_frame j arb rem idx σ _
    (fun k hk1 hk2 => Hdist k _ hk1 hk2 (by have := hb.2.2 hf; omega))

/-- Handles outside the visited range are untouched by the
requester-recording loop. -/
theorem recordLoop_frame (j : Job) (arb : Option Nat) (idxA : Nat) :
    ∀ (rem idx : Nat) (σ : State) (h : Nat),
      (∀ k, idx ≤ k → k < idx + rem → j.handleOf k ≠ h) →
      (recordLoop j arb idxA rem idx σ).1 h = σ h := by
  intro rem
  induction rem with
  | zero => intro idx σ h _; simp [recordLoop]
  | succ rem ih =>
    intro idx σ h hout
    by_cases harb : (σ (j.handleOf idx)).arbiter ≠ arb
    · simp only [recordLoop, if_pos harb]
    · simp only [recordLoop, if_neg harb]
      rw [ih (idx+1) _ h fun k hk1 hk2 => hout k (by omega) (by omega)]
      exact upd_other σ (j.handleOf idx) h _ (Ne.symm (hout idx (le_refl idx) (by omega)))

/-- Over a duplicate-free range of handles that all belong to this arbiter,
the recording loop pushes exactly one requester at the front of each
visited handle's list and increments `busy_count` exactly when the first
loop did not (`idxA ≤ k`). -/
theorem recordLoop_effect (j : Job) (arb : Option Nat) (idxA : Nat) :
    ∀ (rem idx : Nat) (σ : State),
      (∀ k1 k2, idx ≤ k1 → k1 < k2 → k2 < idx + rem → j.handleOf k1 ≠ j.handleOf k2) →
      (∀ k, idx ≤ k → k < idx + rem → (σ (j.handleOf k)).arbiter = arb) →
      ∀ k, idx ≤ k → k < idx + rem →
        (recordLoop j arb idxA rem idx σ).1 (j.handleOf k) =
          { σ (j.handleOf k) with
              arbitered_req_list :=
                some ({ mode := j.modeOf k, j := j, buffer_index := k } ::
                  (σ (j.handleOf k)).arbitered_req_list.getD [])
              busy_count :=
                if idxA ≤ k then (σ (j.handleOf k)).busy_count + 1
                else (σ (j.handleOf k)).busy_count } := by
  intro rem
  induction rem with
  | zero => intro idx σ _ _ k hk1 hk2; omega
  | succ rem ih =>
    intro idx σ Hdist Harb k hk1 hk2
    have harb : ¬ (σ (j.handleOf idx)).arbiter ≠ arb :=
      not_not.mpr (Harb idx (le_refl idx) (by omega))
    simp only [recordLoop, if_neg harb]
    set σr := upd σ (j.handleOf idx) (fun s =>
      { s with
          arbitered_req_list :=
            some ({ mode := j.modeOf idx, j := j, buffer_index := idx } ::
              s.arbitered_req_list.getD [])
          busy_count := if idxA ≤ idx then s.busy_count + 1 else s.busy_count }) with hσr
    rcases Nat.eq_or_lt_of_le hk1 with heq | hlt
    · subst heq
      rw [recordLoop_frame j arb idxA rem (idx+1) σr (j.handleOf idx)
        (fun k2 hk21 hk22 => Ne.symm (Hdist idx k2 (le_refl idx) (by omega) (by omega)))]
      exact upd_same σ (j.handleOf idx) _
    · have hne : j.handleOf k ≠ j.handleOf idx :=
        Ne.symm (Hdist idx k (le_refl idx) hlt (by omega))
      have hσk : σr (j.handleOf k) = σ (j.handleOf k) :=
        upd_other σ (j.handleOf idx) (j.handleOf k) _ hne
      have harbr : ∀ x, (σr x).arbiter = (σ x).arbiter := fun x =>
        upd_preserve σ (j.handleOf idx)
          (fun s =>
            { s with
                arbitered_req_list :=
                  some ({ mode := j.modeOf idx, j := j, buffer_index := idx } ::
                    s.arbitered_req_list.getD [])
                busy_count := if idxA ≤ idx then s.busy_count + 1 else s.busy_count })
          (fun s => s.arbiter) (fun s => rfl) x
      have hrec := ih (idx+1) σr
        (fun k1 k2 hk11 hk12 hk13 => Hdist k1 k2 (by omega) hk12 (by omega))
        (fun k2 hk21 hk22 => by
          rw [harbr (j.handleOf k2)]
          exact Harb k2 (by omega) (by omega))
        k hlt (by omega)
      rw [hrec, hσk]

/-- A submission call parks the task exactly when its try-acquire pass
fails. -/
theorem submit_parked_iff (j : Job) (buf : Nat) (σ : State) :
    (submit_job_enforce_arbitered_deps j buf σ).2.1 = SubmitOutcome.parked ↔
    (acquireLoop j ((σ (j.handleOf buf)).arbiter) (j.nbuffers - buf) buf σ).2.2.1 = false := by
  by_cases hok :
      (acquireLoop j ((σ (j.handleOf buf)).arbiter) (j.nbuffers - buf) buf σ).2.2.1 = true
  · simp only [submit_job_enforce_arbitered_deps, hok, if_true]
    by_cases hlt :
        (acquireLoop j ((σ (j.handleOf buf)).arbiter) (j.nbuffers - buf) buf σ).2.1 < j.nbuffers
    · simp [hlt, hok]
    · simp [hlt, hok]
  · have hf : (acquireLoop j ((σ (j.handleOf buf)).arbiter) (j.nbuffers - buf) buf σ).2.2.1
        = false := by
      cases heq : (acquireLoop j ((σ (j.handleOf buf)).arbiter) (j.nbuffers - buf) buf σ).2.2.1
      · rfl
      · exact absurd heq hok
    simp [submit_job_enforce_arbitered_deps, hf]

/-- The final state of a submission call whose try-acquire pass failed is
the one produced by the rollback loop followed by the recording loop. -/
theorem submit_state_of_fail (j : Job) (buf : Nat) (σ : State)
    (hok : (acquireLoop j ((σ (j.handleOf buf)).arbiter) (j.nbuffers - buf) buf σ).2.2.1 = false) :
    (submit_job_enforce_arbitered_deps j buf σ).1 =
    (recordLoop j ((σ (j.handleOf buf)).arbiter)
      (acquireLoop j ((σ (j.handleOf buf)).arbiter) (j.nbuffers - buf) buf σ).2.1
      (j.nbuffers - buf) buf
      (cancelLoop j ((σ (j.handleOf buf)).arbiter)
        ((acquireLoop j ((σ (j.handleOf buf)).arbiter) (j.nbuffers - buf) buf σ).2.1 - buf) buf
        (acquireLoop j ((σ (j.handleOf buf)).arbiter) (j.nbuffers - buf) buf σ).1).1).1 := by
  simp only [submit_job_enforce_arbitered_deps, hok, Bool.false_eq_true, if_false]

/-! ### Claim C1 -/

/-- C1: in the try-acquire pass over the arbitered handles of one arbiter
group (the submission pass of `_starpu_submit_job_enforce_arbitered_deps`),
a reference is taken on a handle if and only if that handle's `refcnt` is 0
at the moment of the attempt: every handle passed before the exit index had
`refcnt = 0` and is left with `refcnt = 1`, `busy_count` incremented by
exactly 1 and `current_mode` set to the requested mode; the pass stops at
the first handle whose `refcnt` is non-zero, leaving it (and every
unattempted handle) untouched. -/
theorem C1_submit_tryacquire_takes_iff_refcnt_zero
    (j : Job) (arb : Option Nat) (rem idx : Nat) (σ : State)
    (Hd : ∀ k, idx ≤ k → k < idx + rem → ¬ j.dupSkip k)
    (Hdist : ∀ k1 k2, idx ≤ k1 → k1 < k2 → k2 < idx + rem →
      j.handleOf k1 ≠ j.handleOf k2) :
    (∀ k, idx ≤ k → k < (acquireLoop j arb rem idx σ).2.1 →
      (σ (j.handleOf k)).refcnt = 0 ∧
      (acquireLoop j arb rem idx σ).1 (j.handleOf k) =
        { σ (j.handleOf k) with
            refcnt := 1
            busy_count := (σ (j.handleOf k)).busy_count + 1
            current_mode := j.modeOf k }) ∧
    ((acquireLoop j arb rem idx σ).2.2.1 = false →
      (σ (j.handleOf (acquireLoop j arb rem idx σ).2.1)).refcnt ≠ 0 ∧
      (acquireLoop j arb rem idx σ).1 (j.handleOf (acquireLoop j arb rem idx σ).2.1) =
        σ (j.handleOf (acquireLoop j arb rem idx σ).2.1)) ∧
    (∀ h, (∀ k, idx ≤ k → k < (acquireLoop j arb rem idx σ).2.1 → j.handleOf k ≠ h) →
      (acquireLoop j arb rem idx σ).1 h = σ h) := by
  refine ⟨?_, ?_, acquireLoop_frame j arb rem idx σ⟩
  · intro k hk1 hk2
    have ht := acquireLoop_taken j arb rem idx σ Hd Hdist k hk1 hk2
    exact ⟨ht.2.1, ht.2.2⟩
  · intro hf
    exact ⟨(acquireLoop_fail j arb rem idx σ Hd Hdist hf).2,
      acquireLoop_fail_untouched j arb rem idx σ Hdist hf⟩

/-- Concrete job for the C1 witness: two distinct handles of arbiter 0. -/
def jC1 : Job := { id := 3, buffers := [(1, AccessMode.W), (2, AccessMode.RW)] }

/-- Concrete state for the C1 witness: handle 1 free, handle 2 busy. -/
def σC1 : State := fun h =>
  if h = 1 then { arbiter := some 0, refcnt := 0, busy_count := 5, current_mode := AccessMode.NONE, arbitered_req_list := none }
  else if h = 2 then { arbiter := some 0, refcnt := 2, busy_count := 2, current_mode := AccessMode.NONE, arbitered_req_list := none }
  else { arbiter := none, refcnt := 0, busy_count := 0, current_mode := AccessMode.NONE, arbitered_req_list := none }

/-- Witness for C1 at a concrete two-handle submission where the second
handle is busy. -/
theorem C1_witness :
    (∀ k, 0 ≤ k → k < 0 + 2 → ¬ jC1.dupSkip k) ∧
    (∀ k1 k2, 0 ≤ k1 → k1 < k2 → k2 < 0 + 2 → jC1.handleOf k1 ≠ jC1.handleOf k2) ∧
    ((∀ k, 0 ≤ k → k < (acquireLoop jC1 (some 0) 2 0 σC1).2.1 →
      (σC1 (jC1.handleOf k)).refcnt = 0 ∧
      (acquireLoop jC1 (some 0) 2 0 σC1).1 (jC1.handleOf k) =
        { σC1 (jC1.handleOf k) with
            refcnt := 1
            busy_count := (σC1 (jC1.handleOf k)).busy_count + 1
            current_mode := jC1.modeOf k }) ∧
    ((acquireLoop jC1 (some 0) 2 0 σC1).2.2.1 = false →
      (σC1 (jC1.handleOf (acquireLoop jC1 (some 0) 2 0 σC1).2.1)).refcnt ≠ 0 ∧
      (acquireLoop jC1 (some 0) 2 0 σC1).1 (jC1.handleOf (acquireLoop jC1 (some 0) 2 0 σC1).2.1) =
        σC1 (jC1.handleOf (acquireLoop jC1 (some 0) 2 0 σC1).2.1)) ∧
    (∀ h, (∀ k, 0 ≤ k → k < (acquireLoop jC1 (some 0) 2 0 σC1).2.1 → jC1.handleOf k ≠ h) →
      (acquireLoop jC1 (some 0) 2 0 σC1).1 h = σC1 h)) :=
  ⟨by intro k h1 h2; interval_cases k <;> decide,
   by intro k1 k2 h1 h2 h3; interval_cases k2 <;> interval_cases k1 <;> decide,
   C1_submit_tryacquire_takes_iff_refcnt_zero jC1 (some 0) 2 0 σC1
     (by intro k h1 h2; interval_cases k <;> decide)
     (by intro k1 k2 h1 h2 h3; interval_cases k2 <;> interval_cases k1 <;> decide)⟩

/-! ### Claim C2 -/

/-- Composed effect of a failed submission over pairwise-distinct group
handles: `refcnt` restored, `busy_count` incremented once, one requester
pushed at the front of each group handle's list, all other handles
untouched. -/
theorem submit_parked_effects
    (j : Job) (buf : Nat) (σ : State)
    (Hd : ∀ k, buf ≤ k → k < j.nbuffers → ¬ j.dupSkip k)
    (Hdist : ∀ k1 k2, buf ≤ k1 → k1 < k2 → k2 < j.nbuffers →
      j.handleOf k1 ≠ j.handleOf k2)
    (Harb : ∀ k, buf ≤ k → k < j.nbuffers →
      (σ (j.handleOf k)).arbiter = (σ (j.handleOf buf)).arbiter)
    (Hpark : (submit_job_enforce_arbitered_deps j buf σ).2.1 = SubmitOutcome.parked) :
    (∀ k, buf ≤ k → k < j.nbuffers →
      ((submit_job_enforce_arbitered_deps j buf σ).1 (j.handleOf k)).refcnt =
        (σ (j.handleOf k)).refcnt ∧
      ((submit_job_enforce_arbitered_deps j buf σ).1 (j.handleOf k)).busy_count =
        (σ (j.handleOf k)).busy_count + 1 ∧
      ((submit_job_enforce_arbitered_deps j buf σ).1 (j.handleOf k)).arbitered_req_list =
        some ({ mode := j.modeOf k, j := j, buffer_index := k } ::
          (σ (j.handleOf k)).arbitered_req_list.getD [])) ∧
    (∀ h, (∀ k, buf ≤ k → k < j.nbuffers → j.handleOf k ≠ h) →
      (submit_job_enforce_arbitered_deps j buf σ).1 h = σ h) := by
  set arb := (σ (j.handleOf buf)).arbiter with harbdef
  have hok : (acquireLoop j arb (j.nbuffers - buf) buf σ).2.2.1 = false :=
    (submit_parked_iff j buf σ).mp Hpark
  have hbounds := acquireLoop_exit_bounds j arb (j.nbuffers - buf) buf σ
  have hup := hbounds.2.2 hok
  have hblt : buf < j.nbuffers := by omega
  have hrange : buf + (j.nbuffers - buf) = j.nbuffers := by omega
  set σ₁ := (acquireLoop j arb (j.nbuffers - buf) buf σ).1 with hσ1
  set idxA := (acquireLoop j arb (j.nbuffers - buf) buf σ).2.1 with hidxA
  have hAlt : idxA < j.nbuffers := by omega
  have hAle : buf ≤ idxA := hbounds.1
  have hfinal := submit_state_of_fail j buf σ hok
  set σ₂ := (cancelLoop j arb (idxA - buf) buf σ₁).1 with hσ2
  set σ₃ := (recordLoop j arb idxA (j.nbuffers - buf) buf σ₂).1 with hσ3
  have harb1 : ∀ x, (σ₁ x).arbiter = (σ x).arbiter := fun x =>
    acquireLoop_preserve j arb (fun s => s.arbiter) (fun s m => rfl)
      (j.nbuffers - buf) buf σ x
  have harb2 : ∀ x, (σ₂ x).arbiter = (σ₁ x).arbiter := fun x =>
    cancelLoop_preserve j arb (fun s => s.arbiter) (fun s => rfl)
      (idxA - buf) buf σ₁ x
  have hd1 : ∀ k, buf ≤ k → k < buf + (j.nbuffers - buf) → ¬ j.dupSkip k :=
    fun k h1 h2 => Hd k h1 (by omega)
  have hdist1 : ∀ k1 k2, buf ≤ k1 → k1 < k2 → k2 < buf + (j.nbuffers - buf) →
      j.handleOf k1 ≠ j.handleOf k2 :=
    fun k1 k2 h1 h2 h3 => Hdist k1 k2 h1 h2 (by omega)
  have hqueue1 : ∀ x, (σ₁ x).arbitered_req_list = (σ x).arbitered_req_list := fun x =>
    acquireLoop_preserve j arb (fun s => s.arbitered_req_list) (fun s m => rfl)
      (j.nbuffers - buf) buf σ x
  have hbusy2 : ∀ x, (σ₂ x).busy_count = (σ₁ x).busy_count := fun x =>
    cancelLoop_preserve j arb (fun s => s.busy_count) (fun s => rfl)
      (idxA - buf) buf σ₁ x
  have hqueue2 : ∀ x, (σ₂ x).arbitered_req_list = (σ₁ x).arbitered_req_list := fun x =>
    cancelLoop_preserve j arb (fun s => s.arbitered_req_list) (fun s => rfl)
      (idxA - buf) buf σ₁ x
  have hreceff := recordLoop_effect j arb idxA (j.nbuffers - buf) buf σ₂
    (fun k1 k2 h1 h2 h3 => Hdist k1 k2 h1 h2 (by omega))
    (fun k h1 h2 => by
      rw [harb2 (j.handleOf k), harb1 (j.handleOf k)]
      exact Harb k h1 (by omega))
  constructor
  · intro k hk1 hk2
    have hrk := hreceff k hk1 (by omega)
    rw [hfinal, hσ3]
    rw [hrk]
    by_cases hcase : k < idxA
    · -- the handle was fast-taken then rolled back; its busy_count
      -- increment from the pass is kept
      have ht := acquireLoop_taken j arb (j.nbuffers - buf) buf σ hd1 hdist1 k hk1 hcase
      have hceff := cancelLoop_effect j arb (idxA - buf) buf σ₁
        (fun k2 h1 h2 => Hd k2 h1 (by omega))
        (fun k1 k2 h1 h2 h3 => Hdist k1 k2 h1 h2 (by omega))
        (fun k2 h1 h2 => by
          rw [harb1 (j.handleOf k2)]
          exact Harb k2 h1 (by omega))
        k hk1 (by omega)
      have hnotle : ¬ idxA ≤ k := by omega
      have hs2 : σ₂ (j.handleOf k) =
          { σ (j.handleOf k) with
              refcnt := 0
              busy_count := (σ (j.handleOf k)).busy_count + 1
              current_mode := j.modeOf k } := by
        rw [hσ2, hceff, hσ1, ht.2.2]
        simp
      rw [hs2]
      refine ⟨by simp [ht.2.1], by simp [if_neg hnotle], by simp⟩
    · -- the handle was never taken by the pass
      have hσ1k : σ₁ (j.handleOf k) = σ (j.handleOf k) := by
        rw [hσ1]
        exact acquireLoop_frame j arb (j.nbuffers - buf) buf σ (j.handleOf k)
          (fun k2 h1 h2 => Hdist k2 k h1 (by omega) hk2)
      have hσ2k : σ₂ (j.handleOf k) = σ₁ (j.handleOf k) := by
        rw [hσ2]
        exact cancelLoop_frame j arb (idxA - buf) buf σ₁ (j.handleOf k)
          (fun k2 h1 h2 => Hdist k2 k h1 (by omega) hk2)
      have hle : idxA ≤ k := by omega
      simp only [hσ2k, hσ1k, if_pos hle]
      exact ⟨by simp, by simp, by simp⟩
  · intro h hout
    rw [hfinal, hσ3]
    rw [recordLoop_frame j arb idxA (j.nbuffers - buf) buf σ₂ h
      (fun k h1 h2 => hout k h1 (by omega))]
    rw [hσ2]
    rw [cancelLoop_frame j arb (idxA - buf) buf σ₁ h
      (fun k h1 h2 => hout k h1 (by omega))]
    rw [hσ1]
    exact acquireLoop_frame j arb (j.nbuffers - buf) buf σ h
      (fun k h1 h2 => hout k h1 (by omega))

/-- C2 (amended): when the try-acquire pass of a submission fails and the
task's buffers from `buf` on reference pairwise-distinct handles of one
arbiter group, the call leaves every handle of the group with its `refcnt`
restored to its initial value, its `busy_count` incremented by exactly 1,
and exactly one new requester carrying the task pushed onto its requester
list; handles outside the group are untouched. -/
theorem C2_submit_abort_parks_once_per_handle
    (j : Job) (buf : Nat) (σ : State)
    (Hd : ∀ k, buf ≤ k → k < j.nbuffers → ¬ j.dupSkip k)
    (Hdist : ∀ k1 k2, buf ≤ k1 → k1 < k2 → k2 < j.nbuffers →
      j.handleOf k1 ≠ j.handleOf k2)
    (Harb : ∀ k, buf ≤ k → k < j.nbuffers →
      (σ (j.handleOf k)).arbiter = (σ (j.handleOf buf)).arbiter)
    (Hpark : (submit_job_enforce_arbitered_deps j buf σ).2.1 = SubmitOutcome.parked) :
    (∀ k, buf ≤ k → k < j.nbuffers →
      ((submit_job_enforce_arbitered_deps j buf σ).1 (j.handleOf k)).refcnt =
        (σ (j.handleOf k)).refcnt ∧
      ((submit_job_enforce_arbitered_deps j buf σ).1 (j.handleOf k)).busy_count =
        (σ (j.handleOf k)).busy_count + 1 ∧
      ((submit_job_enforce_arbitered_deps j buf σ).1 (j.handleOf k)).arbitered_req_list =
        some ({ mode := j.modeOf k, j := j, buffer_index := k } ::
          (σ (j.handleOf k)).arbitered_req_list.getD [])) ∧
    (∀ h, (∀ k, buf ≤ k → k < j.nbuffers → j.handleOf k ≠ h) →
      (submit_job_enforce_arbitered_deps j buf σ).1 h = σ h) :=
  submit_parked_effects j buf σ Hd Hdist Harb Hpark

/-- Concrete job for the C2 witness: two distinct handles of arbiter 0. -/
def jC2 : Job := { id := 4, buffers := [(1, AccessMode.W), (2, AccessMode.W)] }

/-- Concrete state for the C2 witness: handle 1 free, handle 2 held. -/
def σC2 : State := fun h =>
  if h = 1 then { arbiter := some 0, refcnt := 0, busy_count := 0, current_mode := AccessMode.NONE, arbitered_req_list := none }
  else if h = 2 then { arbiter := some 0, refcnt := 1, busy_count := 1, current_mode := AccessMode.W, arbitered_req_list := none }
  else { arbiter := none, refcnt := 0, busy_count := 0, current_mode := AccessMode.NONE, arbitered_req_list := none }

/-- Witness for C2 at a concrete failing two-handle submission. -/
theorem C2_witness :
    (submit_job_enforce_arbitered_deps jC2 0 σC2).2.1 = SubmitOutcome.parked ∧
    ((∀ k, 0 ≤ k → k < jC2.nbuffers →
      ((submit_job_enforce_arbitered_deps jC2 0 σC2).1 (jC2.handleOf k)).refcnt =
        (σC2 (jC2.handleOf k)).refcnt ∧
      ((submit_job_enforce_arbitered_deps jC2 0 σC2).1 (jC2.handleOf k)).busy_count =
        (σC2 (jC2.handleOf k)).busy_count + 1 ∧
      ((submit_job_enforce_arbitered_deps jC2 0 σC2).1 (jC2.handleOf k)).arbitered_req_list =
        some ({ mode := jC2.modeOf k, j := jC2, buffer_index := k } ::
          (σC2 (jC2.handleOf k)).arbitered_req_list.getD [])) ∧
    (∀ h, (∀ k, 0 ≤ k → k < jC2.nbuffers → jC2.handleOf k ≠ h) →
      (submit_job_enforce_arbitered_deps jC2 0 σC2).1 h = σC2 h)) :=
  ⟨by decide,
   C2_submit_abort_parks_once_per_handle jC2 0 σC2
     (by intro k h1 h2; have h2b : k < 2 := h2; interval_cases k <;> decide)
     (by intro k1 k2 h1 h2 h3; have h3b : k2 < 2 := h3
         interval_cases k2 <;> interval_cases k1 <;> decide)
     (by intro k h1 h2; have h2b : k < 2 := h2; interval_cases k <;> decide)
     (by decide)⟩

/-- Concrete job for the C2 counterexample: handle 1 appears twice in the
ordered buffer list (write before read, as the sorting produces), handle 2
is held so that the pass fails. -/
def jC2dup : Job :=
  { id := 7, buffers := [(1, AccessMode.W), (1, AccessMode.R), (2, AccessMode.W)] }

/-- Concrete state for the C2 counterexample. -/
def σC2dup : State := fun h =>
  if h = 1 then { arbiter := some 0, refcnt := 0, busy_count := 0, current_mode := AccessMode.NONE, arbitered_req_list := none }
  else if h = 2 then { arbiter := some 0, refcnt := 1, busy_count := 1, current_mode := AccessMode.W, arbitered_req_list := none }
  else { arbiter := none, refcnt := 0, busy_count := 0, current_mode := AccessMode.NONE, arbitered_req_list := none }

/-- Counterexample to C2 as stated: the recording loop (lines 305-331) has
no adjacent-duplicate skip, so a parked task that lists the same handle
twice gets TWO requesters recorded on that handle, not "exactly one
requester on every distinct handle". -/
theorem C2_counterexample :
    (submit_job_enforce_arbitered_deps jC2dup 0 σC2dup).2.1 = SubmitOutcome.parked ∧
    ((submit_job_enforce_arbitered_deps jC2dup 0 σC2dup).1 1).arbitered_req_list =
      some [{ mode := AccessMode.R, j := jC2dup, buffer_index := 1 },
            { mode := AccessMode.W, j := jC2dup, buffer_index := 0 }] ∧
    (((submit_job_enforce_arbitered_deps jC2dup 0 σC2dup).1 1).arbitered_req_list.getD
      []).length ≠ 1 := by
  decide

/-! ### Claim C3 -/

/-- The notify scan examines the head of the requester list first: if the
head requester's fast-takes all succeed, the head's job is the one
promoted. -/
theorem notifyScan_head_success (arb : Option Nat) (r : Requester)
    (rs : List Requester) (σ : State)
    (hok : (notifyAcquireLoop r.j arb
        (r.j.nbuffers - findFirstGroupIdx r.j arb σ r.j.nbuffers 0)
        (findFirstGroupIdx r.j arb σ r.j.nbuffers 0) σ).2.2.1 = true) :
    ∃ nxt, (notifyScan arb (r :: rs) σ).2.1 = NotifyOutcome.promoted r.j.id nxt := by
  by_cases hc : (removalLoop r.j arb
      (r.j.nbuffers - findFirstGroupIdx r.j arb σ r.j.nbuffers 0)
      (findFirstGroupIdx r.j arb σ r.j.nbuffers 0)
      (notifyAcquireLoop r.j arb
        (r.j.nbuffers - findFirstGroupIdx r.j arb σ r.j.nbuffers 0)
        (findFirstGroupIdx r.j arb σ r.j.nbuffers 0) σ).1).2.1 < r.j.nbuffers
  · refine ⟨some (removalLoop r.j arb
      (r.j.nbuffers - findFirstGroupIdx r.j arb σ r.j.nbuffers 0)
      (findFirstGroupIdx r.j arb σ r.j.nbuffers 0)
      (notifyAcquireLoop r.j arb
        (r.j.nbuffers - findFirstGroupIdx r.j arb σ r.j.nbuffers 0)
        (findFirstGroupIdx r.j arb σ r.j.nbuffers 0) σ).1).2.1, ?_⟩
    simp only [notifyScan, hok, if_pos, if_pos hc]
  · refine ⟨none, ?_⟩
    simp only [notifyScan, hok, if_pos, if_neg hc]

/-- C3 (corrected): a task parked by a failed try-acquire has its requester
pushed at the HEAD of each group handle's requester list
(`_starpu_data_requester_list_push_front`), and the notify scan starts at
the head of the list, so requesters are visited in LIFO order: the
requester parked most recently is considered first. -/
theorem C3_parked_requester_at_head_lifo
    (j : Job) (buf : Nat) (σ : State)
    (Hd : ∀ k, buf ≤ k → k < j.nbuffers → ¬ j.dupSkip k)
    (Hdist : ∀ k1 k2, buf ≤ k1 → k1 < k2 → k2 < j.nbuffers →
      j.handleOf k1 ≠ j.handleOf k2)
    (Harb : ∀ k, buf ≤ k → k < j.nbuffers →
      (σ (j.handleOf k)).arbiter = (σ (j.handleOf buf)).arbiter)
    (Hpark : (submit_job_enforce_arbitered_deps j buf σ).2.1 = SubmitOutcome.parked) :
    (∀ k, buf ≤ k → k < j.nbuffers →
      ((submit_job_enforce_arbitered_deps j buf σ).1 (j.handleOf k)).arbitered_req_list =
        some ({ mode := j.modeOf k, j := j, buffer_index := k } ::
          (σ (j.handleOf k)).arbitered_req_list.getD [])) ∧
    (∀ (arb : Option Nat) (r : Requester) (rs : List Requester) (σn : State),
      (notifyAcquireLoop r.j arb
        (r.j.nbuffers - findFirstGroupIdx r.j arb σn r.j.nbuffers 0)
        (findFirstGroupIdx r.j arb σn r.j.nbuffers 0) σn).2.2.1 = true →
      ∃ nxt, (notifyScan arb (r :: rs) σn).2.1 = NotifyOutcome.promoted r.j.id nxt) := by
  constructor
  · intro k hk1 hk2
    exact ((submit_parked_effects j buf σ Hd Hdist Harb Hpark).1 k hk1 hk2).2.2
  · intro arb r rs σn hok
    exact notifyScan_head_success arb r rs σn hok

/-- Concrete job for the C3 witness. -/
def jC3 : Job := { id := 5, buffers := [(1, AccessMode.W), (2, AccessMode.W)] }

/-- Concrete state for the C3 witness: handle 2 held, so jC3 parks. -/
def σC3 : State := fun h =>
  if h = 1 then { arbiter := some 0, refcnt := 0, busy_count := 0, current_mode := AccessMode.NONE, arbitered_req_list := none }
  else if h = 2 then { arbiter := some 0, refcnt := 1, busy_count := 1, current_mode := AccessMode.W, arbitered_req_list := none }
  else { arbiter := none, refcnt := 0, busy_count := 0, current_mode := AccessMode.NONE, arbitered_req_list := none }

/-- Witness for C3 (amended) at a concrete failing submission. -/
theorem C3_witness :
    (submit_job_enforce_arbitered_deps jC3 0 σC3).2.1 = SubmitOutcome.parked ∧
    ((∀ k, 0 ≤ k → k < jC3.nbuffers →
      ((submit_job_enforce_arbitered_deps jC3 0 σC3).1 (jC3.handleOf k)).arbitered_req_list =
        some ({ mode := jC3.modeOf k, j := jC3, buffer_index := k } ::
          (σC3 (jC3.handleOf k)).arbitered_req_list.getD [])) ∧
    (∀ (arb : Option Nat) (r : Requester) (rs : List Requester) (σn : State),
      (notifyAcquireLoop r.j arb
        (r.j.nbuffers - findFirstGroupIdx r.j arb σn r.j.nbuffers 0)
        (findFirstGroupIdx r.j arb σn r.j.nbuffers 0) σn).2.2.1 = true →
      ∃ nxt, (notifyScan arb (r :: rs) σn).2.1 = NotifyOutcome.promoted r.j.id nxt)) :=
  ⟨by decide,
   C3_parked_requester_at_head_lifo jC3 0 σC3
     (by intro k h1 h2; have h2b : k < 2 := h2; interval_cases k <;> decide)
     (by intro k1 k2 h1 h2 h3; have h3b : k2 < 2 := h3
         interval_cases k2 <;> interval_cases k1 <;> decide)
     (by intro k h1 h2; have h2b : k < 2 := h2; interval_cases k <;> decide)
     (by decide)⟩

/-- First task parked on handle 5 (parked earliest). -/
def jC3a : Job := { id := 1, buffers := [(5, AccessMode.W)] }

/-- Second task parked on handle 5 (parked latest). -/
def jC3b : Job := { id := 2, buffers := [(5, AccessMode.W)] }

/-- Handle 5 is held by a current owner, so both submissions park. -/
def σC3x : State := fun h =>
  if h = 5 then { arbiter := some 0, refcnt := 1, busy_count := 1, current_mode := AccessMode.W, arbitered_req_list := none }
  else { arbiter := none, refcnt := 0, busy_count := 0, current_mode := AccessMode.NONE, arbitered_req_list := none }

/-- State after parking jC3a then jC3b. -/
def σC3xb : State :=
  (submit_job_enforce_arbitered_deps jC3b 0
    (submit_job_enforce_arbitered_deps jC3a 0 σC3x).1).1

/-- State after the current owner releases its reference on handle 5. -/
def σC3rel : State :=
  upd σC3xb 5 fun s => { s with refcnt := 0, busy_count := s.busy_count - 1 }

/-- Counterexample to C3 as stated: the requester of the task parked LATER
(jC3b) sits at the head of handle 5's list, not at its tail, and the notify
scan promotes jC3b although jC3a was parked earliest — LIFO, not FIFO. -/
theorem C3_counterexample :
    (σC3xb 5).arbitered_req_list =
      some [{ mode := AccessMode.W, j := jC3b, buffer_index := 0 },
            { mode := AccessMode.W, j := jC3a, buffer_index := 0 }] ∧
    (σC3xb 5).arbitered_req_list ≠
      some [{ mode := AccessMode.W, j := jC3a, buffer_index := 0 },
            { mode := AccessMode.W, j := jC3b, buffer_index := 0 }] ∧
    (notify_arbitered_dependencies 5 σC3rel).2.1 = NotifyOutcome.promoted jC3b.id none ∧
    (notify_arbitered_dependencies 5 σC3rel).2.1 ≠ NotifyOutcome.promoted jC3a.id none := by
  decide

/-! ### Lemmas about the notify-side loops -/

/-- Exit bounds of the notify try-acquire loop. -/
theorem notifyAcquireLoop_exit_bounds (j : Job) (arb : Option Nat) :
    ∀ (rem idx : Nat) (σ : State),
      idx ≤ (notifyAcquireLoop j arb rem idx σ).2.1 ∧
      (notifyAcquireLoop j arb rem idx σ).2.1 ≤ idx + rem ∧
      ((notifyAcquireLoop j arb rem idx σ).2.2.1 = false →
        (notifyAcquireLoop j arb rem idx σ).2.1 < idx + rem) := by
  intro rem
  induction rem with
  | zero => intro idx σ; simp [notifyAcquireLoop]
  | succ rem ih =>
    intro idx σ
    by_cases hskip : j.dupSkip idx
    · obtain ⟨h1, h2, h3⟩ := ih (idx+1) σ
      simp only [notifyAcquireLoop, if_pos hskip]
      exact ⟨by omega, by omega, fun hf => by have := h3 hf; omega⟩
    · by_cases harb : (σ (j.handleOf idx)).arbiter ≠ arb
      · simp only [notifyAcquireLoop, if_neg hskip, if_pos harb]
        exact ⟨le_refl idx, by omega, fun hf => by simp at hf⟩
      · by_cases hr : (σ (j.handleOf idx)).refcnt ≠ 0
        · simp only [notifyAcquireLoop, if_neg hskip, if_neg harb, if_pos hr]
          exact ⟨le_refl idx, by omega, fun _ => by omega⟩
        · obtain ⟨h1, h2, h3⟩ := ih (idx+1) (fastTakeNotify σ (j.handleOf idx) (j.modeOf idx))
          simp only [notifyAcquireLoop, if_neg hskip, if_neg harb, if_neg hr]
          exact ⟨by omega, by omega, fun hf => by have := h3 hf; omega⟩

/-- Handles not attempted by the notify try-acquire loop are untouched. -/
theorem notifyAcquireLoop_frame (j : Job) (arb : Option Nat) :
    ∀ (rem idx : Nat) (σ : State) (h : Nat),
      (∀ k, idx ≤ k → k < (notifyAcquireLoop j arb rem idx σ).2.1 → j.handleOf k ≠ h) →
      (notifyAcquireLoop j arb rem idx σ).1 h = σ h := by
  intro rem
  induction rem with
  | zero => intro idx σ h _; simp [notifyAcquireLoop]
  | succ rem ih =>
    intro idx σ h hout
    by_cases hskip : j.dupSkip idx
    · simp only [notifyAcquireLoop, if_pos hskip] at hout ⊢
      exact ih (idx+1) σ h fun k hk1 hk2 => hout k (by omega) hk2
    · by_cases harb : (σ (j.handleOf idx)).arbiter ≠ arb
      · simp only [notifyAcquireLoop, if_neg hskip, if_pos harb]
      · by_cases hr : (σ (j.handleOf idx)).refcnt ≠ 0
        · simp only [notifyAcquireLoop, if_neg hskip, if_neg harb, if_pos hr]
        · simp only [notifyAcquireLoop, if_neg hskip, if_neg harb, if_neg hr] at hout ⊢
          have hb := notifyAcquireLoop_exit_bounds j arb rem (idx+1)
            (fastTakeNotify σ (j.handleOf idx) (j.modeOf idx))
          have hne : j.handleOf idx ≠ h := hout idx (le_refl idx) (by omega)
          have hrec := ih (idx+1) (fastTakeNotify σ (j.handleOf idx) (j.modeOf idx)) h
            (fun k hk1 hk2 => hout k (by omega) hk2)
          rw [hrec]
          simp only [fastTakeNotify]
          exact upd_other σ (j.handleOf idx) h _ (Ne.symm hne)

/-- Every index passed by the notify try-acquire loop pointed to a handle
of this arbiter with `refcnt = 0`, now holding `refcnt = 1` and the
requested mode; `busy_count` is not touched by the notify fast take. -/
theorem notifyAcquireLoop_taken (j : Job) (arb : Option Nat) :
    ∀ (rem idx : Nat) (σ : State),
      (∀ k, idx ≤ k → k < idx + rem → ¬ j.dupSkip k) →
      (∀ k1 k2, idx ≤ k1 → k1 < k2 → k2 < idx + rem → j.handleOf k1 ≠ j.handleOf k2) →
      ∀ k, idx ≤ k → k < (notifyAcquireLoop j arb rem idx σ).2.1 →
        (σ (j.handleOf k)).arbiter = arb ∧ (σ (j.handleOf k)).refcnt = 0 ∧
        (notifyAcquireLoop j arb rem idx σ).1 (j.handleOf k) =
          { σ (j.handleOf k) with
              refcnt := 1
              current_mode := j.modeOf k } := by
  intro rem
  induction rem with
  | zero =>
    intro idx σ _ _ k hk1 hk2
    simp only [notifyAcquireLoop] at hk2
    omega
  | succ rem ih =>
    intro idx σ Hd Hdist k hk1 hk2
    have hskip : ¬ j.dupSkip idx := Hd idx (le_refl idx) (by omega)
    by_cases harb : (σ (j.handleOf idx)).arbiter ≠ arb
    · simp only [notifyAcquireLoop, if_neg hskip, if_pos harb] at hk2
      omega
    · by_cases hr : (σ (j.handleOf idx)).refcnt ≠ 0
      · simp only [notifyAcquireLoop, if_neg hskip, if_neg harb, if_pos hr] at hk2
        omega
      · simp only [notifyAcquireLoop, if_neg hskip, if_neg harb, if_neg hr] at hk2 ⊢
        have hb := notifyAcquireLoop_exit_bounds j arb rem (idx+1)
          (fastTakeNotify σ (j.handleOf idx) (j.modeOf idx))
        rcases Nat.eq_or_lt_of_le hk1 with heq | hlt
        · subst heq
          refine ⟨not_not.mp harb, not_not.mp hr, ?_⟩
          have hframe := notifyAcquireLoop_frame j arb rem (idx+1)
            (fastTakeNotify σ (j.handleOf idx) (j.modeOf idx)) (j.handleOf idx)
            (fun k2 hk21 hk22 => Ne.symm (Hdist idx k2 (le_refl idx) (by omega) (by omega)))
          rw [hframe]
          simp only [fastTakeNotify, upd_same, not_not.mp hr]
        · have hne : j.handleOf k ≠ j.handleOf idx :=
            Ne.symm (Hdist idx k (le_refl idx) hlt (by omega))
          have hσ : fastTakeNotify σ (j.handleOf idx) (j.modeOf idx) (j.handleOf k) =
              σ (j.handleOf k) := upd_other σ (j.handleOf idx) (j.handleOf k) _ hne
          have hrec := ih (idx+1) (fastTakeNotify σ (j.handleOf idx) (j.modeOf idx))
            (fun k2 hk21 hk22 => Hd k2 (by omega) (by omega))
            (fun k1 k2 hk11 hk12 hk13 => Hdist k1 k2 (by omega) hk12 (by omega))
            k hlt hk2
          rw [hσ] at hrec
          exact hrec

/-- With no duplicate skips and all handles of this arbiter, the removal
loop of a promotion visits the whole range: its exit index is `idx + rem`. -/
theorem removalLoop_exit (j : Job) (arb : Option Nat) :
    ∀ (rem idx : Nat) (σ : State),
      (∀ k, idx ≤ k → k < idx + rem → ¬ j.dupSkip k) →
      (∀ k, idx ≤ k → k < idx + rem → (σ (j.handleOf k)).arbiter = arb) →
      (removalLoop j arb rem idx σ).2.1 = idx + rem := by
  intro rem
  induction rem with
  | zero => intro idx σ _ _; simp [removalLoop]
  | succ rem ih =>
    intro idx σ Hd Harb
    have hskip : ¬ j.dupSkip idx := Hd idx (le_refl idx) (by omega)
    have harb : ¬ (σ (j.handleOf idx)).arbiter ≠ arb :=
      not_not.mpr (Harb idx (le_refl idx) (by omega))
    simp only [removalLoop, if_neg hskip, if_neg harb]
    set σm := upd σ (j.handleOf idx) (fun s =>
      let q := remove_job_from_requester_list (s.arbitered_req_list.getD []) j
      { s with arbitered_req_list := if q = [] then none else some q }) with hσm
    have harbm : ∀ x, (σm x).arbiter = (σ x).arbiter := fun x =>
      upd_preserve σ (j.handleOf idx)
        (fun s =>
          let q := remove_job_from_requester_list (s.arbitered_req_list.getD []) j
          { s with arbitered_req_list := if q = [] then none else some q })
        (fun s => s.arbiter) (fun s => rfl) x
    have := ih (idx+1) σm
      (fun k hk1 hk2 => Hd k (by omega) (by omega))
      (fun k hk1 hk2 => by
        rw [harbm (j.handleOf k)]
        exact Harb k (by omega) (by omega))
    omega

/-- Handles outside the visited range are untouched by the removal loop. -/
theorem removalLoop_frame (j : Job) (arb : Option Nat) :
    ∀ (rem idx : Nat) (σ : State) (h : Nat),
      (∀ k, idx ≤ k → k < idx + rem → j.handleOf k ≠ h) →
      (removalLoop j arb rem idx σ).1 h = σ h := by
  intro rem
  induction rem with
  | zero => intro idx σ h _; simp [removalLoop]
  | succ rem ih =>
    intro idx σ h hout
    by_cases hskip : j.dupSkip idx
    · simp only [removalLoop, if_pos hskip]
      exact ih (idx+1) σ h fun k hk1 hk2 => hout k (by omega) (by omega)
    · by_cases harb : (σ (j.handleOf idx)).arbiter ≠ arb
      · simp only [removalLoop, if_neg hskip, if_pos harb]
      · simp only [removalLoop, if_neg hskip, if_neg harb]
        rw [ih (idx+1) _ h fun k hk1 hk2 => hout k (by omega) (by omega)]
        exact upd_other σ (j.handleOf idx) h _ (Ne.symm (hout idx (le_refl idx) (by omega)))

/-- Over a duplicate-free range of handles of this arbiter, the removal
loop erases the job's first requester from each visited handle's list,
freeing the list (NULL) when it becomes empty. -/
theorem removalLoop_effect (j : Job) (arb : Option Nat) :
    ∀ (rem idx : Nat) (σ : State),
      (∀ k, idx ≤ k → k < idx + rem → ¬ j.dupSkip k) →
      (∀ k1 k2, idx ≤ k1 → k1 < k2 → k2 < idx + rem → j.handleOf k1 ≠ j.handleOf k2) →
      (∀ k, idx ≤ k → k < idx + rem → (σ (j.handleOf k)).arbiter = arb) →
      ∀ k, idx ≤ k → k < idx + rem →
        (removalLoop j arb rem idx σ).1 (j.handleOf k) =
          { σ (j.handleOf k) with
              arbitered_req_list :=
                if remove_job_from_requester_list
                    ((σ (j.handleOf k)).arbitered_req_list.getD []) j = [] then none
                else some (remove_job_from_requester_list
                    ((σ (j.handleOf k)).arbitered_req_list.getD []) j) } := by
  intro rem
  induction rem with
  | zero => intro idx σ _ _ _ k hk1 hk2; omega
  | succ rem ih =>
    intro idx σ Hd Hdist Harb k hk1 hk2
    have hskip : ¬ j.dupSkip idx := Hd idx (le_refl idx) (by omega)
    have harb : ¬ (σ (j.handleOf idx)).arbiter ≠ arb :=
      not_not.mpr (Harb idx (le_refl idx) (by omega))
    simp only [removalLoop, if_neg hskip, if_neg harb]
    set σm := upd σ (j.handleOf idx) (fun s =>
      let q := remove_job_from_requester_list (s.arbitered_req_list.getD []) j
      { s with arbitered_req_list := if q = [] then none else some q }) with hσm
    have harbm : ∀ x, (σm x).arbiter = (σ x).arbiter := fun x =>
      upd_preserve σ (j.handleOf idx)
        (fun s =>
          let q := remove_job_from_requester_list (s.arbitered_req_list.getD []) j
          { s with arbitered_req_list := if q = [] then none else some q })
        (fun s => s.arbiter) (fun s => rfl) x
    rcases Nat.eq_or_lt_of_le hk1 with heq | hlt
    · subst heq
      rw [removalLoop_frame j arb rem (idx+1) σm (j.handleOf idx)
        (fun k2 hk21 hk22 => Ne.symm (Hdist idx k2 (le_refl idx) (by omega) (by omega)))]
      exact upd_same σ (j.handleOf idx) _
    · have hne : j.handleOf k ≠ j.handleOf idx :=
        Ne.symm (Hdist idx k (le_refl idx) hlt (by omega))
      have hσk : σm (j.handleOf k) = σ (j.handleOf k) :=
        upd_other σ (j.handleOf idx) (j.handleOf k) _ hne
      have hrec := ih (idx+1) σm
        (fun k2 hk21 hk22 => Hd k2 (by omega) (by omega))
        (fun k1 k2 hk11 hk12 hk13 => Hdist k1 k2 (by omega) hk12 (by omega))
        (fun k2 hk21 hk22 => by
          rw [harbm (j.handleOf k2)]
          exact Harb k2 (by omega) (by omega))
        k hlt (by omega)
      rw [hrec, hσk]

/-- Two states that agree on every field except possibly `current_mode`.
A failed notify candidate leaves the state in this relation with the state
it started from (the modes written during its partial fast takes are not
reverted by the rollback, but nothing else changes). -/
def agreesExceptMode (σ1 σ2 : State) : Prop := ∀ x,
  (σ1 x).arbiter = (σ2 x).arbiter ∧ (σ1 x).refcnt = (σ2 x).refcnt ∧
  (σ1 x).busy_count = (σ2 x).busy_count ∧
  (σ1 x).arbitered_req_list = (σ2 x).arbitered_req_list

theorem agreesExceptMode_refl (σ : State) : agreesExceptMode σ σ :=
  fun _ => ⟨rfl, rfl, rfl, rfl⟩

theorem agreesExceptMode_trans {σ1 σ2 σ3 : State}
    (h12 : agreesExceptMode σ1 σ2) (h23 : agreesExceptMode σ2 σ3) :
    agreesExceptMode σ1 σ3 := fun x =>
  ⟨(h12 x).1.trans (h23 x).1, (h12 x).2.1.trans (h23 x).2.1,
   (h12 x).2.2.1.trans (h23 x).2.2.1, (h12 x).2.2.2.trans (h23 x).2.2.2⟩

/-- A job whose ordered buffer list references pairwise-distinct handles
(the spec calls task buffer lists deduplicated). -/
def Job.dupFree (j : Job) : Prop :=
  ∀ k1 k2, k1 < k2 → k2 < j.nbuffers → j.handleOf k1 ≠ j.handleOf k2

theorem dupFree_noSkip (j : Job) (hj : j.dupFree) :
    ∀ k, k < j.nbuffers → ¬ j.dupSkip k := by
  intro k hk hskip
  obtain ⟨h0, heq⟩ := hskip
  exact hj (k-1) k (by omega) hk heq

/-- `findFirstGroupIdx` only reads the `arbiter` fields. -/
theorem findFirstGroupIdx_congr (j : Job) (arb : Option Nat) (σ1 σ2 : State)
    (ha : ∀ x, (σ1 x).arbiter = (σ2 x).arbiter) :
    ∀ (rem i : Nat),
      findFirstGroupIdx j arb σ1 rem i = findFirstGroupIdx j arb σ2 rem i := by
  intro rem
  induction rem with
  | zero => intro i; simp [findFirstGroupIdx]
  | succ rem ih =>
    intro i
    by_cases hskip : j.dupSkip i
    · simp only [findFirstGroupIdx, if_pos hskip]
      exact ih (i+1)
    · by_cases harb : (σ1 (j.handleOf i)).arbiter = arb
      · have harb2 : (σ2 (j.handleOf i)).arbiter = arb := by
          rw [← ha (j.handleOf i)]; exact harb
        simp only [findFirstGroupIdx, if_neg hskip, if_pos harb, if_pos harb2]
      · have harb2 : ¬ (σ2 (j.handleOf i)).arbiter = arb := by
          rw [← ha (j.handleOf i)]; exact harb
        simp only [findFirstGroupIdx, if_neg hskip, if_neg harb, if_neg harb2]
        exact ih (i+1)

/-- The exit index and the success flag of the notify try-acquire loop only
depend on the `refcnt` and `arbiter` fields of the state. -/
theorem notifyAcquireLoop_congr (j : Job) (arb : Option Nat) :
    ∀ (rem idx : Nat) (σ1 σ2 : State),
      (∀ x, (σ1 x).refcnt = (σ2 x).refcnt ∧ (σ1 x).arbiter = (σ2 x).arbiter) →
      (notifyAcquireLoop j arb rem idx σ1).2.1 = (notifyAcquireLoop j arb rem idx σ2).2.1 ∧
      (notifyAcquireLoop j arb rem idx σ1).2.2.1 = (notifyAcquireLoop j arb rem idx σ2).2.2.1 := by
  intro rem
  induction rem with
  | zero => intro idx σ1 σ2 _; simp [notifyAcquireLoop]
  | succ rem ih =>
    intro idx σ1 σ2 hra
    by_cases hskip : j.dupSkip idx
    · simp only [notifyAcquireLoop, if_pos hskip]
      exact ih (idx+1) σ1 σ2 hra
    · by_cases harb : (σ1 (j.handleOf idx)).arbiter ≠ arb
      · have harb2 : (σ2 (j.handleOf idx)).arbiter ≠ arb := by
          rw [← (hra (j.handleOf idx)).2]; exact harb
        simp only [notifyAcquireLoop, if_neg hskip, if_pos harb, if_pos harb2]
        simp
      · have harb2 : ¬ (σ2 (j.handleOf idx)).arbiter ≠ arb := by
          rw [← (hra (j.handleOf idx)).2]; exact harb
        by_cases hr : (σ1 (j.handleOf idx)).refcnt ≠ 0
        · have hr2 : (σ2 (j.handleOf idx)).refcnt ≠ 0 := by
            rw [← (hra (j.handleOf idx)).1]; exact hr
          simp only [notifyAcquireLoop, if_neg hskip, if_neg harb, if_neg harb2,
            if_pos hr, if_pos hr2]
          simp
        · have hr2 : ¬ (σ2 (j.handleOf idx)).refcnt ≠ 0 := by
            rw [← (hra (j.handleOf idx)).1]; exact hr
          simp only [notifyAcquireLoop, if_neg hskip, if_neg harb, if_neg harb2,
            if_neg hr, if_neg hr2]
          refine ih (idx+1) _ _ (fun x => ?_)
          unfold fastTakeNotify upd
          by_cases hx : x = j.handleOf idx <;>
            simp [hx, hra x, (hra (j.handleOf idx)).1, (hra (j.handleOf idx)).2]

/-- A failed notify candidate (try-acquire loop that fails, followed by the
rollback loop) leaves every handle's `refcnt`, `busy_count`, requester list
and arbiter exactly as they were. -/
theorem notify_candidate_fail_restore (j : Job) (arb : Option Nat)
    (rem idx : Nat) (σ : State)
    (Hd : ∀ k, idx ≤ k → k < idx + rem → ¬ j.dupSkip k)
    (Hdist : ∀ k1 k2, idx ≤ k1 → k1 < k2 → k2 < idx + rem →
      j.handleOf k1 ≠ j.handleOf k2)
    (hf : (notifyAcquireLoop j arb rem idx σ).2.2.1 = false) :
    agreesExceptMode
      ((cancelLoop j arb ((notifyAcquireLoop j arb rem idx σ).2.1 - idx) idx
        (notifyAcquireLoop j arb rem idx σ).1).1) σ := by
  set σ₁ := (notifyAcquireLoop j arb rem idx σ).1 with hσ1
  set e := (notifyAcquireLoop j arb rem idx σ).2.1 with he
  have hb := notifyAcquireLoop_exit_bounds j arb rem idx σ
  have hup : e < idx + rem := hb.2.2 hf
  have harb1 : ∀ x, (σ₁ x).arbiter = (σ x).arbiter := fun x =>
    notifyAcquireLoop_preserve j arb (fun s => s.arbiter) (fun s m => rfl) rem idx σ x
  intro x
  by_cases hx : ∃ k, idx ≤ k ∧ k < e ∧ j.handleOf k = x
  · obtain ⟨k, hk1, hk2, hkx⟩ := hx
    have ht := notifyAcquireLoop_taken j arb rem idx σ Hd Hdist k hk1 hk2
    have hceff := cancelLoop_effect j arb (e - idx) idx σ₁
      (fun k2 h1 h2 => Hd k2 h1 (by omega))
      (fun k1 k2 h1 h2 h3 => Hdist k1 k2 h1 h2 (by omega))
      (fun k2 h1 h2 => by
        rw [harb1 (j.handleOf k2)]
        exact (notifyAcquireLoop_taken j arb rem idx σ Hd Hdist k2 h1 (by omega)).1)
      k hk1 (by omega)
    rw [← hkx]
    rw [hceff, hσ1, ht.2.2]
    simp [ht.2.1]
  · have hfr1 : σ₁ x = σ x := by
      rw [hσ1]
      exact notifyAcquireLoop_frame j arb rem idx σ x
        (fun k h1 h2 => fun hcontra => hx ⟨k, h1, h2, hcontra⟩)
    have hfr2 : (cancelLoop j arb (e - idx) idx σ₁).1 x = σ₁ x :=
      cancelLoop_frame j arb (e - idx) idx σ₁ x
        (fun k h1 h2 => fun hcontra => hx ⟨k, h1, by omega, hcontra⟩)
    rw [hfr2, hfr1]
    exact ⟨rfl, rfl, rfl, rfl⟩

/-- Bounds of the search for the first buffer of this arbiter group. -/
theorem findFirstGroupIdx_bounds (j : Job) (arb : Option Nat) (σ : State) :
    ∀ (rem i : Nat),
      i ≤ findFirstGroupIdx j arb σ rem i ∧
      findFirstGroupIdx j arb σ rem i ≤ i + rem := by
  intro rem
  induction rem with
  | zero => intro i; simp [findFirstGroupIdx]
  | succ rem ih =>
    intro i
    by_cases hskip : j.dupSkip i
    · have := ih (i+1)
      simp only [findFirstGroupIdx, if_pos hskip]
      omega
    · by_cases harb : (σ (j.handleOf i)).arbiter = arb
      · simp only [findFirstGroupIdx, if_neg hskip, if_pos harb]
        omega
      · have := ih (i+1)
        simp only [findFirstGroupIdx, if_neg hskip, if_neg harb]
        omega

/-- When every handle of the range belongs to this arbiter and there are no
duplicate skips, a successful notify try-acquire loop visits the entire
range: it exits at `idx + rem`. -/
theorem notifyAcquireLoop_exit_full (j : Job) (arb : Option Nat) :
    ∀ (rem idx : Nat) (σ : State),
      (∀ k, idx ≤ k → k < idx + rem → ¬ j.dupSkip k) →
      (∀ k, idx ≤ k → k < idx + rem → (σ (j.handleOf k)).arbiter = arb) →
      (notifyAcquireLoop j arb rem idx σ).2.2.1 = true →
      (notifyAcquireLoop j arb rem idx σ).2.1 = idx + rem := by
  intro rem
  induction rem with
  | zero => intro idx σ _ _ _; simp [notifyAcquireLoop]
  | succ rem ih =>
    intro idx σ Hd Harb hok
    have hskip : ¬ j.dupSkip idx := Hd idx (le_refl idx) (by omega)
    have harb : ¬ (σ (j.handleOf idx)).arbiter ≠ arb :=
      not_not.mpr (Harb idx (le_refl idx) (by omega))
    by_cases hr : (σ (j.handleOf idx)).refcnt ≠ 0
    · simp only [notifyAcquireLoop, if_neg hskip, if_neg harb, if_pos hr] at hok
      exact Bool.noConfusion hok
    · simp only [notifyAcquireLoop, if_neg hskip, if_neg harb, if_neg hr] at hok ⊢
      have harbn : ∀ x, (fastTakeNotify σ (j.handleOf idx) (j.modeOf idx) x).arbiter =
          (σ x).arbiter := fun x =>
        upd_preserve σ (j.handleOf idx)
          (fun s => { s with refcnt := s.refcnt + 1, current_mode := j.modeOf idx })
          (fun s => s.arbiter) (fun s => rfl) x
      have := ih (idx+1) (fastTakeNotify σ (j.handleOf idx) (j.modeOf idx))
        (fun k hk1 hk2 => Hd k (by omega) (by omega))
        (fun k hk1 hk2 => by
          rw [harbn (j.handleOf k)]
          exact Harb k (by omega) (by omega))
        hok
      omega

/-- Whether a queued requester's fast-takes over its arbiter group would
all succeed from state `σ`: the success flag of the notify try-acquire
loop run for it. -/
def canPromote (arb : Option Nat) (σ : State) (r : Requester) : Bool :=
  (notifyAcquireLoop r.j arb
    (r.j.nbuffers - findFirstGroupIdx r.j arb σ r.j.nbuffers 0)
    (findFirstGroupIdx r.j arb σ r.j.nbuffers 0) σ).2.2.1

/-- `canPromote` only depends on the `refcnt` and `arbiter` fields. -/
theorem canPromote_congr (arb : Option Nat) (σ1 σ2 : State) (r : Requester)
    (hra : ∀ x, (σ1 x).refcnt = (σ2 x).refcnt ∧ (σ1 x).arbiter = (σ2 x).arbiter) :
    canPromote arb σ1 r = canPromote arb σ2 r := by
  unfold canPromote
  rw [findFirstGroupIdx_congr r.j arb σ1 σ2 (fun x => (hra x).2) r.j.nbuffers 0]
  exact (notifyAcquireLoop_congr r.j arb
    (r.j.nbuffers - findFirstGroupIdx r.j arb σ2 r.j.nbuffers 0)
    (findFirstGroupIdx r.j arb σ2 r.j.nbuffers 0) σ1 σ2 hra).2

/-- When no queued requester can be promoted, the notify scan promotes
nothing and restores every field except possibly modes. -/
theorem notifyScan_all_fail (arb : Option Nat) :
    ∀ (q : List Requester) (σ : State),
      (∀ r ∈ q, r.j.dupFree) →
      (∀ r ∈ q, canPromote arb σ r = false) →
      (notifyScan arb q σ).2.1 = NotifyOutcome.idle ∧
      agreesExceptMode (notifyScan arb q σ).1 σ := by
  intro q
  induction q with
  | nil => intro σ _ _; exact ⟨rfl, agreesExceptMode_refl σ⟩
  | cons r rs ih =>
    intro σ hdf hfail
    have hok : canPromote arb σ r = false := hfail r (List.mem_cons_self r rs)
    have hoku : (notifyAcquireLoop r.j arb
        (r.j.nbuffers - findFirstGroupIdx r.j arb σ r.j.nbuffers 0)
        (findFirstGroupIdx r.j arb σ r.j.nbuffers 0) σ).2.2.1 = false := hok
    have hnb := findFirstGroupIdx_bounds r.j arb σ r.j.nbuffers 0
    have hdfr := hdf r (List.mem_cons_self r rs)
    have hrestore := notify_candidate_fail_restore r.j arb
      (r.j.nbuffers - findFirstGroupIdx r.j arb σ r.j.nbuffers 0)
      (findFirstGroupIdx r.j arb σ r.j.nbuffers 0) σ
      (fun k hk1 hk2 => dupFree_noSkip r.j hdfr k (by omega))
      (fun k1 k2 h1 h2 h3 => hdfr k1 k2 h2 (by omega))
      hoku
    have hihres := ih (cancelLoop r.j arb
        ((notifyAcquireLoop r.j arb
          (r.j.nbuffers - findFirstGroupIdx r.j arb σ r.j.nbuffers 0)
          (findFirstGroupIdx r.j arb σ r.j.nbuffers 0) σ).2.1 -
            findFirstGroupIdx r.j arb σ r.j.nbuffers 0)
        (findFirstGroupIdx r.j arb σ r.j.nbuffers 0)
        (notifyAcquireLoop r.j arb
          (r.j.nbuffers - findFirstGroupIdx r.j arb σ r.j.nbuffers 0)
          (findFirstGroupIdx r.j arb σ r.j.nbuffers 0) σ).1).1
      (fun r2 hr2 => hdf r2 (List.mem_cons_of_mem r hr2))
      (fun r2 hr2 => by
        rw [canPromote_congr arb _ σ r2
          (fun x => ⟨(hrestore x).2.1, (hrestore x).1⟩)]
        exact hfail r2 (List.mem_cons_of_mem r hr2))
    simp only [notifyScan, hoku, Bool.false_eq_true, if_false]
    exact ⟨hihres.1, agreesExceptMode_trans hihres.2 hrestore⟩

/-- The notify scan promotes exactly the first queued requester whose
fast-takes all succeed (evaluated over `refcnt`/`arbiter`, which failed
candidates restore): requesters before it are fully rolled back, the
promoted requester's job is removed from the lists of every handle of its
group (which end with `refcnt = 1` and an unchanged `busy_count`), handles
outside the group keep every field except possibly `current_mode`, and the
scan stops there.  Stated for a requester whose group reaches the end of
its buffer list, so the task is pushed (`next = none`). -/
theorem notifyScan_first_success (arb : Option Nat) :
    ∀ (q1 : List Requester) (r : Requester) (q2 : List Requester) (σ : State),
      (∀ r2 ∈ q1, r2.j.dupFree) →
      r.j.dupFree →
      (∀ r2 ∈ q1, canPromote arb σ r2 = false) →
      canPromote arb σ r = true →
      (∀ k, findFirstGroupIdx r.j arb σ r.j.nbuffers 0 ≤ k → k < r.j.nbuffers →
        (σ (r.j.handleOf k)).arbiter = arb) →
      (notifyScan arb (q1 ++ r :: q2) σ).2.1 = NotifyOutcome.promoted r.j.id none ∧
      (∀ k, findFirstGroupIdx r.j arb σ r.j.nbuffers 0 ≤ k → k < r.j.nbuffers →
        (σ (r.j.handleOf k)).refcnt = 0 ∧
        ((notifyScan arb (q1 ++ r :: q2) σ).1 (r.j.handleOf k)).refcnt = 1 ∧
        ((notifyScan arb (q1 ++ r :: q2) σ).1 (r.j.handleOf k)).busy_count =
          (σ (r.j.handleOf k)).busy_count ∧
        ((notifyScan arb (q1 ++ r :: q2) σ).1 (r.j.handleOf k)).arbitered_req_list =
          (if remove_job_from_requester_list
              ((σ (r.j.handleOf k)).arbitered_req_list.getD []) r.j = [] then none
           else some (remove_job_from_requester_list
              ((σ (r.j.handleOf k)).arbitered_req_list.getD []) r.j))) ∧
      (∀ x, (∀ k, findFirstGroupIdx r.j arb σ r.j.nbuffers 0 ≤ k → k < r.j.nbuffers →
          r.j.handleOf k ≠ x) →
        ((notifyScan arb (q1 ++ r :: q2) σ).1 x).refcnt = (σ x).refcnt ∧
        ((notifyScan arb (q1 ++ r :: q2) σ).1 x).busy_count = (σ x).busy_count ∧
        ((notifyScan arb (q1 ++ r :: q2) σ).1 x).arbitered_req_list =
          (σ x).arbitered_req_list ∧
        ((notifyScan arb (q1 ++ r :: q2) σ).1 x).arbiter = (σ x).arbiter) := by
  intro q1
  induction q1 with
  | nil =>
    intro r q2 σ _ hdfr hfail hok Hgrp
    set nb := findFirstGroupIdx r.j arb σ r.j.nbuffers 0 with hnb
    have hnbb := findFirstGroupIdx_bounds r.j arb σ r.j.nbuffers 0
    have hnble : nb ≤ r.j.nbuffers := by omega
    have Hd : ∀ k, nb ≤ k → k < nb + (r.j.nbuffers - nb) → ¬ r.j.dupSkip k :=
      fun k h1 h2 => dupFree_noSkip r.j hdfr k (by omega)
    have Hdist : ∀ k1 k2, nb ≤ k1 → k1 < k2 → k2 < nb + (r.j.nbuffers - nb) →
        r.j.handleOf k1 ≠ r.j.handleOf k2 :=
      fun k1 k2 h1 h2 h3 => hdfr k1 k2 h2 (by omega)
    have hoku : (notifyAcquireLoop r.j arb (r.j.nbuffers - nb) nb σ).2.2.1 = true := hok
    set σ₁ := (notifyAcquireLoop r.j arb (r.j.nbuffers - nb) nb σ).1 with hσ1
    have heA : (notifyAcquireLoop r.j arb (r.j.nbuffers - nb) nb σ).2.1 =
        nb + (r.j.nbuffers - nb) :=
      notifyAcquireLoop_exit_full r.j arb (r.j.nbuffers - nb) nb σ Hd
        (fun k h1 h2 => Hgrp k h1 (by omega)) hoku
    have harb1 : ∀ x, (σ₁ x).arbiter = (σ x).arbiter := fun x =>
      notifyAcquireLoop_preserve r.j arb (fun s => s.arbiter) (fun s m => rfl)
        (r.j.nbuffers - nb) nb σ x
    have hbusy1 : ∀ x, (σ₁ x).busy_count = (σ x).busy_count := fun x =>
      notifyAcquireLoop_preserve r.j arb (fun s => s.busy_count) (fun s m => rfl)
        (r.j.nbuffers - nb) nb σ x
    have hqueue1 : ∀ x, (σ₁ x).arbitered_req_list = (σ x).arbitered_req_list := fun x =>
      notifyAcquireLoop_preserve r.j arb (fun s => s.arbitered_req_list) (fun s m => rfl)
        (r.j.nbuffers - nb) nb σ x
    have Harb1 : ∀ k, nb ≤ k → k < nb + (r.j.nbuffers - nb) →
        (σ₁ (r.j.handleOf k)).arbiter = arb := fun k h1 h2 => by
      rw [harb1 (r.j.handleOf k)]
      exact Hgrp k h1 (by omega)
    have hexitR : (removalLoop r.j arb (r.j.nbuffers - nb) nb σ₁).2.1 =
        nb + (r.j.nbuffers - nb) :=
      removalLoop_exit r.j arb (r.j.nbuffers - nb) nb σ₁ Hd Harb1
    have hc : ¬ (removalLoop r.j arb (r.j.nbuffers - nb) nb σ₁).2.1 < r.j.nbuffers := by
      omega
    have hscan : notifyScan arb (r :: q2) σ =
        ((removalLoop r.j arb (r.j.nbuffers - nb) nb σ₁).1,
          NotifyOutcome.promoted r.j.id none,
          (notifyAcquireLoop r.j arb (r.j.nbuffers - nb) nb σ).2.2.2 ++
            (removalLoop r.j arb (r.j.nbuffers - nb) nb σ₁).2.2 ++
            [Event.unlockArb, Event.pushTask r.j.id]) := by
      simp only [notifyScan, hoku, if_pos, if_neg hc]
    rw [List.nil_append]
    refine ⟨by rw [hscan], fun k hk1 hk2 => ?_, fun x hx => ?_⟩
    · have ht := notifyAcquireLoop_taken r.j arb (r.j.nbuffers - nb) nb σ Hd Hdist k hk1
        (by omega)
      have hre := removalLoop_effect r.j arb (r.j.nbuffers - nb) nb σ₁ Hd Hdist Harb1
        k hk1 (by omega)
      rw [hscan]
      refine ⟨ht.2.1, ?_, ?_, ?_⟩
      · simp only [hre]
        simp only [hσ1, ht.2.2]
      · simp only [hre]
        simp [hbusy1 (r.j.handleOf k)]
      · simp only [hre]
        simp [hqueue1 (r.j.handleOf k)]
    · have hfr1 : σ₁ x = σ x := by
        rw [hσ1]
        refine notifyAcquireLoop_frame r.j arb (r.j.nbuffers - nb) nb σ x ?_
        intro k h1 h2
        exact hx k h1 (by omega)
      have hfr2 : (removalLoop r.j arb (r.j.nbuffers - nb) nb σ₁).1 x = σ₁ x :=
        removalLoop_frame r.j arb (r.j.nbuffers - nb) nb σ₁ x
          (fun k h1 h2 => hx k h1 (by omega))
      rw [hscan]
      simp [hfr2, hfr1]
  | cons rp q1t ih =>
    intro r q2 σ hdf hdfr hfail hok Hgrp
    have hokp : canPromote arb σ rp = false := hfail rp (List.mem_cons_self rp q1t)
    have hokpu : (notifyAcquireLoop rp.j arb
        (rp.j.nbuffers - findFirstGroupIdx rp.j arb σ rp.j.nbuffers 0)
        (findFirstGroupIdx rp.j arb σ rp.j.nbuffers 0) σ).2.2.1 = false := hokp
    have hdfp := hdf rp (List.mem_cons_self rp q1t)
    have hnbp := findFirstGroupIdx_bounds rp.j arb σ rp.j.nbuffers 0
    have hrestore := notify_candidate_fail_restore rp.j arb
      (rp.j.nbuffers - findFirstGroupIdx rp.j arb σ rp.j.nbuffers 0)
      (findFirstGroupIdx rp.j arb σ rp.j.nbuffers 0) σ
      (fun k h1 h2 => dupFree_noSkip rp.j hdfp k (by omega))
      (fun k1 k2 h1 h2 h3 => hdfp k1 k2 h2 (by omega))
      hokpu
    set σc := (cancelLoop rp.j arb
      ((notifyAcquireLoop rp.j arb
        (rp.j.nbuffers - findFirstGroupIdx rp.j arb σ rp.j.nbuffers 0)
        (findFirstGroupIdx rp.j arb σ rp.j.nbuffers 0) σ).2.1 -
          findFirstGroupIdx rp.j arb σ rp.j.nbuffers 0)
      (findFirstGroupIdx rp.j arb σ rp.j.nbuffers 0)
      (notifyAcquireLoop rp.j arb
        (rp.j.nbuffers - findFirstGroupIdx rp.j arb σ rp.j.nbuffers 0)
        (findFirstGroupIdx rp.j arb σ rp.j.nbuffers 0) σ).1).1 with hσc
    have hra : ∀ x, (σc x).refcnt = (σ x).refcnt ∧ (σc x).arbiter = (σ x).arbiter :=
      fun x => ⟨(hrestore x).2.1, (hrestore x).1⟩
    have hnbeq : findFirstGroupIdx r.j arb σc r.j.nbuffers 0 =
        findFirstGroupIdx r.j arb σ r.j.nbuffers 0 :=
      findFirstGroupIdx_congr r.j arb σc σ (fun x => (hra x).2) r.j.nbuffers 0
    have hih := ih r q2 σc
      (fun r2 hr2 => hdf r2 (List.mem_cons_of_mem rp hr2))
      hdfr
      (fun r2 hr2 => by
        rw [canPromote_congr arb σc σ r2 hra]
        exact hfail r2 (List.mem_cons_of_mem rp hr2))
      (by rw [canPromote_congr arb σc σ r hra]; exact hok)
      (by
        rw [hnbeq]
        intro k h1 h2
        rw [(hra (r.j.handleOf k)).2]
        exact Hgrp k h1 h2)
    rw [hnbeq] at hih
    have hscan : notifyScan arb ((rp :: q1t) ++ r :: q2) σ =
        ((notifyScan arb (q1t ++ r :: q2) σc).1,
          (notifyScan arb (q1t ++ r :: q2) σc).2.1,
          (notifyAcquireLoop rp.j arb
            (rp.j.nbuffers - findFirstGroupIdx rp.j arb σ rp.j.nbuffers 0)
            (findFirstGroupIdx rp.j arb σ rp.j.nbuffers 0) σ).2.2.2 ++
          (cancelLoop rp.j arb
            ((notifyAcquireLoop rp.j arb
              (rp.j.nbuffers - findFirstGroupIdx rp.j arb σ rp.j.nbuffers 0)
              (findFirstGroupIdx rp.j arb σ rp.j.nbuffers 0) σ).2.1 -
                findFirstGroupIdx rp.j arb σ rp.j.nbuffers 0)
            (findFirstGroupIdx rp.j arb σ rp.j.nbuffers 0)
            (notifyAcquireLoop rp.j arb
              (rp.j.nbuffers - findFirstGroupIdx rp.j arb σ rp.j.nbuffers 0)
              (findFirstGroupIdx rp.j arb σ rp.j.nbuffers 0) σ).1).2 ++
          (notifyScan arb (q1t ++ r :: q2) σc).2.2) := by
      simp only [List.cons_append, notifyScan, hokpu, Bool.false_eq_true, if_false, ← hσc]
      rfl
    refine ⟨?_, fun k hk1 hk2 => ?_, fun x hx => ?_⟩
    · rw [hscan]
      exact hih.1
    · have h2 := hih.2.1 k hk1 hk2
      rw [hscan]
      refine ⟨?_, h2.2.1, ?_, ?_⟩
      · rw [← (hrestore (r.j.handleOf k)).2.1]
        exact h2.1
      · rw [h2.2.2.1, (hrestore (r.j.handleOf k)).2.2.1]
      · rw [h2.2.2.2, (hrestore (r.j.handleOf k)).2.2.2]
    · have h3 := hih.2.2 x hx
      rw [hscan]
      exact ⟨h3.1.trans (hrestore x).2.1, h3.2.1.trans (hrestore x).2.2.1,
        h3.2.2.1.trans (hrestore x).2.2.2, h3.2.2.2.trans (hrestore x).1⟩

/-! ### Event trace lemmas -/

/-- A dispatch event: the task is handed on, either pushed to the policy or
passed to its next arbiter group. -/
def isDispatch (e : Event) : Bool :=
  match e with
  | Event.pushTask _ => true
  | Event.recurse _ _ => true
  | _ => false

/-- Number of dispatch events in a trace. -/
def dispatchCount (tr : List Event) : Nat := (tr.filter isDispatch).length

/-- A trace made only of header lock/unlock events. -/
def headerOnly (tr : List Event) : Prop :=
  ∀ e ∈ tr, (∃ h, e = Event.lockH h) ∨ (∃ h, e = Event.unlockH h)

theorem headerOnly_nil : headerOnly [] := by
  intro e he
  cases he

theorem headerOnly_pair_cons (h : Nat) (tr : List Event) (htr : headerOnly tr) :
    headerOnly (Event.lockH h :: Event.unlockH h :: tr) := by
  intro e he
  rcases List.mem_cons.mp he with rfl | he2
  · exact Or.inl ⟨h, rfl⟩
  rcases List.mem_cons.mp he2 with rfl | he3
  · exact Or.inr ⟨h, rfl⟩
  · exact htr e he3

theorem headerOnly_append {t1 t2 : List Event}
    (h1 : headerOnly t1) (h2 : headerOnly t2) : headerOnly (t1 ++ t2) := by
  intro e he
  rcases List.mem_append.mp he with h | h
  · exact h1 e h
  · exact h2 e h

theorem dispatchCount_headerOnly {tr : List Event} (htr : headerOnly tr) :
    dispatchCount tr = 0 := by
  unfold dispatchCount
  rw [List.length_eq_zero]
  rw [List.filter_eq_nil]
  intro e he
  rcases htr e he with ⟨h, rfl⟩ | ⟨h, rfl⟩ <;> simp [isDispatch]

theorem dispatchCount_append (t1 t2 : List Event) :
    dispatchCount (t1 ++ t2) = dispatchCount t1 + dispatchCount t2 := by
  unfold dispatchCount
  rw [List.filter_append, List.length_append]

theorem acquireLoop_trace_headerOnly (j : Job) (arb : Option Nat) :
    ∀ (rem idx : Nat) (σ : State), headerOnly (acquireLoop j arb rem idx σ).2.2.2 := by
  intro rem
  induction rem with
  | zero => intro idx σ; exact headerOnly_nil
  | succ rem ih =>
    intro idx σ
    by_cases hskip : j.dupSkip idx
    · simp only [acquireLoop, if_pos hskip]
      exact ih (idx+1) σ
    · by_cases harb : (σ (j.handleOf idx)).arbiter ≠ arb
      · simp only [acquireLoop, if_neg hskip, if_pos harb]
        exact headerOnly_nil
      · by_cases hr : (σ (j.handleOf idx)).refcnt = 0
        · simp only [acquireLoop, if_neg hskip, if_neg harb, if_pos hr]
          exact headerOnly_pair_cons _ _ (ih (idx+1) _)
        · simp only [acquireLoop, if_neg hskip, if_neg harb, if_neg hr]
          exact headerOnly_pair_cons _ _ headerOnly_nil

theorem cancelLoop_trace_headerOnly (j : Job) (arb : Option Nat) :
    ∀ (rem idx : Nat) (σ : State), headerOnly (cancelLoop j arb rem idx σ).2 := by
  intro rem
  induction rem with
  | zero => intro idx σ; exact headerOnly_nil
  | succ rem ih =>
    intro idx σ
    by_cases hskip : j.dupSkip idx
    · simp only [cancelLoop, if_pos hskip]
      exact ih (idx+1) σ
    · by_cases harb : (σ (j.handleOf idx)).arbiter ≠ arb
      · simp only [cancelLoop, if_neg hskip, if_pos harb]
        exact headerOnly_nil
      · simp only [cancelLoop, if_neg hskip, if_neg harb]
        exact headerOnly_pair_cons _ _ (ih (idx+1) _)

theorem recordLoop_trace_headerOnly (j : Job) (arb : Option Nat) (idxA : Nat) :
    ∀ (rem idx : Nat) (σ : State), headerOnly (recordLoop j arb idxA rem idx σ).2 := by
  intro rem
  induction rem with
  | zero => intro idx σ; exact headerOnly_nil
  | succ rem ih =>
    intro idx σ
    by_cases harb : (σ (j.handleOf idx)).arbiter ≠ arb
    · simp only [recordLoop, if_pos harb]
      exact headerOnly_nil
    · simp only [recordLoop, if_neg harb]
      exact headerOnly_pair_cons _ _ (ih (idx+1) _)

theorem notifyAcquireLoop_trace_headerOnly (j : Job) (arb : Option Nat) :
    ∀ (rem idx : Nat) (σ : State), headerOnly (notifyAcquireLoop j arb rem idx σ).2.2.2 := by
  intro rem
  induction rem with
  | zero => intro idx σ; exact headerOnly_nil
  | succ rem ih =>
    intro idx σ
    by_cases hskip : j.dupSkip idx
    · simp only [notifyAcquireLoop, if_pos hskip]
      exact ih (idx+1) σ
    · by_cases harb : (σ (j.handleOf idx)).arbiter ≠ arb
      · simp only [notifyAcquireLoop, if_neg hskip, if_pos harb]
        exact headerOnly_nil
      · by_cases hr : (σ (j.handleOf idx)).refcnt ≠ 0
        · simp only [notifyAcquireLoop, if_neg hskip, if_neg harb, if_pos hr]
          exact headerOnly_pair_cons _ _ headerOnly_nil
        · simp only [notifyAcquireLoop, if_neg hskip, if_neg harb, if_neg hr]
          exact headerOnly_pair_cons _ _ (ih (idx+1) _)

theorem removalLoop_trace_headerOnly (j : Job) (arb : Option Nat) :
    ∀ (rem idx : Nat) (σ : State), headerOnly (removalLoop j arb rem idx σ).2.2 := by
  intro rem
  induction rem with
  | zero => intro idx σ; exact headerOnly_nil
  | succ rem ih =>
    intro idx σ
    by_cases hskip : j.dupSkip idx
    · simp only [removalLoop, if_pos hskip]
      exact ih (idx+1) σ
    · by_cases harb : (σ (j.handleOf idx)).arbiter ≠ arb
      · simp only [removalLoop, if_neg hskip, if_pos harb]
        exact headerOnly_nil
      · simp only [removalLoop, if_neg hskip, if_neg harb]
        exact headerOnly_pair_cons _ _ (ih (idx+1) _)

/-- A single notify scan dispatches at most one task. -/
theorem notifyScan_dispatchCount (arb : Option Nat) :
    ∀ (q : List Requester) (σ : State),
      dispatchCount (notifyScan arb q σ).2.2 ≤ 1 := by
  intro q
  induction q with
  | nil => intro σ; simp [notifyScan, dispatchCount]
  | cons r rs ih =>
    intro σ
    by_cases hok : (notifyAcquireLoop r.j arb
        (r.j.nbuffers - findFirstGroupIdx r.j arb σ r.j.nbuffers 0)
        (findFirstGroupIdx r.j arb σ r.j.nbuffers 0) σ).2.2.1 = true
    · by_cases hc : (removalLoop r.j arb
          (r.j.nbuffers - findFirstGroupIdx r.j arb σ r.j.nbuffers 0)
          (findFirstGroupIdx r.j arb σ r.j.nbuffers 0)
          (notifyAcquireLoop r.j arb
            (r.j.nbuffers - findFirstGroupIdx r.j arb σ r.j.nbuffers 0)
            (findFirstGroupIdx r.j arb σ r.j.nbuffers 0) σ).1).2.1 < r.j.nbuffers
      · simp only [notifyScan, hok, if_pos, if_pos hc]
        rw [dispatchCount_append, dispatchCount_append,
          dispatchCount_headerOnly (notifyAcquireLoop_trace_headerOnly r.j arb _ _ σ),
          dispatchCount_headerOnly (removalLoop_trace_headerOnly r.j arb _ _ _)]
        simp [dispatchCount, isDispatch]
      · simp only [notifyScan, hok, if_pos, if_neg hc]
        rw [dispatchCount_append, dispatchCount_append,
          dispatchCount_headerOnly (notifyAcquireLoop_trace_headerOnly r.j arb _ _ σ),
          dispatchCount_headerOnly (removalLoop_trace_headerOnly r.j arb _ _ _)]
        simp [dispatchCount, isDispatch]
    · have hokf : (notifyAcquireLoop r.j arb
          (r.j.nbuffers - findFirstGroupIdx r.j arb σ r.j.nbuffers 0)
          (findFirstGroupIdx r.j arb σ r.j.nbuffers 0) σ).2.2.1 = false :=
        Bool.not_eq_true _ ▸ Bool.eq_false_iff.mpr hok
      simp only [notifyScan, hokf, Bool.false_eq_true, if_false]
      rw [dispatchCount_append, dispatchCount_append,
        dispatchCount_headerOnly (notifyAcquireLoop_trace_headerOnly r.j arb _ _ σ),
        dispatchCount_headerOnly (cancelLoop_trace_headerOnly r.j arb _ _ _)]
      simpa using ih _

theorem dispatchCount_cons_lockArb (tr : List Event) :
    dispatchCount (Event.lockArb :: tr) = dispatchCount tr := by
  simp [dispatchCount, isDispatch]

theorem dispatchCount_append_unlockArb (tr : List Event) :
    dispatchCount (tr ++ [Event.unlockArb]) = dispatchCount tr := by
  rw [dispatchCount_append]
  simp [dispatchCount, isDispatch]

/-- A single notify call dispatches at most one task. -/
theorem notify_dispatchCount (h : Nat) (σ : State) :
    dispatchCount (notify_arbitered_dependencies h σ).2.2 ≤ 1 := by
  unfold notify_arbitered_dependencies
  cases hq : (σ h).arbitered_req_list with
  | none => simp [dispatchCount, isDispatch]
  | some q =>
    have hs := notifyScan_dispatchCount ((σ h).arbiter) q σ
    cases ho : (notifyScan ((σ h).arbiter) q σ).2.1 with
    | idle =>
      simp only [ho, dispatchCount_cons_lockArb, dispatchCount_append_unlockArb]
      exact hs
    | promoted jid nxt =>
      simp only [ho, dispatchCount_cons_lockArb]
      exact hs

/-- Unfolding a notify call on a handle with a non-NULL requester list when
the scan promotes: state and outcome come from the scan. -/
theorem notify_unfold_some (hh : Nat) (σ : State) (q : List Requester)
    (hq : (σ hh).arbitered_req_list = some q)
    (ho : (notifyScan ((σ hh).arbiter) q σ).2.1 ≠ NotifyOutcome.idle) :
    (notify_arbitered_dependencies hh σ).1 = (notifyScan ((σ hh).arbiter) q σ).1 ∧
    (notify_arbitered_dependencies hh σ).2.1 = (notifyScan ((σ hh).arbiter) q σ).2.1 := by
  unfold notify_arbitered_dependencies
  rw [hq]
  cases hoo : (notifyScan ((σ hh).arbiter) q σ).2.1 with
  | idle => exact absurd hoo ho
  | promoted jid nxt => simp [hoo]

/-! ### Claim C4 -/

/-- C4: a single arbiter notify invocation promotes at most one task (at
most one dispatch event in its trace); the scan over the notified handle's
requester list stops at the first requester whose fast-takes on all of its
group buffers succeed; that requester's job is removed from the requester
list of every handle of its group and the task is pushed (its group being
its whole remaining buffer list here); requesters whose fast-takes fail are
fully rolled back (only `current_mode` may differ) and the scan continues. -/
theorem C4_notify_first_success_single_promotion
    (hh : Nat) (σ : State) (q1 : List Requester) (r : Requester) (q2 : List Requester)
    (hq : (σ hh).arbitered_req_list = some (q1 ++ r :: q2))
    (hdf : ∀ r2 ∈ q1, r2.j.dupFree)
    (hdfr : r.j.dupFree)
    (hfail : ∀ r2 ∈ q1, canPromote ((σ hh).arbiter) σ r2 = false)
    (hok : canPromote ((σ hh).arbiter) σ r = true)
    (Hgrp : ∀ k, findFirstGroupIdx r.j ((σ hh).arbiter) σ r.j.nbuffers 0 ≤ k →
      k < r.j.nbuffers → (σ (r.j.handleOf k)).arbiter = (σ hh).arbiter) :
    (∀ (h2 : Nat) (σ2 : State),
      dispatchCount (notify_arbitered_dependencies h2 σ2).2.2 ≤ 1) ∧
    (notify_arbitered_dependencies hh σ).2.1 = NotifyOutcome.promoted r.j.id none ∧
    (∀ k, findFirstGroupIdx r.j ((σ hh).arbiter) σ r.j.nbuffers 0 ≤ k →
      k < r.j.nbuffers →
      (σ (r.j.handleOf k)).refcnt = 0 ∧
      ((notify_arbitered_dependencies hh σ).1 (r.j.handleOf k)).refcnt = 1 ∧
      ((notify_arbitered_dependencies hh σ).1 (r.j.handleOf k)).busy_count =
        (σ (r.j.handleOf k)).busy_count ∧
      ((notify_arbitered_dependencies hh σ).1 (r.j.handleOf k)).arbitered_req_list =
        (if remove_job_from_requester_list
            ((σ (r.j.handleOf k)).arbitered_req_list.getD []) r.j = [] then none
         else some (remove_job_from_requester_list
            ((σ (r.j.handleOf k)).arbitered_req_list.getD []) r.j))) ∧
    (∀ x, (∀ k, findFirstGroupIdx r.j ((σ hh).arbiter) σ r.j.nbuffers 0 ≤ k →
        k < r.j.nbuffers → r.j.handleOf k ≠ x) →
      ((notify_arbitered_dependencies hh σ).1 x).refcnt = (σ x).refcnt ∧
      ((notify_arbitered_dependencies hh σ).1 x).busy_count = (σ x).busy_count ∧
      ((notify_arbitered_dependencies hh σ).1 x).arbitered_req_list =
        (σ x).arbitered_req_list ∧
      ((notify_arbitered_dependencies hh σ).1 x).arbiter = (σ x).arbiter) := by
  have hfs := notifyScan_first_success ((σ hh).arbiter) q1 r q2 σ hdf hdfr hfail hok Hgrp
  have hne : (notifyScan ((σ hh).arbiter) (q1 ++ r :: q2) σ).2.1 ≠ NotifyOutcome.idle := by
    rw [hfs.1]
    intro hcontra
    exact NotifyOutcome.noConfusion hcontra
  have hu := notify_unfold_some hh σ (q1 ++ r :: q2) hq hne
  refine ⟨fun h2 σ2 => notify_dispatchCount h2 σ2, ?_, ?_, ?_⟩
  · rw [hu.2, hfs.1]
  · intro k hk1 hk2
    rw [hu.1]
    exact hfs.2.1 k hk1 hk2
  · intro x hx
    rw [hu.1]
    exact hfs.2.2 x hx

/-- Parked requester for the C4 witness: a single-buffer job on handle 3. -/
def rC4 : Requester :=
  { mode := AccessMode.W, j := { id := 9, buffers := [(3, AccessMode.W)] }, buffer_index := 0 }

/-- State for the C4 witness: handle 3 released (refcnt 0) with rC4 parked. -/
def σC4 : State := fun h =>
  if h = 3 then { arbiter := some 0, refcnt := 0, busy_count := 1, current_mode := AccessMode.W, arbitered_req_list := some [rC4] }
  else { arbiter := none, refcnt := 0, busy_count := 0, current_mode := AccessMode.NONE, arbitered_req_list := none }

/-- Witness for C4 at a concrete one-requester notify that promotes. -/
theorem C4_witness :
    canPromote ((σC4 3).arbiter) σC4 rC4 = true ∧
    ((∀ (h2 : Nat) (σ2 : State),
      dispatchCount (notify_arbitered_dependencies h2 σ2).2.2 ≤ 1) ∧
    (notify_arbitered_dependencies 3 σC4).2.1 = NotifyOutcome.promoted rC4.j.id none ∧
    (∀ k, findFirstGroupIdx rC4.j ((σC4 3).arbiter) σC4 rC4.j.nbuffers 0 ≤ k →
      k < rC4.j.nbuffers →
      (σC4 (rC4.j.handleOf k)).refcnt = 0 ∧
      ((notify_arbitered_dependencies 3 σC4).1 (rC4.j.handleOf k)).refcnt = 1 ∧
      ((notify_arbitered_dependencies 3 σC4).1 (rC4.j.handleOf k)).busy_count =
        (σC4 (rC4.j.handleOf k)).busy_count ∧
      ((notify_arbitered_dependencies 3 σC4).1 (rC4.j.handleOf k)).arbitered_req_list =
        (if remove_job_from_requester_list
            ((σC4 (rC4.j.handleOf k)).arbitered_req_list.getD []) rC4.j = [] then none
         else some (remove_job_from_requester_list
            ((σC4 (rC4.j.handleOf k)).arbitered_req_list.getD []) rC4.j))) ∧
    (∀ x, (∀ k, findFirstGroupIdx rC4.j ((σC4 3).arbiter) σC4 rC4.j.nbuffers 0 ≤ k →
        k < rC4.j.nbuffers → rC4.j.handleOf k ≠ x) →
      ((notify_arbitered_dependencies 3 σC4).1 x).refcnt = (σC4 x).refcnt ∧
      ((notify_arbitered_dependencies 3 σC4).1 x).busy_count = (σC4 x).busy_count ∧
      ((notify_arbitered_dependencies 3 σC4).1 x).arbitered_req_list =
        (σC4 x).arbitered_req_list ∧
      ((notify_arbitered_dependencies 3 σC4).1 x).arbiter = (σC4 x).arbiter)) :=
  ⟨by decide,
   C4_notify_first_success_single_promotion 3 σC4 [] rC4 []
     (by decide)
     (by intro r2 hr2; cases hr2)
     (by intro k1 k2 h1 h2; have : k2 < 1 := h2; omega)
     (by intro r2 hr2; cases hr2)
     (by decide)
     (by intro k h1 h2; have h2b : k < 1 := h2; interval_cases k <;> decide)⟩

/-! ### Claim C5 -/

/-- Invariant P1/I1 of the spec: `ref_count ≤ busy_count` on every handle. -/
def I1 (σ : State) : Prop := ∀ h, (σ h).refcnt ≤ (σ h).busy_count

theorem I1_upd (σ : State) (h : Nat) (f : HandleState → HandleState)
    (hn : (f (σ h)).refcnt ≤ (f (σ h)).busy_count) (hI : I1 σ) : I1 (upd σ h f) := by
  intro x
  by_cases hx : x = h
  · subst hx
    rw [upd_same]
    exact hn
  · rw [upd_other σ h x f hx]
    exact hI x

theorem acquireLoop_I1 (j : Job) (arb : Option Nat) :
    ∀ (rem idx : Nat) (σ : State), I1 σ → I1 (acquireLoop j arb rem idx σ).1 := by
  intro rem
  induction rem with
  | zero => intro idx σ hI; simpa [acquireLoop] using hI
  | succ rem ih =>
    intro idx σ hI
    by_cases hskip : j.dupSkip idx
    · simp only [acquireLoop, if_pos hskip]
      exact ih (idx+1) σ hI
    · by_cases harb : (σ (j.handleOf idx)).arbiter ≠ arb
      · simp only [acquireLoop, if_neg hskip, if_pos harb]
        exact hI
      · by_cases hr : (σ (j.handleOf idx)).refcnt = 0
        · simp only [acquireLoop, if_neg hskip, if_neg harb, if_pos hr]
          refine ih (idx+1) _ (I1_upd σ (j.handleOf idx) _ ?_ hI)
          simp
          exact hI (j.handleOf idx)
        · simp only [acquireLoop, if_neg hskip, if_neg harb, if_neg hr]
          exact hI

theorem cancelLoop_I1 (j : Job) (arb : Option Nat) :
    ∀ (rem idx : Nat) (σ : State), I1 σ → I1 (cancelLoop j arb rem idx σ).1 := by
  intro rem
  induction rem with
  | zero => intro idx σ hI; simpa [cancelLoop] using hI
  | succ rem ih =>
    intro idx σ hI
    by_cases hskip : j.dupSkip idx
    · simp only [cancelLoop, if_pos hskip]
      exact ih (idx+1) σ hI
    · by_cases harb : (σ (j.handleOf idx)).arbiter ≠ arb
      · simp only [cancelLoop, if_neg hskip, if_pos harb]
        exact hI
      · simp only [cancelLoop, if_neg hskip, if_neg harb]
        refine ih (idx+1) _ (I1_upd σ (j.handleOf idx) _ ?_ hI)
        simp
        have := hI (j.handleOf idx)
        omega

theorem recordLoop_I1 (j : Job) (arb : Option Nat) (idxA : Nat) :
    ∀ (rem idx : Nat) (σ : State), I1 σ → I1 (recordLoop j arb idxA rem idx σ).1 := by
  intro rem
  induction rem with
  | zero => intro idx σ hI; simpa [recordLoop] using hI
  | succ rem ih =>
    intro idx σ hI
    by_cases harb : (σ (j.handleOf idx)).arbiter ≠ arb
    · simp only [recordLoop, if_pos harb]
      exact hI
    · simp only [recordLoop, if_neg harb]
      refine ih (idx+1) _ (I1_upd σ (j.handleOf idx) _ ?_ hI)
      simp
      have := hI (j.handleOf idx)
      by_cases hc : idxA ≤ idx <;> simp [hc] <;> omega

theorem notifyAcquireLoop_I1 (j : Job) (arb : Option Nat) :
    ∀ (rem idx : Nat) (σ : State), I1 σ →
      (∀ k, idx ≤ k → k < idx + rem → 1 ≤ (σ (j.handleOf k)).busy_count) →
      I1 (notifyAcquireLoop j arb rem idx σ).1 := by
  intro rem
  induction rem with
  | zero => intro idx σ hI _; simpa [notifyAcquireLoop] using hI
  | succ rem ih =>
    intro idx σ hI Hb
    by_cases hskip : j.dupSkip idx
    · simp only [notifyAcquireLoop, if_pos hskip]
      exact ih (idx+1) σ hI (fun k h1 h2 => Hb k (by omega) (by omega))
    · by_cases harb : (σ (j.handleOf idx)).arbiter ≠ arb
      · simp only [notifyAcquireLoop, if_neg hskip, if_pos harb]
        exact hI
      · by_cases hr : (σ (j.handleOf idx)).refcnt ≠ 0
        · simp only [notifyAcquireLoop, if_neg hskip, if_neg harb, if_pos hr]
          exact hI
        · simp only [notifyAcquireLoop, if_neg hskip, if_neg harb, if_neg hr]
          have hbusy : ∀ x, (fastTakeNotify σ (j.handleOf idx) (j.modeOf idx) x).busy_count =
              (σ x).busy_count := fun x =>
            upd_preserve σ (j.handleOf idx)
              (fun s => { s with refcnt := s.refcnt + 1, current_mode := j.modeOf idx })
              (fun s => s.busy_count) (fun s => rfl) x
          refine ih (idx+1) _ ?_ (fun k h1 h2 => by
            rw [hbusy (j.handleOf k)]
            exact Hb k (by omega) (by omega))
          refine I1_upd σ (j.handleOf idx) _ ?_ hI
          simp
          have h0 : (σ (j.handleOf idx)).refcnt = 0 := not_not.mp hr
          have h1 : 1 ≤ (σ (j.handleOf idx)).busy_count :=
            Hb idx (le_refl idx) (by omega)
          omega

theorem removalLoop_I1 (j : Job) (arb : Option Nat) :
    ∀ (rem idx : Nat) (σ : State), I1 σ → I1 (removalLoop j arb rem idx σ).1 := by
  intro rem
  induction rem with
  | zero => intro idx σ hI; simpa [removalLoop] using hI
  | succ rem ih =>
    intro idx σ hI
    by_cases hskip : j.dupSkip idx
    · simp only [removalLoop, if_pos hskip]
      exact ih (idx+1) σ hI
    · by_cases harb : (σ (j.handleOf idx)).arbiter ≠ arb
      · simp only [removalLoop, if_neg hskip, if_pos harb]
        exact hI
      · simp only [removalLoop, if_neg hskip, if_neg harb]
        refine ih (idx+1) _ (I1_upd σ (j.handleOf idx) _ ?_ hI)
        simp
        exact hI (j.handleOf idx)

/-- C5 (amended): the submission try-acquire pass, the whole submission
call (abort-and-park included), the notify rollback and the notify
promotion removal all preserve `refcnt ≤ busy_count` unconditionally; the
notify fast-take loop preserves it provided every handle it visits has
`busy_count ≥ 1` (true of handles holding a parked requester, whose parking
incremented `busy_count`; the code asserts `busy_count >= 1` at line 455).
The unconditional statement of the claim fails for the notify fast-take,
which increments `refcnt` without touching `busy_count`. -/
theorem C5_arbiter_ops_preserve_I1 :
    (∀ (j : Job) (arb : Option Nat) (rem idx : Nat) (σ : State),
      I1 σ → I1 (acquireLoop j arb rem idx σ).1) ∧
    (∀ (j : Job) (buf : Nat) (σ : State),
      I1 σ → I1 (submit_job_enforce_arbitered_deps j buf σ).1) ∧
    (∀ (j : Job) (arb : Option Nat) (rem idx : Nat) (σ : State),
      I1 σ → I1 (cancelLoop j arb rem idx σ).1) ∧
    (∀ (j : Job) (arb : Option Nat) (idxA rem idx : Nat) (σ : State),
      I1 σ → I1 (recordLoop j arb idxA rem idx σ).1) ∧
    (∀ (j : Job) (arb : Option Nat) (rem idx : Nat) (σ : State),
      I1 σ → (∀ k, idx ≤ k → k < idx + rem → 1 ≤ (σ (j.handleOf k)).busy_count) →
      I1 (notifyAcquireLoop j arb rem idx σ).1) ∧
    (∀ (j : Job) (arb : Option Nat) (rem idx : Nat) (σ : State),
      I1 σ → I1 (removalLoop j arb rem idx σ).1) := by
  refine ⟨acquireLoop_I1, ?_, cancelLoop_I1, recordLoop_I1, notifyAcquireLoop_I1,
    removalLoop_I1⟩
  intro j buf σ hI
  unfold submit_job_enforce_arbitered_deps
  by_cases hok : (acquireLoop j ((σ (j.handleOf buf)).arbiter) (j.nbuffers - buf) buf σ).2.2.1 = true
  · by_cases hlt : (acquireLoop j ((σ (j.handleOf buf)).arbiter) (j.nbuffers - buf) buf σ).2.1 < j.nbuffers
    · simp only [hok, if_true, if_pos hlt]
      exact acquireLoop_I1 j _ _ buf σ hI
    · simp only [hok, if_true, if_neg hlt]
      exact acquireLoop_I1 j _ _ buf σ hI
  · have hokf : (acquireLoop j ((σ (j.handleOf buf)).arbiter) (j.nbuffers - buf) buf σ).2.2.1 = false :=
      Bool.eq_false_iff.mpr hok
    simp only [hokf, Bool.false_eq_true, if_false]
    exact recordLoop_I1 j _ _ _ buf _
      (cancelLoop_I1 j _ _ buf _ (acquireLoop_I1 j _ _ buf σ hI))

/-- Parked requester for the C5 counterexample. -/
def rC5 : Requester :=
  { mode := AccessMode.W, j := { id := 11, buffers := [(4, AccessMode.W)] }, buffer_index := 0 }

/-- Adversarial state for the C5 counterexample: handle 4 satisfies I1
(`0 ≤ 0`) but holds a parked requester while `busy_count = 0`. -/
def σC5 : State := fun h =>
  if h = 4 then { arbiter := some 0, refcnt := 0, busy_count := 0, current_mode := AccessMode.W, arbitered_req_list := some [rC5] }
  else { arbiter := none, refcnt := 0, busy_count := 0, current_mode := AccessMode.NONE, arbitered_req_list := none }

/-- Counterexample to C5 as stated: the notify fast-take (line 435)
increments `refcnt` without incrementing `busy_count`, so from a state
satisfying only `refcnt ≤ busy_count` the notify operation can leave a
handle with `refcnt = 1 > 0 = busy_count`. -/
theorem C5_counterexample :
    I1 σC5 ∧ ¬ I1 (notify_arbitered_dependencies 4 σC5).1 := by
  constructor
  · intro h
    by_cases hx : h = 4 <;> simp [σC5, hx]
  · intro hI
    exact absurd (hI 4) (by decide)

/-- Witness for C5 (amended) at a concrete state. -/
theorem C5_witness :
    I1 σC4 ∧
    I1 (acquireLoop rC4.j (some 0) 1 0 σC4).1 ∧
    I1 (notifyAcquireLoop rC4.j (some 0) 1 0 σC4).1 :=
  ⟨by intro h; by_cases hx : h = 3 <;> simp [σC4, hx],
   C5_arbiter_ops_preserve_I1.1 rC4.j (some 0) 1 0 σC4
     (by intro h; by_cases hx : h = 3 <;> simp [σC4, hx]),
   C5_arbiter_ops_preserve_I1.2.2.2.2.1 rC4.j (some 0) 1 0 σC4
     (by intro h; by_cases hx : h = 3 <;> simp [σC4, hx])
     (by intro k h1 h2; have hk : k = 0 := by omega
         subst hk; decide)⟩

/-! ### Claims C6 and C7 -/

/-- Any field untouched by all three notify-scan loop updates is preserved
pointwise by the whole scan. -/
theorem notifyScan_preserve {α : Type} (arb : Option Nat) (g : HandleState → α)
    (hg1 : ∀ (s : HandleState) (m : AccessMode),
      g { s with refcnt := s.refcnt + 1, current_mode := m } = g s)
    (hg2 : ∀ s : HandleState, g { s with refcnt := s.refcnt - 1 } = g s)
    (hg3 : ∀ (s : HandleState) (q : Option (List Requester)),
      g { s with arbitered_req_list := q } = g s) :
    ∀ (q : List Requester) (σ : State) (x : Nat),
      g ((notifyScan arb q σ).1 x) = g (σ x) := by
  intro q
  induction q with
  | nil => intro σ x; simp [notifyScan]
  | cons r rs ih =>
    intro σ x
    by_cases hok : (notifyAcquireLoop r.j arb
        (r.j.nbuffers - findFirstGroupIdx r.j arb σ r.j.nbuffers 0)
        (findFirstGroupIdx r.j arb σ r.j.nbuffers 0) σ).2.2.1 = true
    · by_cases hc : (removalLoop r.j arb
          (r.j.nbuffers - findFirstGroupIdx r.j arb σ r.j.nbuffers 0)
          (findFirstGroupIdx r.j arb σ r.j.nbuffers 0)
          (notifyAcquireLoop r.j arb
            (r.j.nbuffers - findFirstGroupIdx r.j arb σ r.j.nbuffers 0)
            (findFirstGroupIdx r.j arb σ r.j.nbuffers 0) σ).1).2.1 < r.j.nbuffers
      · simp only [notifyScan, hok, if_pos, if_pos hc]
        rw [removalLoop_preserve r.j arb g (fun s q2 => hg3 s q2) _ _ _ x,
          notifyAcquireLoop_preserve r.j arb g hg1 _ _ σ x]
      · simp only [notifyScan, hok, if_pos, if_neg hc]
        rw [removalLoop_preserve r.j arb g (fun s q2 => hg3 s q2) _ _ _ x,
          notifyAcquireLoop_preserve r.j arb g hg1 _ _ σ x]
    · have hokf : (notifyAcquireLoop r.j arb
          (r.j.nbuffers - findFirstGroupIdx r.j arb σ r.j.nbuffers 0)
          (findFirstGroupIdx r.j arb σ r.j.nbuffers 0) σ).2.2.1 = false :=
        Bool.eq_false_iff.mpr hok
      simp only [notifyScan, hokf, Bool.false_eq_true, if_false]
      rw [ih _ x, cancelLoop_preserve r.j arb g hg2 _ _ _ x,
        notifyAcquireLoop_preserve r.j arb g hg1 _ _ σ x]

/-- A notify call never changes any handle's `arbiter` field. -/
theorem notify_preserves_arbiter (hh : Nat) (σ : State) (x : Nat) :
    ((notify_arbitered_dependencies hh σ).1 x).arbiter = (σ x).arbiter := by
  unfold notify_arbitered_dependencies
  cases hq : (σ hh).arbitered_req_list with
  | none => rfl
  | some q =>
    cases ho : (notifyScan ((σ hh).arbiter) q σ).2.1 with
    | idle =>
      simp only [ho]
      exact notifyScan_preserve ((σ hh).arbiter) (fun s => s.arbiter)
        (fun s m => rfl) (fun s => rfl) (fun s q2 => rfl) q σ x
    | promoted jid nxt =>
      simp only [ho]
      exact notifyScan_preserve ((σ hh).arbiter) (fun s => s.arbiter)
        (fun s m => rfl) (fun s => rfl) (fun s q2 => rfl) q σ x

/-- A submission call never changes any handle's `arbiter` field. -/
theorem submit_preserves_arbiter (j : Job) (buf : Nat) (σ : State) (x : Nat) :
    ((submit_job_enforce_arbitered_deps j buf σ).1 x).arbiter = (σ x).arbiter := by
  unfold submit_job_enforce_arbitered_deps
  by_cases hok : (acquireLoop j ((σ (j.handleOf buf)).arbiter) (j.nbuffers - buf) buf σ).2.2.1 = true
  · by_cases hlt : (acquireLoop j ((σ (j.handleOf buf)).arbiter) (j.nbuffers - buf) buf σ).2.1 < j.nbuffers
    · simp only [hok, if_true, if_pos hlt]
      exact acquireLoop_preserve j _ (fun s => s.arbiter) (fun s m => rfl) _ buf σ x
    · simp only [hok, if_true, if_neg hlt]
      exact acquireLoop_preserve j _ (fun s => s.arbiter) (fun s m => rfl) _ buf σ x
  · have hokf : (acquireLoop j ((σ (j.handleOf buf)).arbiter) (j.nbuffers - buf) buf σ).2.2.1 = false :=
      Bool.eq_false_iff.mpr hok
    simp only [hokf, Bool.false_eq_true, if_false]
    rw [recordLoop_preserve j _ _ (fun s => s.arbiter) (fun s r c => rfl) _ buf _ x,
      cancelLoop_preserve j _ (fun s => s.arbiter) (fun s => rfl) _ buf _ x,
      acquireLoop_preserve j _ (fun s => s.arbiter) (fun s m => rfl) _ buf σ x]

/-- C6: `starpu_data_assign_arbiter` assigns the arbiter exactly when the
handle has no arbiter yet and both `refcnt` and `busy_count` are 0 (in
every other case the three STARPU_ASSERT_MSG checks abort fatally); on
success only that handle's `arbiter` field changes; and neither submission
nor notify ever changes any handle's `arbiter` field. -/
theorem C6_assign_arbiter_iff_and_immutable :
    (∀ (σ : State) (h a : Nat),
      (starpu_data_assign_arbiter σ h a).isSome ↔
        ((σ h).arbiter = none ∧ (σ h).refcnt = 0 ∧ (σ h).busy_count = 0)) ∧
    (∀ (σ : State) (h a : Nat) (σ2 : State),
      starpu_data_assign_arbiter σ h a = some σ2 →
      (σ2 h).arbiter = some a ∧
      (σ2 h).refcnt = (σ h).refcnt ∧
      (σ2 h).busy_count = (σ h).busy_count ∧
      (σ2 h).current_mode = (σ h).current_mode ∧
      (σ2 h).arbitered_req_list = (σ h).arbitered_req_list ∧
      (∀ x, x ≠ h → σ2 x = σ x)) ∧
    (∀ (j : Job) (buf : Nat) (σ : State) (x : Nat),
      ((submit_job_enforce_arbitered_deps j buf σ).1 x).arbiter = (σ x).arbiter) ∧
    (∀ (hh : Nat) (σ : State) (x : Nat),
      ((notify_arbitered_dependencies hh σ).1 x).arbiter = (σ x).arbiter) := by
  refine ⟨?_, ?_, submit_preserves_arbiter, notify_preserves_arbiter⟩
  · intro σ h a
    unfold starpu_data_assign_arbiter
    by_cases hc : (σ h).arbiter = none ∧ (σ h).refcnt = 0 ∧ (σ h).busy_count = 0
    · simp [hc]
    · simp [hc]
  · intro σ h a σ2 hs
    unfold starpu_data_assign_arbiter at hs
    by_cases hc : (σ h).arbiter = none ∧ (σ h).refcnt = 0 ∧ (σ h).busy_count = 0
    · rw [if_pos hc] at hs
      obtain rfl : upd σ h (fun s => { s with arbiter := some a }) = σ2 :=
        Option.some.inj hs
      refine ⟨?_, ?_, ?_, ?_, ?_, ?_⟩
      · rw [upd_same]
      · rw [upd_same]
      · rw [upd_same]
      · rw [upd_same]
      · rw [upd_same]
      · intro x hx
        exact upd_other σ h x _ hx
    · rw [if_neg hc] at hs
      exact Option.noConfusion hs

/-- Concrete state for the C6 witness. -/
def σC6 : State := fun h =>
  if h = 1 then { arbiter := none, refcnt := 0, busy_count := 0, current_mode := AccessMode.NONE, arbitered_req_list := none }
  else { arbiter := some 9, refcnt := 2, busy_count := 3, current_mode := AccessMode.W, arbitered_req_list := none }

/-- Witness for C6: assignment succeeds on a fresh handle and fails on a
busy one; submission leaves arbiters unchanged. -/
theorem C6_witness :
    ((starpu_data_assign_arbiter σC6 1 7).isSome ↔
      ((σC6 1).arbiter = none ∧ (σC6 1).refcnt = 0 ∧ (σC6 1).busy_count = 0)) ∧
    ((starpu_data_assign_arbiter σC6 2 7).isSome ↔
      ((σC6 2).arbiter = none ∧ (σC6 2).refcnt = 0 ∧ (σC6 2).busy_count = 0)) ∧
    ((submit_job_enforce_arbitered_deps jC2 0 σC2).1 1).arbiter = (σC2 1).arbiter :=
  ⟨C6_assign_arbiter_iff_and_immutable.1 σC6 1 7,
   C6_assign_arbiter_iff_and_immutable.1 σC6 2 7,
   C6_assign_arbiter_iff_and_immutable.2.2.1 jC2 0 σC2 1⟩

/-- C7: notifying a handle whose arbitered requester queue is empty (NULL
pointer, or an empty list) changes no state at all and promotes no task. -/
theorem C7_notify_empty_queue_noop (hh : Nat) (σ : State)
    (hq : (σ hh).arbitered_req_list = none ∨ (σ hh).arbitered_req_list = some []) :
    (notify_arbitered_dependencies hh σ).1 = σ ∧
    (notify_arbitered_dependencies hh σ).2.1 = NotifyOutcome.idle := by
  unfold notify_arbitered_dependencies
  rcases hq with hq | hq
  · rw [hq]
    exact ⟨rfl, rfl⟩
  · rw [hq]
    exact ⟨rfl, rfl⟩

/-- Concrete state for the C7 witness. -/
def σC7 : State := fun h =>
  if h = 2 then { arbiter := some 0, refcnt := 1, busy_count := 4, current_mode := AccessMode.R, arbitered_req_list := none }
  else { arbiter := none, refcnt := 0, busy_count := 0, current_mode := AccessMode.NONE, arbitered_req_list := none }

/-- Witness for C7 at a concrete handle with a NULL requester list. -/
theorem C7_witness :
    ((σC7 2).arbitered_req_list = none ∨ (σC7 2).arbitered_req_list = some []) ∧
    ((notify_arbitered_dependencies 2 σC7).1 = σC7 ∧
     (notify_arbitered_dependencies 2 σC7).2.1 = NotifyOutcome.idle) :=
  ⟨Or.inl (by decide),
   C7_notify_empty_queue_noop 2 σC7 (Or.inl (by decide))⟩

/-! ### Claim C9 -/

/-- Pointwise `refcnt` behavior of the submission try-acquire loop: each
handle either keeps its `refcnt` or is granted exactly one reference, and
only from `refcnt = 0`. -/
theorem acquireLoop_refcnt_cases (j : Job) (arb : Option Nat) :
    ∀ (rem idx : Nat) (σ : State) (x : Nat),
      ((acquireLoop j arb rem idx σ).1 x).refcnt = (σ x).refcnt ∨
      ((σ x).refcnt = 0 ∧ ((acquireLoop j arb rem idx σ).1 x).refcnt = 1) := by
  intro rem
  induction rem with
  | zero => intro idx σ x; simp [acquireLoop]
  | succ rem ih =>
    intro idx σ x
    by_cases hskip : j.dupSkip idx
    · simp only [acquireLoop, if_pos hskip]
      exact ih (idx+1) σ x
    · by_cases harb : (σ (j.handleOf idx)).arbiter ≠ arb
      · simp only [acquireLoop, if_neg hskip, if_pos harb]
        simp
      · by_cases hr : (σ (j.handleOf idx)).refcnt = 0
        · simp only [acquireLoop, if_neg hskip, if_neg harb, if_pos hr]
          rcases ih (idx+1) (fastTakeSubmit σ (j.handleOf idx) (j.modeOf idx)) x with hc | hc
          · rw [hc]
            by_cases hx : x = j.handleOf idx
            · refine Or.inr ⟨by rw [hx]; exact hr, ?_⟩
              rw [hx]
              simp [fastTakeSubmit, upd_same, hr]
            · rw [show fastTakeSubmit σ (j.handleOf idx) (j.modeOf idx) x = σ x from
                upd_other σ (j.handleOf idx) x _ hx]
              simp
          · by_cases hx : x = j.handleOf idx
            · exfalso
              have h1 : (fastTakeSubmit σ (j.handleOf idx) (j.modeOf idx) x).refcnt = 1 := by
                rw [hx]
                simp [fastTakeSubmit, upd_same, hr]
              have h0 := hc.1
              rw [h1] at h0
              exact Nat.one_ne_zero h0
            · rw [show fastTakeSubmit σ (j.handleOf idx) (j.modeOf idx) x = σ x from
                upd_other σ (j.handleOf idx) x _ hx] at hc
              exact Or.inr hc
        · simp only [acquireLoop, if_neg hskip, if_neg harb, if_neg hr]
          simp

/-- Pointwise `refcnt` behavior of the notify try-acquire loop: identical
to the submission pass (grants only from 0, exactly one reference). -/
theorem notifyAcquireLoop_refcnt_cases (j : Job) (arb : Option Nat) :
    ∀ (rem idx : Nat) (σ : State) (x : Nat),
      ((notifyAcquireLoop j arb rem idx σ).1 x).refcnt = (σ x).refcnt ∨
      ((σ x).refcnt = 0 ∧ ((notifyAcquireLoop j arb rem idx σ).1 x).refcnt = 1) := by
  intro rem
  induction rem with
  | zero => intro idx σ x; simp [notifyAcquireLoop]
  | succ rem ih =>
    intro idx σ x
    by_cases hskip : j.dupSkip idx
    · simp only [notifyAcquireLoop, if_pos hskip]
      exact ih (idx+1) σ x
    · by_cases harb : (σ (j.handleOf idx)).arbiter ≠ arb
      · simp only [notifyAcquireLoop, if_neg hskip, if_pos harb]
        simp
      · by_cases hr : (σ (j.handleOf idx)).refcnt ≠ 0
        · simp only [notifyAcquireLoop, if_neg hskip, if_neg harb, if_pos hr]
          simp
        · simp only [notifyAcquireLoop, if_neg hskip, if_neg harb, if_neg hr]
          have hr0 : (σ (j.handleOf idx)).refcnt = 0 := not_not.mp hr
          rcases ih (idx+1) (fastTakeNotify σ (j.handleOf idx) (j.modeOf idx)) x with hc | hc
          · rw [hc]
            by_cases hx : x = j.handleOf idx
            · refine Or.inr ⟨by rw [hx]; exact hr0, ?_⟩
              rw [hx]
              simp [fastTakeNotify, upd_same, hr0]
            · rw [show fastTakeNotify σ (j.handleOf idx) (j.modeOf idx) x = σ x from
                upd_other σ (j.handleOf idx) x _ hx]
              simp
          · by_cases hx : x = j.handleOf idx
            · exfalso
              have h1 : (fastTakeNotify σ (j.handleOf idx) (j.modeOf idx) x).refcnt = 1 := by
                rw [hx]
                simp [fastTakeNotify, upd_same, hr0]
              have h0 := hc.1
              rw [h1] at h0
              exact Nat.one_ne_zero h0
            · rw [show fastTakeNotify σ (j.handleOf idx) (j.modeOf idx) x = σ x from
                upd_other σ (j.handleOf idx) x _ hx] at hc
              exact Or.inr hc

/-- Pointwise `refcnt` conservation across the whole notify scan: each
handle either keeps its `refcnt` or is granted exactly one reference from
`refcnt = 0` (failed candidates restore what they took). -/
theorem notifyScan_refcnt_cases (arb : Option Nat) :
    ∀ (q : List Requester) (σ : State),
      (∀ r ∈ q, r.j.dupFree) →
      ∀ x, ((notifyScan arb q σ).1 x).refcnt = (σ x).refcnt ∨
        ((σ x).refcnt = 0 ∧ ((notifyScan arb q σ).1 x).refcnt = 1) := by
  intro q
  induction q with
  | nil => intro σ _ x; simp [notifyScan]
  | cons r rs ih =>
    intro σ hdf x
    by_cases hok : (notifyAcquireLoop r.j arb
        (r.j.nbuffers - findFirstGroupIdx r.j arb σ r.j.nbuffers 0)
        (findFirstGroupIdx r.j arb σ r.j.nbuffers 0) σ).2.2.1 = true
    · have hrem : ∀ (σ2 : State) (rem idx : Nat),
          ((removalLoop r.j arb rem idx σ2).1 x).refcnt = (σ2 x).refcnt := fun σ2 rem idx =>
        removalLoop_preserve r.j arb (fun s => s.refcnt) (fun s q2 => rfl) rem idx σ2 x
      by_cases hc : (removalLoop r.j arb
          (r.j.nbuffers - findFirstGroupIdx r.j arb σ r.j.nbuffers 0)
          (findFirstGroupIdx r.j arb σ r.j.nbuffers 0)
          (notifyAcquireLoop r.j arb
            (r.j.nbuffers - findFirstGroupIdx r.j arb σ r.j.nbuffers 0)
            (findFirstGroupIdx r.j arb σ r.j.nbuffers 0) σ).1).2.1 < r.j.nbuffers
      · simp only [notifyScan, hok, if_pos, if_pos hc]
        rw [hrem]
        exact notifyAcquireLoop_refcnt_cases r.j arb _ _ σ x
      · simp only [notifyScan, hok, if_pos, if_neg hc]
        rw [hrem]
        exact notifyAcquireLoop_refcnt_cases r.j arb _ _ σ x
    · have hokf : (notifyAcquireLoop r.j arb
          (r.j.nbuffers - findFirstGroupIdx r.j arb σ r.j.nbuffers 0)
          (findFirstGroupIdx r.j arb σ r.j.nbuffers 0) σ).2.2.1 = false :=
        Bool.eq_false_iff.mpr hok
      simp only [notifyScan, hokf, Bool.false_eq_true, if_false]
      have hdfr := hdf r (List.mem_cons_self r rs)
      have hnbp := findFirstGroupIdx_bounds r.j arb σ r.j.nbuffers 0
      have hrestore := notify_candidate_fail_restore r.j arb
        (r.j.nbuffers - findFirstGroupIdx r.j arb σ r.j.nbuffers 0)
        (findFirstGroupIdx r.j arb σ r.j.nbuffers 0) σ
        (fun k h1 h2 => dupFree_noSkip r.j hdfr k (by omega))
        (fun k1 k2 h1 h2 h3 => hdfr k1 k2 h2 (by omega))
        hokf
      rcases ih _ (fun r2 hr2 => hdf r2 (List.mem_cons_of_mem r hr2)) x with hc | hc
      · rw [hc, (hrestore x).2.1]
        exact Or.inl rfl
      · rw [(hrestore x).2.1] at hc
        exact Or.inr hc

/-- C9: arbitered `refcnt` is conserved or granted exactly once from 0, by
the whole submission call and by the whole notify call (for deduplicated
buffer lists), and consequently both calls keep `refcnt ≤ 1` on every
handle: an arbitered handle's `refcnt` is always 0 or 1 and mutually
compatible accesses are never held simultaneously. -/
theorem C9_arbitered_refcnt_zero_or_one :
    (∀ (j : Job) (buf : Nat) (σ : State),
      (∀ k, buf ≤ k → k < j.nbuffers → ¬ j.dupSkip k) →
      (∀ k1 k2, buf ≤ k1 → k1 < k2 → k2 < j.nbuffers → j.handleOf k1 ≠ j.handleOf k2) →
      (∀ k, buf ≤ k → k < j.nbuffers →
        (σ (j.handleOf k)).arbiter = (σ (j.handleOf buf)).arbiter) →
      ∀ x, ((submit_job_enforce_arbitered_deps j buf σ).1 x).refcnt = (σ x).refcnt ∨
        ((σ x).refcnt = 0 ∧
          ((submit_job_enforce_arbitered_deps j buf σ).1 x).refcnt = 1)) ∧
    (∀ (hh : Nat) (σ : State),
      (∀ r ∈ (σ hh).arbitered_req_list.getD [], r.j.dupFree) →
      ∀ x, ((notify_arbitered_dependencies hh σ).1 x).refcnt = (σ x).refcnt ∨
        ((σ x).refcnt = 0 ∧ ((notify_arbitered_dependencies hh σ).1 x).refcnt = 1)) ∧
    (∀ (j : Job) (buf : Nat) (σ : State),
      (∀ k, buf ≤ k → k < j.nbuffers → ¬ j.dupSkip k) →
      (∀ k1 k2, buf ≤ k1 → k1 < k2 → k2 < j.nbuffers → j.handleOf k1 ≠ j.handleOf k2) →
      (∀ k, buf ≤ k → k < j.nbuffers →
        (σ (j.handleOf k)).arbiter = (σ (j.handleOf buf)).arbiter) →
      (∀ x, (σ x).refcnt ≤ 1) →
      ∀ x, ((submit_job_enforce_arbitered_deps j buf σ).1 x).refcnt ≤ 1) ∧
    (∀ (hh : Nat) (σ : State),
      (∀ r ∈ (σ hh).arbitered_req_list.getD [], r.j.dupFree) →
      (∀ x, (σ x).refcnt ≤ 1) →
      ∀ x, ((notify_arbitered_dependencies hh σ).1 x).refcnt ≤ 1) := by
  have hsub : ∀ (j : Job) (buf : Nat) (σ : State),
      (∀ k, buf ≤ k → k < j.nbuffers → ¬ j.dupSkip k) →
      (∀ k1 k2, buf ≤ k1 → k1 < k2 → k2 < j.nbuffers → j.handleOf k1 ≠ j.handleOf k2) →
      (∀ k, buf ≤ k → k < j.nbuffers →
        (σ (j.handleOf k)).arbiter = (σ (j.handleOf buf)).arbiter) →
      ∀ x, ((submit_job_enforce_arbitered_deps j buf σ).1 x).refcnt = (σ x).refcnt ∨
        ((σ x).refcnt = 0 ∧
          ((submit_job_enforce_arbitered_deps j buf σ).1 x).refcnt = 1) := by
    intro j buf σ Hd Hdist Harb x
    by_cases hok : (acquireLoop j ((σ (j.handleOf buf)).arbiter) (j.nbuffers - buf) buf σ).2.2.1 = true
    · unfold submit_job_enforce_arbitered_deps
      by_cases hlt : (acquireLoop j ((σ (j.handleOf buf)).arbiter) (j.nbuffers - buf) buf σ).2.1 < j.nbuffers
      · simp only [hok, if_true, if_pos hlt]
        exact acquireLoop_refcnt_cases j _ _ buf σ x
      · simp only [hok, if_true, if_neg hlt]
        exact acquireLoop_refcnt_cases j _ _ buf σ x
    · have hokf : (acquireLoop j ((σ (j.handleOf buf)).arbiter) (j.nbuffers - buf) buf σ).2.2.1 = false :=
        Bool.eq_false_iff.mpr hok
      have hpark : (submit_job_enforce_arbitered_deps j buf σ).2.1 = SubmitOutcome.parked :=
        (submit_parked_iff j buf σ).mpr hokf
      have heff := submit_parked_effects j buf σ Hd Hdist Harb hpark
      by_cases hx : ∃ k, buf ≤ k ∧ k < j.nbuffers ∧ j.handleOf k = x
      · obtain ⟨k, hk1, hk2, hkx⟩ := hx
        rw [← hkx]
        exact Or.inl ((heff.1 k hk1 hk2).1)
      · rw [heff.2 x (fun k h1 h2 => fun hcontra => hx ⟨k, h1, h2, hcontra⟩)]
        exact Or.inl rfl
  have hnot : ∀ (hh : Nat) (σ : State),
      (∀ r ∈ (σ hh).arbitered_req_list.getD [], r.j.dupFree) →
      ∀ x, ((notify_arbitered_dependencies hh σ).1 x).refcnt = (σ x).refcnt ∨
        ((σ x).refcnt = 0 ∧ ((notify_arbitered_dependencies hh σ).1 x).refcnt = 1) := by
    intro hh σ hdf x
    unfold notify_arbitered_dependencies
    cases hq : (σ hh).arbitered_req_list with
    | none => exact Or.inl rfl
    | some q =>
      rw [hq] at hdf
      have hscan := notifyScan_refcnt_cases ((σ hh).arbiter) q σ (by simpa using hdf) x
      cases ho : (notifyScan ((σ hh).arbiter) q σ).2.1 with
      | idle => simpa [ho] using hscan
      | promoted jid nxt => simpa [ho] using hscan
  refine ⟨hsub, hnot, ?_, ?_⟩
  · intro j buf σ Hd Hdist Harb hle x
    rcases hsub j buf σ Hd Hdist Harb x with hc | hc
    · rw [hc]; exact hle x
    · omega
  · intro hh σ hdf hle x
    rcases hnot hh σ hdf x with hc | hc
    · rw [hc]; exact hle x
    · omega

/-- Witness for C9 at the concrete C4 promotion scenario and a failing
submission. -/
theorem C9_witness :
    (∀ x, ((submit_job_enforce_arbitered_deps jC2 0 σC2).1 x).refcnt = (σC2 x).refcnt ∨
      ((σC2 x).refcnt = 0 ∧
        ((submit_job_enforce_arbitered_deps jC2 0 σC2).1 x).refcnt = 1)) ∧
    (∀ x, ((notify_arbitered_dependencies 3 σC4).1 x).refcnt = (σC4 x).refcnt ∨
      ((σC4 x).refcnt = 0 ∧ ((notify_arbitered_dependencies 3 σC4).1 x).refcnt = 1)) :=
  ⟨C9_arbitered_refcnt_zero_or_one.1 jC2 0 σC2
     (by intro k h1 h2; have h2b : k < 2 := h2; interval_cases k <;> decide)
     (by intro k1 k2 h1 h2 h3; have h3b : k2 < 2 := h3
         interval_cases k2 <;> interval_cases k1 <;> decide)
     (by intro k h1 h2; have h2b : k < 2 := h2; interval_cases k <;> decide),
   C9_arbitered_refcnt_zero_or_one.2.1 3 σC4
     (by intro r2 hr2
         have : r2 = rC4 := by
           have hq : (σC4 3).arbitered_req_list.getD [] = [rC4] := by decide
           rw [hq] at hr2
           simpa using hr2
         subst this
         intro k1 k2 h1 h2; have : k2 < 1 := h2; omega)⟩

/-! ### Claim C10 -/

/-- The requester-list pointer invariant: the list pointer is never an
allocated empty list — it is NULL exactly when there is no requester. -/
def Qinv (σ : State) : Prop := ∀ h, (σ h).arbitered_req_list ≠ some []

theorem Qinv_upd (σ : State) (h : Nat) (f : HandleState → HandleState)
    (hn : (f (σ h)).arbitered_req_list ≠ some []) (hQ : Qinv σ) : Qinv (upd σ h f) := by
  intro x
  by_cases hx : x = h
  · subst hx
    rw [upd_same]
    exact hn
  · rw [upd_other σ h x f hx]
    exact hQ x

theorem recordLoop_Qinv (j : Job) (arb : Option Nat) (idxA : Nat) :
    ∀ (rem idx : Nat) (σ : State), Qinv σ → Qinv (recordLoop j arb idxA rem idx σ).1 := by
  intro rem
  induction rem with
  | zero => intro idx σ hQ; simpa [recordLoop] using hQ
  | succ rem ih =>
    intro idx σ hQ
    by_cases harb : (σ (j.handleOf idx)).arbiter ≠ arb
    · simp only [recordLoop, if_pos harb]
      exact hQ
    · simp only [recordLoop, if_neg harb]
      refine ih (idx+1) _ (Qinv_upd σ (j.handleOf idx) _ ?_ hQ)
      simp

theorem removalLoop_Qinv (j : Job) (arb : Option Nat) :
    ∀ (rem idx : Nat) (σ : State), Qinv σ → Qinv (removalLoop j arb rem idx σ).1 := by
  intro rem
  induction rem with
  | zero => intro idx σ hQ; simpa [removalLoop] using hQ
  | succ rem ih =>
    intro idx σ hQ
    by_cases hskip : j.dupSkip idx
    · simp only [removalLoop, if_pos hskip]
      exact ih (idx+1) σ hQ
    · by_cases harb : (σ (j.handleOf idx)).arbiter ≠ arb
      · simp only [removalLoop, if_neg hskip, if_pos harb]
        exact hQ
      · simp only [removalLoop, if_neg hskip, if_neg harb]
        refine ih (idx+1) _ (Qinv_upd σ (j.handleOf idx) _ ?_ hQ)
        by_cases hq : remove_job_from_requester_list
            ((σ (j.handleOf idx)).arbitered_req_list.getD []) j = [] <;> simp [hq]

theorem notifyScan_Qinv (arb : Option Nat) :
    ∀ (q : List Requester) (σ : State), Qinv σ → Qinv (notifyScan arb q σ).1 := by
  intro q
  induction q with
  | nil => intro σ hQ; simpa [notifyScan] using hQ
  | cons r rs ih =>
    intro σ hQ
    have hacq : Qinv (notifyAcquireLoop r.j arb
        (r.j.nbuffers - findFirstGroupIdx r.j arb σ r.j.nbuffers 0)
        (findFirstGroupIdx r.j arb σ r.j.nbuffers 0) σ).1 := by
      intro x
      rw [notifyAcquireLoop_preserve r.j arb (fun s => s.arbitered_req_list)
        (fun s m => rfl) _ _ σ x]
      exact hQ x
    by_cases hok : (notifyAcquireLoop r.j arb
        (r.j.nbuffers - findFirstGroupIdx r.j arb σ r.j.nbuffers 0)
        (findFirstGroupIdx r.j arb σ r.j.nbuffers 0) σ).2.2.1 = true
    · by_cases hc : (removalLoop r.j arb
          (r.j.nbuffers - findFirstGroupIdx r.j arb σ r.j.nbuffers 0)
          (findFirstGroupIdx r.j arb σ r.j.nbuffers 0)
          (notifyAcquireLoop r.j arb
            (r.j.nbuffers - findFirstGroupIdx r.j arb σ r.j.nbuffers 0)
            (findFirstGroupIdx r.j arb σ r.j.nbuffers 0) σ).1).2.1 < r.j.nbuffers
      · simp only [notifyScan, hok, if_pos, if_pos hc]
        exact removalLoop_Qinv r.j arb _ _ _ hacq
      · simp only [notifyScan, hok, if_pos, if_neg hc]
        exact removalLoop_Qinv r.j arb _ _ _ hacq
    · have hokf : (notifyAcquireLoop r.j arb
          (r.j.nbuffers - findFirstGroupIdx r.j arb σ r.j.nbuffers 0)
          (findFirstGroupIdx r.j arb σ r.j.nbuffers 0) σ).2.2.1 = false :=
        Bool.eq_false_iff.mpr hok
      simp only [notifyScan, hokf, Bool.false_eq_true, if_false]
      refine ih _ ?_
      intro x
      rw [cancelLoop_preserve r.j arb (fun s => s.arbitered_req_list) (fun s => rfl) _ _ _ x]
      exact hacq x

/-- C10: the arbitered requester list is allocated on first parking,
deleted as soon as the last requester is removed, and therefore never an
allocated empty list: both the submission call and the notify call
preserve this, and under it the NULL test of the notify early-return is
exactly the emptiness test. -/
theorem C10_queue_pointer_iff_nonempty :
    (∀ (j : Job) (buf : Nat) (σ : State),
      Qinv σ → Qinv (submit_job_enforce_arbitered_deps j buf σ).1) ∧
    (∀ (hh : Nat) (σ : State),
      Qinv σ → Qinv (notify_arbitered_dependencies hh σ).1) ∧
    (∀ (σ : State) (h : Nat), Qinv σ →
      ((σ h).arbitered_req_list = none ↔ (σ h).arbitered_req_list.getD [] = [])) := by
  refine ⟨?_, ?_, ?_⟩
  · intro j buf σ hQ
    unfold submit_job_enforce_arbitered_deps
    have hacq : Qinv (acquireLoop j ((σ (j.handleOf buf)).arbiter) (j.nbuffers - buf) buf σ).1 := by
      intro x
      rw [acquireLoop_preserve j _ (fun s => s.arbitered_req_list) (fun s m => rfl) _ buf σ x]
      exact hQ x
    by_cases hok : (acquireLoop j ((σ (j.handleOf buf)).arbiter) (j.nbuffers - buf) buf σ).2.2.1 = true
    · by_cases hlt : (acquireLoop j ((σ (j.handleOf buf)).arbiter) (j.nbuffers - buf) buf σ).2.1 < j.nbuffers
      · simp only [hok, if_true, if_pos hlt]
        exact hacq
      · simp only [hok, if_true, if_neg hlt]
        exact hacq
    · have hokf : (acquireLoop j ((σ (j.handleOf buf)).arbiter) (j.nbuffers - buf) buf σ).2.2.1 = false :=
        Bool.eq_false_iff.mpr hok
      simp only [hokf, Bool.false_eq_true, if_false]
      refine recordLoop_Qinv j _ _ _ buf _ ?_
      intro x
      rw [cancelLoop_preserve j _ (fun s => s.arbitered_req_list) (fun s => rfl) _ buf _ x]
      exact hacq x
  · intro hh σ hQ
    unfold notify_arbitered_dependencies
    cases hq : (σ hh).arbitered_req_list with
    | none => exact hQ
    | some q =>
      cases ho : (notifyScan ((σ hh).arbiter) q σ).2.1 with
      | idle =>
        simp only [ho]
        exact notifyScan_Qinv ((σ hh).arbiter) q σ hQ
      | promoted jid nxt =>
        simp only [ho]
        exact notifyScan_Qinv ((σ hh).arbiter) q σ hQ
  · intro σ h hQ
    constructor
    · intro hn
      rw [hn]
      rfl
    · intro he
      cases hc : (σ h).arbitered_req_list with
      | none => rfl
      | some l =>
        rw [hc] at he
        simp only [Option.getD] at he
        subst he
        exact absurd hc (hQ h)

/-- Witness for C10 at the concrete failing submission and the promoting
notify. -/
theorem C10_witness :
    Qinv σC2 ∧
    Qinv (submit_job_enforce_arbitered_deps jC2 0 σC2).1 ∧
    Qinv (notify_arbitered_dependencies 3 σC4).1 ∧
    ((σC2 1).arbitered_req_list = none ↔ (σC2 1).arbitered_req_list.getD [] = []) :=
  ⟨by intro h
      by_cases h1 : h = 1
      · simp [σC2, h1]
      · by_cases h2 : h = 2 <;> simp [σC2, h1, h2],
   C10_queue_pointer_iff_nonempty.1 jC2 0 σC2
     (by intro h
         by_cases h1 : h = 1
         · simp [σC2, h1]
         · by_cases h2 : h = 2 <;> simp [σC2, h1, h2]),
   C10_queue_pointer_iff_nonempty.2.1 3 σC4
     (by intro h
         by_cases h1 : h = 3 <;> simp [σC4, h1]),
   C10_queue_pointer_iff_nonempty.2.2 σC2 1
     (by intro h
         by_cases h1 : h = 1
         · simp [σC2, h1]
         · by_cases h2 : h = 2 <;> simp [σC2, h1, h2])⟩

/-! ### Claim C8 -/

/-- Occurrences of an event in a trace. -/
def countE (e : Event) : List Event → Nat
  | [] => 0
  | x :: tr => (if x = e then 1 else 0) + countE e tr

theorem countE_append (e : Event) (t1 t2 : List Event) :
    countE e (t1 ++ t2) = countE e t1 + countE e t2 := by
  induction t1 with
  | nil => simp [countE]
  | cons x t1 ih => simp [countE, ih]; omega

/-- No push event occurs in the trace. -/
def noPush (tr : List Event) : Prop := ∀ n, Event.pushTask n ∉ tr

theorem noPush_nil : noPush [] := fun n h => by cases h

theorem noPush_cons {e : Event} {tr : List Event}
    (he : ∀ n, e ≠ Event.pushTask n) (htr : noPush tr) : noPush (e :: tr) := by
  intro n hmem
  rcases List.mem_cons.mp hmem with rfl | hmem2
  · exact (he n) rfl
  · exact htr n hmem2

theorem noPush_append {t1 t2 : List Event} (h1 : noPush t1) (h2 : noPush t2) :
    noPush (t1 ++ t2) := by
  intro n hmem
  rcases List.mem_append.mp hmem with h | h
  · exact h1 n h
  · exact h2 n h

theorem headerOnly_noPush {tr : List Event} (htr : headerOnly tr) : noPush tr := by
  intro n hmem
  rcases htr _ hmem with ⟨h, he⟩ | ⟨h, he⟩ <;> exact Event.noConfusion he

/-- A trace whose header lock and unlock events pair up per handle. -/
def hbalanced (tr : List Event) : Prop :=
  ∀ h, countE (Event.lockH h) tr = countE (Event.unlockH h) tr

theorem hbalanced_nil : hbalanced [] := fun _ => rfl

theorem hbalanced_pair_cons (h0 : Nat) {tr : List Event} (hb : hbalanced tr) :
    hbalanced (Event.lockH h0 :: Event.unlockH h0 :: tr) := by
  intro h
  simp only [countE]
  by_cases hx : h0 = h <;> simp [hx, hb h]

theorem hbalanced_append {t1 t2 : List Event}
    (h1 : hbalanced t1) (h2 : hbalanced t2) : hbalanced (t1 ++ t2) := by
  intro h
  rw [countE_append, countE_append, h1 h, h2 h]

theorem acquireLoop_trace_hbal (j : Job) (arb : Option Nat) :
    ∀ (rem idx : Nat) (σ : State), hbalanced (acquireLoop j arb rem idx σ).2.2.2 := by
  intro rem
  induction rem with
  | zero => intro idx σ; exact hbalanced_nil
  | succ rem ih =>
    intro idx σ
    by_cases hskip : j.dupSkip idx
    · simp only [acquireLoop, if_pos hskip]
      exact ih (idx+1) σ
    · by_cases harb : (σ (j.handleOf idx)).arbiter ≠ arb
      · simp only [acquireLoop, if_neg hskip, if_pos harb]
        exact hbalanced_nil
      · by_cases hr : (σ (j.handleOf idx)).refcnt = 0
        · simp only [acquireLoop, if_neg hskip, if_neg harb, if_pos hr]
          exact hbalanced_pair_cons _ (ih (idx+1) _)
        · simp only [acquireLoop, if_neg hskip, if_neg harb, if_neg hr]
          exact hbalanced_pair_cons _ hbalanced_nil

theorem cancelLoop_trace_hbal (j : Job) (arb : Option Nat) :
    ∀ (rem idx : Nat) (σ : State), hbalanced (cancelLoop j arb rem idx σ).2 := by
  intro rem
  induction rem with
  | zero => intro idx σ; exact hbalanced_nil
  | succ rem ih =>
    intro idx σ
    by_cases hskip : j.dupSkip idx
    · simp only [cancelLoop, if_pos hskip]
      exact ih (idx+1) σ
    · by_cases harb : (σ (j.handleOf idx)).arbiter ≠ arb
      · simp only [cancelLoop, if_neg hskip, if_pos harb]
        exact hbalanced_nil
      · simp only [cancelLoop, if_neg hskip, if_neg harb]
        exact hbalanced_pair_cons _ (ih (idx+1) _)

theorem notifyAcquireLoop_trace_hbal (j : Job) (arb : Option Nat) :
    ∀ (rem idx : Nat) (σ : State), hbalanced (notifyAcquireLoop j arb rem idx σ).2.2.2 := by
  intro rem
  induction rem with
  | zero => intro idx σ; exact hbalanced_nil
  | succ rem ih =>
    intro idx σ
    by_cases hskip : j.dupSkip idx
    · simp only [notifyAcquireLoop, if_pos hskip]
      exact ih (idx+1) σ
    · by_cases harb : (σ (j.handleOf idx)).arbiter ≠ arb
      · simp only [notifyAcquireLoop, if_neg hskip, if_pos harb]
        exact hbalanced_nil
      · by_cases hr : (σ (j.handleOf idx)).refcnt ≠ 0
        · simp only [notifyAcquireLoop, if_neg hskip, if_neg harb, if_pos hr]
          exact hbalanced_pair_cons _ hbalanced_nil
        · simp only [notifyAcquireLoop, if_neg hskip, if_neg harb, if_neg hr]
          exact hbalanced_pair_cons _ (ih (idx+1) _)

theorem removalLoop_trace_hbal (j : Job) (arb : Option Nat) :
    ∀ (rem idx : Nat) (σ : State), hbalanced (removalLoop j arb rem idx σ).2.2 := by
  intro rem
  induction rem with
  | zero => intro idx σ; exact hbalanced_nil
  | succ rem ih =>
    intro idx σ
    by_cases hskip : j.dupSkip idx
    · simp only [removalLoop, if_pos hskip]
      exact ih (idx+1) σ
    · by_cases harb : (σ (j.handleOf idx)).arbiter ≠ arb
      · simp only [removalLoop, if_neg hskip, if_pos harb]
        exact hbalanced_nil
      · simp only [removalLoop, if_neg hskip, if_neg harb]
        exact hbalanced_pair_cons _ (ih (idx+1) _)

theorem countE_headerOnly {tr : List Event} (htr : headerOnly tr) (e : Event)
    (he1 : ∀ h, e ≠ Event.lockH h) (he2 : ∀ h, e ≠ Event.unlockH h) :
    countE e tr = 0 := by
  induction tr with
  | nil => rfl
  | cons x tr ih =>
    have hx := htr x (List.mem_cons_self x tr)
    have hmem : headerOnly tr := fun e2 h2 => htr e2 (List.mem_cons_of_mem x h2)
    rcases hx with ⟨h, rfl⟩ | ⟨h, rfl⟩
    · simp only [countE]
      rw [if_neg (fun hc => he1 h hc.symm), ih hmem]
    · simp only [countE]
      rw [if_neg (fun hc => he2 h hc.symm), ih hmem]

theorem noPush_no_split {tr pre post : List Event} {n : Nat}
    (hnp : noPush tr) (heq : tr = pre ++ Event.pushTask n :: post) : False := by
  subst heq
  exact hnp n (by simp)

theorem push_split_left {A B pre post : List Event} {n : Nat}
    (hnp : noPush A) (heq : A ++ B = pre ++ Event.pushTask n :: post) :
    ∃ pre2, pre = A ++ pre2 ∧ B = pre2 ++ Event.pushTask n :: post := by
  induction A generalizing pre with
  | nil =>
    exact ⟨pre, by simpa using heq.symm ▸ ⟨rfl, rfl⟩, by simpa using heq⟩
  | cons a A ih =>
    cases pre with
    | nil =>
      simp only [List.nil_append, List.cons_append, List.cons.injEq] at heq
      exact absurd (heq.1 ▸ List.mem_cons_self a A) (fun hmem => hnp n (heq.1 ▸ hmem))
    | cons p pre1 =>
      simp only [List.cons_append, List.cons.injEq] at heq
      obtain ⟨rfl, heq2⟩ := heq
      obtain ⟨pre2, h1, h2⟩ := ih (fun m hm => hnp m (List.mem_cons_of_mem _ hm)) heq2
      exact ⟨pre2, by simp [h1], h2⟩

theorem push_split_right {A B pre post : List Event} {n : Nat}
    (hnp : noPush B) (heq : A ++ B = pre ++ Event.pushTask n :: post) :
    ∃ post2, A = pre ++ Event.pushTask n :: post2 ∧ post = post2 ++ B := by
  induction A generalizing pre with
  | nil =>
    simp only [List.nil_append] at heq
    exact absurd (heq ▸ (by simp : Event.pushTask n ∈ pre ++ Event.pushTask n :: post))
      (fun hmem => hnp n hmem)
  | cons a A ih =>
    cases pre with
    | nil =>
      simp only [List.cons_append, List.nil_append, List.cons.injEq] at heq
      obtain ⟨rfl, heq2⟩ := heq
      exact ⟨A, by simp, heq2.symm⟩
    | cons p pre1 =>
      simp only [List.cons_append, List.cons.injEq] at heq
      obtain ⟨rfl, heq2⟩ := heq
      obtain ⟨post2, h1, h2⟩ := ih heq2
      exact ⟨post2, by simp [h1], h2⟩

theorem push_split_single {pre post : List Event} {n m : Nat}
    (heq : [Event.pushTask m] = pre ++ Event.pushTask n :: post) :
    pre = [] ∧ n = m ∧ post = [] := by
  cases pre with
  | nil =>
    simp only [List.nil_append, List.cons.injEq] at heq
    exact ⟨rfl, ((Event.pushTask.injEq m n).mp heq.1).symm, heq.2.symm⟩
  | cons p pre1 =>
    simp only [List.cons_append, List.cons.injEq] at heq
    have := congrArg List.length heq.2
    simp at this
    omega

/-- Any prefix of the notify scan trace that ends right before a push event
holds no header lock (lock/unlock counts per handle agree), no arbiter lock
event, and exactly one arbiter unlock event. -/
theorem notifyScan_push_locks (arb : Option Nat) :
    ∀ (q : List Requester) (σ : State) (pre post : List Event) (n : Nat),
      (notifyScan arb q σ).2.2 = pre ++ Event.pushTask n :: post →
      hbalanced pre ∧ countE Event.lockArb pre = 0 ∧ countE Event.unlockArb pre = 1 := by
  intro q
  induction q with
  | nil =>
    intro σ pre post n heq
    exact absurd heq (fun h => noPush_no_split noPush_nil h)
  | cons r rs ih =>
    intro σ pre post n heq
    by_cases hok : (notifyAcquireLoop r.j arb
        (r.j.nbuffers - findFirstGroupIdx r.j arb σ r.j.nbuffers 0)
        (findFirstGroupIdx r.j arb σ r.j.nbuffers 0) σ).2.2.1 = true
    · by_cases hc : (removalLoop r.j arb
          (r.j.nbuffers - findFirstGroupIdx r.j arb σ r.j.nbuffers 0)
          (findFirstGroupIdx r.j arb σ r.j.nbuffers 0)
          (notifyAcquireLoop r.j arb
            (r.j.nbuffers - findFirstGroupIdx r.j arb σ r.j.nbuffers 0)
            (findFirstGroupIdx r.j arb σ r.j.nbuffers 0) σ).1).2.1 < r.j.nbuffers
      · simp only [notifyScan, hok, if_pos, if_pos hc] at heq
        exfalso
        refine noPush_no_split ?_ heq
        refine noPush_append (noPush_append
          (headerOnly_noPush (notifyAcquireLoop_trace_headerOnly r.j arb _ _ σ))
          (headerOnly_noPush (removalLoop_trace_headerOnly r.j arb _ _ _))) ?_
        refine noPush_cons (fun m h => Event.noConfusion h) ?_
        exact noPush_cons (fun m h => Event.noConfusion h) noPush_nil
      · simp only [notifyScan, hok, if_pos, if_neg hc] at heq
        have hassoc : (notifyAcquireLoop r.j arb
              (r.j.nbuffers - findFirstGroupIdx r.j arb σ r.j.nbuffers 0)
              (findFirstGroupIdx r.j arb σ r.j.nbuffers 0) σ).2.2.2 ++
            (removalLoop r.j arb
              (r.j.nbuffers - findFirstGroupIdx r.j arb σ r.j.nbuffers 0)
              (findFirstGroupIdx r.j arb σ r.j.nbuffers 0)
              (notifyAcquireLoop r.j arb
                (r.j.nbuffers - findFirstGroupIdx r.j arb σ r.j.nbuffers 0)
                (findFirstGroupIdx r.j arb σ r.j.nbuffers 0) σ).1).2.2 ++
            [Event.unlockArb, Event.pushTask r.j.id] =
            ((notifyAcquireLoop r.j arb
              (r.j.nbuffers - findFirstGroupIdx r.j arb σ r.j.nbuffers 0)
              (findFirstGroupIdx r.j arb σ r.j.nbuffers 0) σ).2.2.2 ++
            (removalLoop r.j arb
              (r.j.nbuffers - findFirstGroupIdx r.j arb σ r.j.nbuffers 0)
              (findFirstGroupIdx r.j arb σ r.j.nbuffers 0)
              (notifyAcquireLoop r.j arb
                (r.j.nbuffers - findFirstGroupIdx r.j arb σ r.j.nbuffers 0)
                (findFirstGroupIdx r.j arb σ r.j.nbuffers 0) σ).1).2.2 ++
            [Event.unlockArb]) ++ [Event.pushTask r.j.id] := by
          simp
        rw [hassoc] at heq
        have hnpA : noPush ((notifyAcquireLoop r.j arb
            (r.j.nbuffers - findFirstGroupIdx r.j arb σ r.j.nbuffers 0)
            (findFirstGroupIdx r.j arb σ r.j.nbuffers 0) σ).2.2.2 ++
            (removalLoop r.j arb
              (r.j.nbuffers - findFirstGroupIdx r.j arb σ r.j.nbuffers 0)
              (findFirstGroupIdx r.j arb σ r.j.nbuffers 0)
              (notifyAcquireLoop r.j arb
                (r.j.nbuffers - findFirstGroupIdx r.j arb σ r.j.nbuffers 0)
                (findFirstGroupIdx r.j arb σ r.j.nbuffers 0) σ).1).2.2 ++
            [Event.unlockArb]) := by
          refine noPush_append (noPush_append
            (headerOnly_noPush (notifyAcquireLoop_trace_headerOnly r.j arb _ _ σ))
            (headerOnly_noPush (removalLoop_trace_headerOnly r.j arb _ _ _))) ?_
          exact noPush_cons (fun m h => Event.noConfusion h) noPush_nil
        obtain ⟨pre2, hpre, hB⟩ := push_split_left hnpA heq
        obtain ⟨hpre2, hnm, hpost⟩ := push_split_single hB
        subst hpre2
        rw [List.append_nil] at hpre
        subst hpre
        have hbA : hbalanced ((notifyAcquireLoop r.j arb
            (r.j.nbuffers - findFirstGroupIdx r.j arb σ r.j.nbuffers 0)
            (findFirstGroupIdx r.j arb σ r.j.nbuffers 0) σ).2.2.2 ++
            (removalLoop r.j arb
              (r.j.nbuffers - findFirstGroupIdx r.j arb σ r.j.nbuffers 0)
              (findFirstGroupIdx r.j arb σ r.j.nbuffers 0)
              (notifyAcquireLoop r.j arb
                (r.j.nbuffers - findFirstGroupIdx r.j arb σ r.j.nbuffers 0)
                (findFirstGroupIdx r.j arb σ r.j.nbuffers 0) σ).1).2.2 ++
            [Event.unlockArb]) := by
          refine hbalanced_append (hbalanced_append
            (notifyAcquireLoop_trace_hbal r.j arb _ _ σ)
            (removalLoop_trace_hbal r.j arb _ _ _)) ?_
          intro h
          rfl
        refine ⟨hbA, ?_, ?_⟩
        · rw [countE_append, countE_append,
            countE_headerOnly (notifyAcquireLoop_trace_headerOnly r.j arb _ _ σ)
              Event.lockArb (fun h2 hc => Event.noConfusion hc) (fun h2 hc => Event.noConfusion hc),
            countE_headerOnly (removalLoop_trace_headerOnly r.j arb _ _ _)
              Event.lockArb (fun h2 hc => Event.noConfusion hc) (fun h2 hc => Event.noConfusion hc)]
          rfl
        · rw [countE_append, countE_append,
            countE_headerOnly (notifyAcquireLoop_trace_headerOnly r.j arb _ _ σ)
              Event.unlockArb (fun h2 hc => Event.noConfusion hc) (fun h2 hc => Event.noConfusion hc),
            countE_headerOnly (removalLoop_trace_headerOnly r.j arb _ _ _)
              Event.unlockArb (fun h2 hc => Event.noConfusion hc) (fun h2 hc => Event.noConfusion hc)]
          rfl
    · have hokf : (notifyAcquireLoop r.j arb
          (r.j.nbuffers - findFirstGroupIdx r.j arb σ r.j.nbuffers 0)
          (findFirstGroupIdx r.j arb σ r.j.nbuffers 0) σ).2.2.1 = false :=
        Bool.eq_false_iff.mpr hok
      simp only [notifyScan, hokf, Bool.false_eq_true, if_false] at heq
      rw [List.append_assoc] at heq
      have hnpA : noPush ((notifyAcquireLoop r.j arb
          (r.j.nbuffers - findFirstGroupIdx r.j arb σ r.j.nbuffers 0)
          (findFirstGroupIdx r.j arb σ r.j.nbuffers 0) σ).2.2.2) :=
        headerOnly_noPush (notifyAcquireLoop_trace_headerOnly r.j arb _ _ σ)
      obtain ⟨pre2, hpre, hB⟩ := push_split_left hnpA heq
      have hnpC : noPush ((cancelLoop r.j arb
          ((notifyAcquireLoop r.j arb
            (r.j.nbuffers - findFirstGroupIdx r.j arb σ r.j.nbuffers 0)
            (findFirstGroupIdx r.j arb σ r.j.nbuffers 0) σ).2.1 -
              findFirstGroupIdx r.j arb σ r.j.nbuffers 0)
          (findFirstGroupIdx r.j arb σ r.j.nbuffers 0)
          (notifyAcquireLoop r.j arb
            (r.j.nbuffers - findFirstGroupIdx r.j arb σ r.j.nbuffers 0)
            (findFirstGroupIdx r.j arb σ r.j.nbuffers 0) σ).1).2) :=
        headerOnly_noPush (cancelLoop_trace_headerOnly r.j arb _ _ _)
      obtain ⟨pre3, hpre2, hC⟩ := push_split_left hnpC hB
      obtain ⟨hb3, hl3, hu3⟩ := ih _ pre3 post n hC
      subst hpre2
      subst hpre
      constructor
      · refine hbalanced_append (notifyAcquireLoop_trace_hbal r.j arb _ _ σ)
          (hbalanced_append (cancelLoop_trace_hbal r.j arb _ _ _) hb3)
      constructor
      · rw [countE_append, countE_append,
          countE_headerOnly (notifyAcquireLoop_trace_headerOnly r.j arb _ _ σ)
            Event.lockArb (fun h2 hc => Event.noConfusion hc) (fun h2 hc => Event.noConfusion hc),
          countE_headerOnly (cancelLoop_trace_headerOnly r.j arb _ _ _)
            Event.lockArb (fun h2 hc => Event.noConfusion hc) (fun h2 hc => Event.noConfusion hc),
          hl3]
      · rw [countE_append, countE_append,
          countE_headerOnly (notifyAcquireLoop_trace_headerOnly r.j arb _ _ σ)
            Event.unlockArb (fun h2 hc => Event.noConfusion hc) (fun h2 hc => Event.noConfusion hc),
          countE_headerOnly (cancelLoop_trace_headerOnly r.j arb _ _ _)
            Event.unlockArb (fun h2 hc => Event.noConfusion hc) (fun h2 hc => Event.noConfusion hc),
          hu3]

/-- Any prefix of a submission trace ending right before a push event:
the arbiter mutex has been released exactly once (and never re-taken) and
every header lock has been released. -/
theorem submit_push_locks (j : Job) (buf : Nat) (σ : State)
    (pre post : List Event) (n : Nat)
    (heq : (submit_job_enforce_arbitered_deps j buf σ).2.2 = pre ++ Event.pushTask n :: post) :
    hbalanced pre ∧ countE Event.lockArb pre = countE Event.unlockArb pre ∧
    countE Event.unlockArb pre = 1 := by
  unfold submit_job_enforce_arbitered_deps at heq
  by_cases hok : (acquireLoop j ((σ (j.handleOf buf)).arbiter) (j.nbuffers - buf) buf σ).2.2.1 = true
  · by_cases hlt : (acquireLoop j ((σ (j.handleOf buf)).arbiter) (j.nbuffers - buf) buf σ).2.1 < j.nbuffers
    · simp only [hok, if_true, if_pos hlt] at heq
      exfalso
      refine noPush_no_split ?_ heq
      refine noPush_cons (fun m h => Event.noConfusion h) ?_
      refine noPush_append
        (headerOnly_noPush (acquireLoop_trace_headerOnly j _ _ buf σ)) ?_
      refine noPush_cons (fun m h => Event.noConfusion h) ?_
      exact noPush_cons (fun m h => Event.noConfusion h) noPush_nil
    · simp only [hok, if_true, if_neg hlt] at heq
      have hassoc : Event.lockArb ::
          (acquireLoop j ((σ (j.handleOf buf)).arbiter) (j.nbuffers - buf) buf σ).2.2.2 ++
          [Event.unlockArb, Event.pushTask j.id] =
          (Event.lockArb ::
            ((acquireLoop j ((σ (j.handleOf buf)).arbiter) (j.nbuffers - buf) buf σ).2.2.2 ++
            [Event.unlockArb])) ++ [Event.pushTask j.id] := by
        simp
      rw [hassoc] at heq
      have hnpA : noPush (Event.lockArb ::
          ((acquireLoop j ((σ (j.handleOf buf)).arbiter) (j.nbuffers - buf) buf σ).2.2.2 ++
          [Event.unlockArb])) := by
        refine noPush_cons (fun m h => Event.noConfusion h) ?_
        refine noPush_append
          (headerOnly_noPush (acquireLoop_trace_headerOnly j _ _ buf σ)) ?_
        exact noPush_cons (fun m h => Event.noConfusion h) noPush_nil
      obtain ⟨pre2, hpre, hB⟩ := push_split_left hnpA heq
      obtain ⟨hpre2, hnm, hpost⟩ := push_split_single hB
      subst hpre2
      rw [List.append_nil] at hpre
      subst hpre
      have hbacq := acquireLoop_trace_hbal j ((σ (j.handleOf buf)).arbiter) (j.nbuffers - buf) buf σ
      refine ⟨?_, ?_, ?_⟩
      · intro h
        simp only [countE, countE_append]
        have := hbacq h
        simp
        omega
      · simp only [countE, countE_append]
        rw [countE_headerOnly (acquireLoop_trace_headerOnly j _ _ buf σ)
            Event.lockArb (fun h2 hc => Event.noConfusion hc) (fun h2 hc => Event.noConfusion hc),
          countE_headerOnly (acquireLoop_trace_headerOnly j _ _ buf σ)
            Event.unlockArb (fun h2 hc => Event.noConfusion hc) (fun h2 hc => Event.noConfusion hc)]
        simp [countE]
      · simp only [countE, countE_append]
        rw [countE_headerOnly (acquireLoop_trace_headerOnly j _ _ buf σ)
            Event.unlockArb (fun h2 hc => Event.noConfusion hc) (fun h2 hc => Event.noConfusion hc)]
        simp [countE]
  · have hokf : (acquireLoop j ((σ (j.handleOf buf)).arbiter) (j.nbuffers - buf) buf σ).2.2.1 = false :=
      Bool.eq_false_iff.mpr hok
    simp only [hokf, Bool.false_eq_true, if_false] at heq
    exfalso
    refine noPush_no_split ?_ heq
    refine noPush_cons (fun m h => Event.noConfusion h) ?_
    refine noPush_append (noPush_append (noPush_append
      (headerOnly_noPush (acquireLoop_trace_headerOnly j _ _ buf σ))
      (headerOnly_noPush (cancelLoop_trace_headerOnly j _ _ buf _)))
      (headerOnly_noPush (recordLoop_trace_headerOnly j _ _ _ buf _))) ?_
    exact noPush_cons (fun m h => Event.noConfusion h) noPush_nil

/-- Any prefix of a notify trace ending right before a push event: the
arbiter mutex has been released exactly once (and never re-taken) and
every header lock has been released. -/
theorem notify_push_locks (hh : Nat) (σ : State)
    (pre post : List Event) (n : Nat)
    (heq : (notify_arbitered_dependencies hh σ).2.2 = pre ++ Event.pushTask n :: post) :
    hbalanced pre ∧ countE Event.lockArb pre = countE Event.unlockArb pre ∧
    countE Event.unlockArb pre = 1 := by
  unfold notify_arbitered_dependencies at heq
  cases hq : (σ hh).arbitered_req_list with
  | none =>
    rw [hq] at heq
    exfalso
    refine noPush_no_split ?_ heq
    refine noPush_cons (fun m h => Event.noConfusion h) ?_
    exact noPush_cons (fun m h => Event.noConfusion h) noPush_nil
  | some q =>
    rw [hq] at heq
    cases ho : (notifyScan ((σ hh).arbiter) q σ).2.1 with
    | idle =>
      simp only [ho] at heq
      cases pre with
      | nil =>
        rw [List.nil_append] at heq
        injection heq with h1 h2
        exact Event.noConfusion h1
      | cons p pre1 =>
        simp only [List.cons_append, List.cons.injEq] at heq
        obtain ⟨rfl, heq2⟩ := heq
        have hnpB : noPush [Event.unlockArb] :=
          noPush_cons (fun m h => Event.noConfusion h) noPush_nil
        obtain ⟨post2, hsplit, hpost⟩ := push_split_right hnpB heq2
        obtain ⟨hb1, hl1, hu1⟩ :=
          notifyScan_push_locks ((σ hh).arbiter) q σ pre1 post2 n hsplit
        refine ⟨?_, ?_, ?_⟩
        · intro h
          simp only [countE]
          simp [hb1 h]
        · simp only [countE]
          simp [hl1, hu1]
        · simp only [countE]
          simp [hu1]
    | promoted jid nxt =>
      simp only [ho] at heq
      cases pre with
      | nil =>
        rw [List.nil_append] at heq
        injection heq with h1 h2
        exact Event.noConfusion h1
      | cons p pre1 =>
        simp only [List.cons_append, List.cons.injEq] at heq
        obtain ⟨rfl, heq2⟩ := heq
        obtain ⟨hb1, hl1, hu1⟩ :=
          notifyScan_push_locks ((σ hh).arbiter) q σ pre1 post n heq2
        refine ⟨?_, ?_, ?_⟩
        · intro h
          simp only [countE]
          simp [hb1 h]
        · simp only [countE]
          simp [hl1, hu1]
        · simp only [countE]
          simp [hu1]

/-- C8: in both the submission path and the notify path, whenever the trace
pushes a task to the scheduling policy, the prefix before the push holds no
lock: the arbiter mutex has been unlocked exactly once and never re-locked
(lock count = unlock count = 1), and every handle header_lock taken in the
prefix has been released (per-handle lock/unlock counts agree). -/
theorem C8_push_with_no_lock_held :
    (∀ (j : Job) (buf : Nat) (σ : State) (pre post : List Event) (n : Nat),
      (submit_job_enforce_arbitered_deps j buf σ).2.2 = pre ++ Event.pushTask n :: post →
      hbalanced pre ∧ countE Event.lockArb pre = countE Event.unlockArb pre ∧
      countE Event.unlockArb pre = 1) ∧
    (∀ (hh : Nat) (σ : State) (pre post : List Event) (n : Nat),
      (notify_arbitered_dependencies hh σ).2.2 = pre ++ Event.pushTask n :: post →
      hbalanced pre ∧ countE Event.lockArb pre = countE Event.unlockArb pre ∧
      countE Event.unlockArb pre = 1) :=
  ⟨submit_push_locks, notify_push_locks⟩

/-- Job for the C8 witness: one free handle, so submission pushes. -/
def jC8 : Job := { id := 21, buffers := [(6, AccessMode.W)] }

/-- State for the C8 witness. -/
def σC8 : State := fun h =>
  if h = 6 then { arbiter := some 2, refcnt := 0, busy_count := 0, current_mode := AccessMode.NONE, arbitered_req_list := none }
  else { arbiter := none, refcnt := 0, busy_count := 0, current_mode := AccessMode.NONE, arbitered_req_list := none }

/-- Witness for C8 at a concrete pushing submission and a concrete pushing
notify. -/
theorem C8_witness :
    ((submit_job_enforce_arbitered_deps jC8 0 σC8).2.2 =
      [Event.lockArb, Event.lockH 6, Event.unlockH 6, Event.unlockArb] ++
        Event.pushTask 21 :: []) ∧
    (hbalanced [Event.lockArb, Event.lockH 6, Event.unlockH 6, Event.unlockArb] ∧
      countE Event.lockArb [Event.lockArb, Event.lockH 6, Event.unlockH 6, Event.unlockArb] =
        countE Event.unlockArb [Event.lockArb, Event.lockH 6, Event.unlockH 6, Event.unlockArb] ∧
      countE Event.unlockArb [Event.lockArb, Event.lockH 6, Event.unlockH 6, Event.unlockArb] = 1) ∧
    ((notify_arbitered_dependencies 3 σC4).2.2 =
      [Event.lockArb, Event.lockH 3, Event.unlockH 3, Event.lockH 3, Event.unlockH 3,
        Event.unlockArb] ++ Event.pushTask 9 :: []) ∧
    (hbalanced [Event.lockArb, Event.lockH 3, Event.unlockH 3, Event.lockH 3, Event.unlockH 3,
        Event.unlockArb] ∧
      countE Event.lockArb [Event.lockArb, Event.lockH 3, Event.unlockH 3, Event.lockH 3,
        Event.unlockH 3, Event.unlockArb] =
        countE Event.unlockArb [Event.lockArb, Event.lockH 3, Event.unlockH 3, Event.lockH 3,
          Event.unlockH 3, Event.unlockArb] ∧
      countE Event.unlockArb [Event.lockArb, Event.lockH 3, Event.unlockH 3, Event.lockH 3,
        Event.unlockH 3, Event.unlockArb] = 1) :=
  ⟨by decide,
   C8_push_with_no_lock_held.1 jC8 0 σC8
     [Event.lockArb, Event.lockH 6, Event.unlockH 6, Event.unlockArb] [] 21 (by decide),
   by decide,
   C8_push_with_no_lock_held.2 3 σC4
     [Event.lockArb, Event.lockH 3, Event.unlockH 3, Event.lockH 3, Event.unlockH 3,
       Event.unlockArb] [] 9 (by decide)⟩

end StarPU
